import Mathlib

/-!
Verification of the brainfile board core: a shallow embedding of the
snapshot model (`models.py`), the lookup layer (`query.py`), id generation
(`id_gen.py`), the mutation layer (`operations.py`) and the diff engine
(`realtime.py`), together with theorems settling the specification claims.

Python `None`-able fields become `Option`, Python lists become `List`,
str-valued enums become inductives, and `dict` indexes keyed by id become
association lists built with dict-style upsert (insert keeps position,
re-assignment replaces in place).  Python string `strip` is modelled by
the character-level `pyStrip`.
-/

namespace Brainfile

/-- `Priority` enum from `models.py` (low < medium < high < critical). -/
inductive Priority where
  | low
  | medium
  | high
  | critical
deriving DecidableEq, Repr

/-- `Priority(value)` conversion: succeeds exactly on the four enum values
(`try Priority(...) except ValueError`). -/
def Priority.ofString? : String → Option Priority
  | "low" => some .low
  | "medium" => some .medium
  | "high" => some .high
  | "critical" => some .critical
  | _ => none

/-- `TemplateType` enum from `models.py`. -/
inductive TemplateType where
  | bug
  | feature
  | refactor
deriving DecidableEq, Repr

/-- `TemplateType(value)` conversion, `none` on `ValueError`. -/
def TemplateType.ofString? : String → Option TemplateType
  | "bug" => some .bug
  | "feature" => some .feature
  | "refactor" => some .refactor
  | _ => none

/-- `Subtask` model: id, title, completed flag. -/
structure Subtask where
  id : String
  title : String
  completed : Bool := false
deriving DecidableEq, Repr

/-- `Rule` model. -/
structure Rule where
  id : Int
  rule : String
deriving DecidableEq, Repr

/-- `Rules` model. -/
structure Rules where
  always : Option (List Rule) := none
  never : Option (List Rule) := none
  prefer_ : Option (List Rule) := none
  context : Option (List Rule) := none
deriving DecidableEq, Repr

/-- `AgentInstructions` model. -/
structure AgentInstructions where
  instructions : List String
  llm_notes : Option String := none
deriving DecidableEq, Repr

/-- `StatsConfig` model. -/
structure StatsConfig where
  columns : Option (List String) := none
deriving DecidableEq, Repr

/-- `Deliverable` model (contract system). -/
structure Deliverable where
  type : String
  path : String
  description : Option String := none
deriving DecidableEq, Repr

/-- `ValidationConfig` model (contract system). -/
structure ValidationConfig where
  commands : Option (List String) := none
deriving DecidableEq, Repr

/-- `ContractContext` model (contract system). -/
structure ContractContext where
  background : Option String := none
  relevant_files : Option (List String) := none
  out_of_scope : Option (List String) := none
deriving DecidableEq, Repr

/-- `ContractMetrics` model (contract system). -/
structure ContractMetrics where
  picked_up_at : Option String := none
  delivered_at : Option String := none
  duration : Option Int := none
  rework_count : Option Int := none
deriving DecidableEq, Repr

/-- `ContractStatus` literal type. -/
inductive ContractStatus where
  | draft
  | ready
  | in_progress
  | delivered
  | done
  | failed
deriving DecidableEq, Repr

/-- `Contract` model (contract system). -/
structure Contract where
  status : ContractStatus := .draft
  deliverables : Option (List Deliverable) := none
  validation : Option ValidationConfig := none
  constraints : Option (List String) := none
  context : Option ContractContext := none
  metrics : Option ContractMetrics := none
deriving DecidableEq, Repr

/-- `Task` model from `models.py` (v2 fields included). -/
structure Task where
  id : String
  title : String
  parent_id : Option String := none
  description : Option String := none
  related_files : Option (List String) := none
  assignee : Option String := none
  tags : Option (List String) := none
  priority : Option Priority := none
  due_date : Option String := none
  subtasks : Option (List Subtask) := none
  template : Option TemplateType := none
  created_at : Option String := none
  updated_at : Option String := none
  completed_at : Option String := none
  column : Option String := none
  position : Option Int := none
  contract : Option Contract := none
  type : Option String := none
deriving DecidableEq, Repr

/-- `Column` model. -/
structure Column where
  id : String
  title : String
  order : Option Int := none
  completion_column : Option Bool := none
  tasks : List Task := []
deriving DecidableEq, Repr

/-- `Board` model. -/
structure Board where
  title : String
  type : Option String := none
  schema_url : Option String := none
  protocol_version : Option String := none
  agent : Option AgentInstructions := none
  rules : Option Rules := none
  columns : List Column := []
  archive : Option (List Task) := none
  stats_config : Option StatsConfig := none
deriving DecidableEq, Repr

/-! ## Lookup layer (`query.py`) -/

/-- `TaskInfo` from `query.py`: a task together with its owning column and
its 0-based index within that column. -/
structure TaskInfo where
  task : Task
  column : Column
  index : Nat
deriving DecidableEq, Repr

/-- Inner loop of `find_column_by_id`: first column whose id matches. -/
def findColumn (column_id : String) : List Column → Option Column
  | [] => none
  | c :: cs => if c.id = column_id then some c else findColumn column_id cs

/-- `find_column_by_id` from `query.py`. -/
def find_column_by_id (board : Board) (column_id : String) : Option Column :=
  findColumn column_id board.columns

/-- Inner loop of `find_task_by_id`: first task (with its enumeration
index) whose id matches. -/
def findTaskAux (task_id : String) : List Task → Nat → Option (Task × Nat)
  | [], _ => none
  | t :: ts, i => if t.id = task_id then some (t, i) else findTaskAux task_id ts (i + 1)

/-- Outer loop of `find_task_by_id`: scan columns in order. -/
def findTaskInColumns (task_id : String) : List Column → Option TaskInfo
  | [] => none
  | c :: cs =>
    match findTaskAux task_id c.tasks 0 with
    | some (t, i) => some ⟨t, c, i⟩
    | none => findTaskInColumns task_id cs

/-- `find_task_by_id` from `query.py`: first occurrence across all columns. -/
def find_task_by_id (board : Board) (task_id : String) : Option TaskInfo :=
  findTaskInColumns task_id board.columns

/-- `get_all_tasks` from `query.py`: all tasks of all columns, flattened in
column order. -/
def get_all_tasks (board : Board) : List Task :=
  board.columns.flatMap Column.tasks

/-- The ids of all tasks in active columns (the archive excluded), in
board order.  Derived view used to state uniqueness/freshness claims. -/
def activeTaskIds (board : Board) : List String :=
  (get_all_tasks board).map Task.id

/-- Ids of archived tasks (empty when the archive is absent). -/
def archivedTaskIds (board : Board) : List String :=
  (board.archive.getD []).map Task.id

/-- The task value found for an id, if any (first occurrence). -/
def getTask? (board : Board) (task_id : String) : Option Task :=
  (find_task_by_id board task_id).map TaskInfo.task

/-- The id of the column owning a task, if the task is found. -/
def columnIdOf? (board : Board) (task_id : String) : Option String :=
  (find_task_by_id board task_id).map (fun info => info.column.id)

/-- The ids of a board's columns, in order. -/
def columnIds (board : Board) : List String :=
  board.columns.map Column.id

/-! ## Id generation (`id_gen.py`) -/

/-- Value of a (non-empty) digit run, as `int(...)` reads it. -/
def parseDigits (cs : List Char) : Nat :=
  cs.foldl (fun acc c => acc * 10 + (c.toNat - 48)) 0

/-- Strip an exact literal pattern from the front of a character list
(the regex prefix `task-` is a literal after `re.escape`). -/
def dropLit? : List Char → List Char → Option (List Char)
  | [], s => some s
  | _ :: _, [] => none
  | p :: ps, c :: cs => if p = c then dropLit? ps cs else none

/-- `re.search(prefix + "-(\\d+)", s)` with a literal prefix: scan left to
right; at the first position where the literal pattern is followed by at
least one digit, return the value of the maximal digit run. -/
def searchNumber (pat : List Char) : List Char → Option Nat
  | [] => none
  | c :: cs =>
    match dropLit? pat (c :: cs) with
    | some rest =>
      let ds := rest.takeWhile Char.isDigit
      if ds.isEmpty then searchNumber pat cs else some (parseDigits ds)
    | none => searchNumber pat cs

/-- `extract_task_id_number` from `id_gen.py` with the default prefix
`"task"`: numeric portion of the first `task-<digits>` occurrence, or 0. -/
def extract_task_id_number (task_id : String) : Nat :=
  (searchNumber ("task-".data) task_id.data).getD 0

/-- `get_max_task_id_number` from `id_gen.py`: maximum extracted number
over tasks of all active columns (the archive is deliberately not
scanned); 0 for a board with no active tasks.  `max(xs) if xs else 0`
equals a fold of `max` from 0 because the values are naturals. -/
def get_max_task_id_number (board : Board) : Nat :=
  ((get_all_tasks board).map (fun t => extract_task_id_number t.id)).foldl max 0

/-- The character of a decimal digit (only ever applied below 10). -/
def digitChar : Nat → Char
  | 0 => '0'
  | 1 => '1'
  | 2 => '2'
  | 3 => '3'
  | 4 => '4'
  | 5 => '5'
  | 6 => '6'
  | 7 => '7'
  | 8 => '8'
  | _ => '9'

/-- Decimal digit characters, least significant first, with enough fuel
to terminate structurally (each step divides by ten). -/
def natDigitsRevAux : Nat → Nat → List Char
  | 0, _ => []
  | fuel + 1, n =>
    if n < 10 then [digitChar n]
    else digitChar (n % 10) :: natDigitsRevAux fuel (n / 10)

/-- Decimal digit characters of a natural number, least significant first
(the rendering used by the Python f-string `f"task-{max_id + 1}"`). -/
def natDigitsRev (n : Nat) : List Char :=
  natDigitsRevAux (n + 1) n

/-- Decimal string of a natural number. -/
def natToString (n : Nat) : String :=
  String.mk (natDigitsRev n).reverse

/-- `generate_next_task_id` from `id_gen.py`. -/
def generate_next_task_id (board : Board) : String :=
  "task-" ++ natToString (get_max_task_id_number board + 1)

/-- `generate_subtask_id` from `id_gen.py`. -/
def generate_subtask_id (task_id : String) (index : Nat) : String :=
  task_id ++ "-" ++ natToString index

/-- One step of the loop in `generate_next_subtask_id`: the index of a
subtask id that matches `task_id-(\d+)` anchored at the start
(`re.match`), kept only when positive. -/
def subtaskIndexOf (task_id : String) (subtask_id : String) : Option Nat :=
  match dropLit? (task_id ++ "-").data subtask_id.data with
  | some rest =>
    let ds := rest.takeWhile Char.isDigit
    if ds.isEmpty then none
    else
      let i := parseDigits ds
      if i > 0 then some i else none
  | none => none

/-- `generate_next_subtask_id` from `id_gen.py`. -/
def generate_next_subtask_id (task_id : String) (existing : List String) : String :=
  let indices := existing.filterMap (subtaskIndexOf task_id)
  generate_subtask_id task_id (indices.foldl max 0 + 1)

/-- Python `str.strip()`: drop whitespace from both ends.  Modelled over
the character list so that it reduces in the kernel (Lean's own
`String.trim` works on byte positions and does not). -/
def pyStrip (s : String) : String :=
  String.mk (((s.data.dropWhile Char.isWhitespace).reverse.dropWhile
    Char.isWhitespace).reverse)

/-! ## Mutation layer (`operations.py`) -/

/-- Priority payloads may be an enum value or a plain string
(`Priority | str` in the Python signatures). -/
inductive PriorityInput where
  | enum (p : Priority)
  | raw (s : String)
deriving DecidableEq, Repr

/-- Template payloads may be an enum value or a plain string. -/
inductive TemplateInput where
  | enum (t : TemplateType)
  | raw (s : String)
deriving DecidableEq, Repr

/-- Python truthiness of an optional priority payload: `None` and the
empty string are falsy, enum members are truthy. -/
def priorityInputTruthy : Option PriorityInput → Bool
  | none => false
  | some (.enum _) => true
  | some (.raw s) => s ≠ ""

/-- Python truthiness of an optional template payload. -/
def templateInputTruthy : Option TemplateInput → Bool
  | none => false
  | some (.enum _) => true
  | some (.raw s) => s ≠ ""

/-- `TaskInput` from `operations.py`. -/
structure TaskInput where
  title : String
  description : Option String := none
  priority : Option PriorityInput := none
  tags : Option (List String) := none
  assignee : Option String := none
  due_date : Option String := none
  related_files : Option (List String) := none
  template : Option TemplateInput := none
  subtasks : Option (List String) := none
deriving DecidableEq, Repr

/-- The three-state patch field of `TaskPatch`: `unset` is the `_UNSET`
sentinel (leave the field alone), `clear` is an explicit `None` (remove
the field), `setTo` carries an explicit value. -/
inductive PatchField (α : Type) where
  | unset : PatchField α
  | clear : PatchField α
  | setTo : α → PatchField α
deriving DecidableEq, Repr

/-- `TaskPatch` from `operations.py`.  `title` is `str | None` in the
source, where `None` means "leave unchanged" (a title cannot be cleared);
every other field is three-state. -/
structure TaskPatch where
  title : Option String := none
  description : PatchField String := .unset
  priority : PatchField PriorityInput := .unset
  tags : PatchField (List String) := .unset
  assignee : PatchField String := .unset
  due_date : PatchField String := .unset
  related_files : PatchField (List String) := .unset
  template : PatchField TemplateInput := .unset
deriving DecidableEq, Repr

/-- `BoardOperationResult` from `operations.py`. -/
structure BoardOperationResult where
  success : Bool
  board : Option Board := none
  error : Option String := none
deriving DecidableEq, Repr

/-- `BulkItemResult` from `operations.py`. -/
structure BulkItemResult where
  id : String
  success : Bool
  error : Option String := none
deriving DecidableEq, Repr

/-- `BulkOperationResult` from `operations.py`. -/
structure BulkOperationResult where
  success : Bool
  board : Option Board := none
  results : List BulkItemResult := []
  success_count : Nat := 0
  failure_count : Nat := 0
deriving DecidableEq, Repr

/-- `_deep_copy_board`: `model_copy(deep=True)` produces a structurally
independent value equal to the source board; on values this is the
identity. -/
def deep_copy_board (board : Board) : Board := board

/-- `task.model_copy(deep=True)` on a single task. -/
def deep_copy_task (task : Task) : Task := task

/-- Replace the first list element satisfying `p` by its image under `f`
(the `for ... if ...: mutate; break` loop shape). -/
def modifyFirst (p : α → Bool) (f : α → α) : List α → List α
  | [] => []
  | x :: xs => if p x then f x :: xs else x :: modifyFirst p f xs

/-- Insert at a clamped position (`list.insert` semantics: a negative
index counts from the end and floors at 0, an index beyond the length
appends). -/
def insertAtNat : List α → Nat → α → List α
  | l, 0, x => x :: l
  | [], _ + 1, x => [x]
  | y :: ys, n + 1, x => y :: insertAtNat ys n x

/-- Python `list.insert(i, x)` for a possibly negative `int` index. -/
def pyInsert (l : List α) (i : Int) (x : α) : List α :=
  let j : Nat := if i < 0 then ((l.length : Int) + i).toNat else i.toNat
  insertAtNat l j x

/-- The per-column body of the final loop of `move_task` (the loop has no
`break` and inspects only the column's own id, so it is a `map`): reorder
in place when the column is both source and target, drop the task from the
source, insert a deep copy into the target. -/
def moveTaskTransform (task_id from_column_id to_column_id : String)
    (task_index : Nat) (to_index : Int) (task : Task) (col : Column) : Column :=
  if col.id = from_column_id ∧ col.id = to_column_id then
    match col.tasks.get? task_index with
    | some moved_task =>
      { col with tasks := pyInsert (col.tasks.eraseIdx task_index) to_index moved_task }
    | none => col
  else if col.id = from_column_id then
    { col with tasks := col.tasks.filter (fun t => t.id != task_id) }
  else if col.id = to_column_id then
    { col with tasks := pyInsert col.tasks to_index (deep_copy_task task) }
  else col

/-- `move_task` from `operations.py`. -/
def move_task (board : Board) (task_id : String) (from_column_id : String)
    (to_column_id : String) (to_index : Int) : BoardOperationResult :=
  match find_column_by_id board from_column_id with
  | none => ⟨false, none, some ("Source column " ++ from_column_id ++ " not found")⟩
  | some from_column =>
    match find_column_by_id board to_column_id with
    | none => ⟨false, none, some ("Target column " ++ to_column_id ++ " not found")⟩
    | some _ =>
      match findTaskAux task_id from_column.tasks 0 with
      | none =>
        ⟨false, none,
          some ("Task " ++ task_id ++ " not found in column " ++ from_column_id)⟩
      | some (task, task_index) =>
        let nb := deep_copy_board board
        let cols := nb.columns.map
          (moveTaskTransform task_id from_column_id to_column_id task_index to_index task)
        ⟨true, some { nb with columns := cols }, none⟩

/-- `add_task` from `operations.py`. -/
def add_task (board : Board) (column_id : String) (input_data : TaskInput) :
    BoardOperationResult :=
  match find_column_by_id board column_id with
  | none => ⟨false, none, some ("Column " ++ column_id ++ " not found")⟩
  | some _ =>
    if input_data.title = "" ∨ pyStrip input_data.title = "" then
      ⟨false, none, some ("Task title is required")⟩
    else
      let new_task_id := generate_next_task_id board
      let subtasks : Option (List Subtask) :=
        match input_data.subtasks with
        | some (s :: ss) =>
          some (((s :: ss).enum).map
            (fun p => ⟨new_task_id ++ "-" ++ natToString (p.1 + 1), pyStrip p.2, false⟩))
        | _ => none
      let priority : Option Priority :=
        if priorityInputTruthy input_data.priority then
          match input_data.priority with
          | some (.enum p) => some p
          | some (.raw s) => Priority.ofString? s
          | none => none
        else none
      let template : Option TemplateType :=
        if templateInputTruthy input_data.template then
          match input_data.template with
          | some (.enum t) => some t
          | some (.raw s) => TemplateType.ofString? s
          | none => none
        else none
      let new_task : Task :=
        { id := new_task_id
          title := pyStrip input_data.title
          description :=
            match input_data.description with
            | some s => if s = "" then none else some (pyStrip s)
            | none => none
          priority := priority
          tags := match input_data.tags with
            | some (x :: xs) => some (x :: xs)
            | _ => none
          assignee := input_data.assignee
          due_date := input_data.due_date
          related_files := match input_data.related_files with
            | some (x :: xs) => some (x :: xs)
            | _ => none
          template := template
          subtasks := match subtasks with
            | some (st :: sts) => some (st :: sts)
            | _ => none }
      let nb := deep_copy_board board
      let cols := modifyFirst (fun c => c.id == column_id)
        (fun c => { c with tasks := c.tasks ++ [new_task] }) nb.columns
      ⟨true, some { nb with columns := cols }, none⟩

/-- `update_task` from `operations.py`. -/
def update_task (board : Board) (column_id : String) (task_id : String)
    (new_title : String) (new_description : String) : BoardOperationResult :=
  match find_column_by_id board column_id with
  | none => ⟨false, none, some ("Column " ++ column_id ++ " not found")⟩
  | some column =>
    if column.tasks.any (fun t => t.id == task_id) then
      let nb := deep_copy_board board
      let updTask := fun (t : Task) =>
        { t with title := new_title, description := some new_description }
      let cols := modifyFirst (fun c => c.id == column_id)
        (fun c => { c with tasks := modifyFirst (fun t => t.id == task_id) updTask c.tasks })
        nb.columns
      ⟨true, some { nb with columns := cols }, none⟩
    else
      ⟨false, none,
        some ("Task " ++ task_id ++ " not found in column " ++ column_id)⟩

/-- `delete_task` from `operations.py`. -/
def delete_task (board : Board) (column_id : String) (task_id : String) :
    BoardOperationResult :=
  match find_column_by_id board column_id with
  | none => ⟨false, none, some ("Column " ++ column_id ++ " not found")⟩
  | some column =>
    if column.tasks.any (fun t => t.id == task_id) then
      let nb := deep_copy_board board
      let cols := modifyFirst (fun c => c.id == column_id)
        (fun c => { c with tasks := c.tasks.filter (fun t => t.id != task_id) })
        nb.columns
      ⟨true, some { nb with columns := cols }, none⟩
    else
      ⟨false, none,
        some ("Task " ++ task_id ++ " not found in column " ++ column_id)⟩

/-- Truthiness of `t.subtasks` (a Python list: `None` and `[]` are falsy). -/
def subtasksTruthy (t : Task) : Bool :=
  match t.subtasks with
  | some (_ :: _) => true
  | _ => false

/-- `toggle_subtask` from `operations.py`. -/
def toggle_subtask (board : Board) (task_id : String) (subtask_id : String) :
    BoardOperationResult :=
  match find_task_by_id board task_id with
  | none => ⟨false, none, some ("Task " ++ task_id ++ " not found")⟩
  | some info =>
    if !subtasksTruthy info.task then
      ⟨false, none, some ("Task " ++ task_id ++ " has no subtasks")⟩
    else if !(info.task.subtasks.getD []).any (fun st => st.id == subtask_id) then
      ⟨false, none, some ("Subtask " ++ subtask_id ++ " not found")⟩
    else
      let nb := deep_copy_board board
      let updSt := modifyFirst (fun (st : Subtask) => st.id == subtask_id)
        (fun st => { st with completed := !st.completed })
      let updTask := fun (t : Task) => { t with subtasks := t.subtasks.map updSt }
      let cols := modifyFirst (fun c => c.id == info.column.id)
        (fun c => { c with tasks := modifyFirst (fun t => t.id == task_id && subtasksTruthy t) updTask c.tasks })
        nb.columns
      ⟨true, some { nb with columns := cols }, none⟩

/-- `update_board_title` from `operations.py`. -/
def update_board_title (board : Board) (new_title : String) : BoardOperationResult :=
  let nb := deep_copy_board board
  ⟨true, some { nb with title := new_title }, none⟩

/-- `update_stats_config` from `operations.py`. -/
def update_stats_config (board : Board) (columns : List String) : BoardOperationResult :=
  let nb := deep_copy_board board
  ⟨true, some { nb with stats_config := some ⟨some columns⟩ }, none⟩

/-- `archive_task` from `operations.py`. -/
def archive_task (board : Board) (column_id : String) (task_id : String) :
    BoardOperationResult :=
  match find_column_by_id board column_id with
  | none => ⟨false, none, some ("Column " ++ column_id ++ " not found")⟩
  | some column =>
    match column.tasks.find? (fun t => t.id == task_id) with
    | none =>
      ⟨false, none,
        some ("Task " ++ task_id ++ " not found in column " ++ column_id)⟩
    | some task =>
      let nb := deep_copy_board board
      let cols := modifyFirst (fun c => c.id == column_id)
        (fun c => { c with tasks := c.tasks.filter (fun t => t.id != task_id) })
        nb.columns
      let arch := (nb.archive.getD []) ++ [deep_copy_task task]
      ⟨true, some { nb with columns := cols, archive := some arch }, none⟩

/-- `restore_task` from `operations.py`. -/
def restore_task (board : Board) (task_id : String) (to_column_id : String) :
    BoardOperationResult :=
  if board.archive = none ∨ board.archive = some [] then
    ⟨false, none, some ("Archive is empty")⟩
  else
    match (board.archive.getD []).find? (fun t => t.id == task_id) with
    | none => ⟨false, none, some ("Task " ++ task_id ++ " not found in archive")⟩
    | some task =>
      match find_column_by_id board to_column_id with
      | none => ⟨false, none, some ("Target column " ++ to_column_id ++ " not found")⟩
      | some _ =>
        let nb := deep_copy_board board
        let cols := modifyFirst (fun c => c.id == to_column_id)
          (fun c => { c with tasks := c.tasks ++ [deep_copy_task task] })
          nb.columns
        let arch := (nb.archive.getD []).filter (fun t => t.id != task_id)
        ⟨true, some { nb with columns := cols, archive := some arch }, none⟩

/-- The field-by-field patch application inside `patch_task`'s loop body.
The source performs eight conditional assignments in sequence; each one
reads only its own patch field and writes only its own task field, so the
sequence is rendered as one simultaneous update of the eight fields. -/
def applyPatchToTask (patch : TaskPatch) (task : Task) : Task :=
  { task with
    title := match patch.title with
      | some t => pyStrip t
      | none => task.title
    description := match patch.description with
      | .unset => task.description
      | .clear => none
      | .setTo s => some (pyStrip s)
    priority := match patch.priority with
      | .unset => task.priority
      | .clear => none
      | .setTo (.enum p) => some p
      | .setTo (.raw s) => Priority.ofString? s
    tags := match patch.tags with
      | .unset => task.tags
      | .clear => none
      | .setTo [] => none
      | .setTo (x :: xs) => some (x :: xs)
    assignee := match patch.assignee with
      | .unset => task.assignee
      | .clear => none
      | .setTo s => some s
    due_date := match patch.due_date with
      | .unset => task.due_date
      | .clear => none
      | .setTo s => some s
    related_files := match patch.related_files with
      | .unset => task.related_files
      | .clear => none
      | .setTo [] => none
      | .setTo (x :: xs) => some (x :: xs)
    template := match patch.template with
      | .unset => task.template
      | .clear => none
      | .setTo (.enum t) => some t
      | .setTo (.raw s) => TemplateType.ofString? s }

/-- `patch_task` from `operations.py`. -/
def patch_task (board : Board) (task_id : String) (patch : TaskPatch) :
    BoardOperationResult :=
  match find_task_by_id board task_id with
  | none => ⟨false, none, some ("Task " ++ task_id ++ " not found")⟩
  | some info =>
    let nb := deep_copy_board board
    let cols := modifyFirst (fun c => c.id == info.column.id)
      (fun c => { c with tasks := modifyFirst (fun t => t.id == task_id) (applyPatchToTask patch) c.tasks })
      nb.columns
    ⟨true, some { nb with columns := cols }, none⟩

/-- `add_subtask` from `operations.py`. -/
def add_subtask (board : Board) (task_id : String) (title : String) :
    BoardOperationResult :=
  match find_task_by_id board task_id with
  | none => ⟨false, none, some ("Task " ++ task_id ++ " not found")⟩
  | some info =>
    if title = "" ∨ pyStrip title = "" then
      ⟨false, none, some ("Subtask title is required")⟩
    else
      let existing := (info.task.subtasks.getD []).map Subtask.id
      let new_subtask_id := generate_next_subtask_id task_id existing
      let new_subtask : Subtask := ⟨new_subtask_id, pyStrip title, false⟩
      let nb := deep_copy_board board
      let updTask := fun (t : Task) =>
        { t with subtasks := some ((t.subtasks.getD []) ++ [new_subtask]) }
      let cols := modifyFirst (fun c => c.id == info.column.id)
        (fun c => { c with tasks := modifyFirst (fun t => t.id == task_id) updTask c.tasks })
        nb.columns
      ⟨true, some { nb with columns := cols }, none⟩

/-- The per-task update inside `delete_subtask`: drop the subtask with the
given id and store `None` when the remaining list is empty. -/
def removeSubtaskFromTask (subtask_id : String) (t : Task) : Task :=
  let remaining := (t.subtasks.getD []).filter (fun st => st.id != subtask_id)
  { t with subtasks := if remaining.isEmpty then none else some remaining }

/-- `delete_subtask` from `operations.py`: when the last remaining subtask
is removed, the field becomes `None`, never an empty list. -/
def delete_subtask (board : Board) (task_id : String) (subtask_id : String) :
    BoardOperationResult :=
  match find_task_by_id board task_id with
  | none => ⟨false, none, some ("Task " ++ task_id ++ " not found")⟩
  | some info =>
    if !subtasksTruthy info.task then
      ⟨false, none, some ("Task " ++ task_id ++ " has no subtasks")⟩
    else if !(info.task.subtasks.getD []).any (fun st => st.id == subtask_id) then
      ⟨false, none, some ("Subtask " ++ subtask_id ++ " not found")⟩
    else
      let nb := deep_copy_board board
      let updTask := fun (t : Task) =>
        let remaining := (t.subtasks.getD []).filter (fun st => st.id != subtask_id)
        { t with subtasks := if remaining.isEmpty then none else some remaining }
      let cols := modifyFirst (fun c => c.id == info.column.id)
        (fun c => { c with tasks := modifyFirst (fun t => t.id == task_id && subtasksTruthy t) updTask c.tasks })
        nb.columns
      ⟨true, some { nb with columns := cols }, none⟩

/-- `update_subtask` from `operations.py`. -/
def update_subtask (board : Board) (task_id : String) (subtask_id : String)
    (title : String) : BoardOperationResult :=
  match find_task_by_id board task_id with
  | none => ⟨false, none, some ("Task " ++ task_id ++ " not found")⟩
  | some info =>
    if title = "" ∨ pyStrip title = "" then
      ⟨false, none, some ("Subtask title is required")⟩
    else if !subtasksTruthy info.task then
      ⟨false, none, some ("Task " ++ task_id ++ " has no subtasks")⟩
    else if !(info.task.subtasks.getD []).any (fun st => st.id == subtask_id) then
      ⟨false, none, some ("Subtask " ++ subtask_id ++ " not found")⟩
    else
      let nb := deep_copy_board board
      let updSt := modifyFirst (fun (st : Subtask) => st.id == subtask_id)
        (fun st => { st with title := pyStrip title })
      let updTask := fun (t : Task) => { t with subtasks := t.subtasks.map updSt }
      let cols := modifyFirst (fun c => c.id == info.column.id)
        (fun c => { c with tasks := modifyFirst (fun t => t.id == task_id && subtasksTruthy t) updTask c.tasks })
        nb.columns
      ⟨true, some { nb with columns := cols }, none⟩

/-- `set_subtasks_completed` from `operations.py`: every requested id is
validated against the parent's subtasks before any flag changes. -/
def set_subtasks_completed (board : Board) (task_id : String)
    (subtask_ids : List String) (completed : Bool) : BoardOperationResult :=
  match find_task_by_id board task_id with
  | none => ⟨false, none, some ("Task " ++ task_id ++ " not found")⟩
  | some info =>
    if !subtasksTruthy info.task then
      ⟨false, none, some ("Task " ++ task_id ++ " has no subtasks")⟩
    else
      let existing := (info.task.subtasks.getD []).map Subtask.id
      match subtask_ids.find? (fun sid => !existing.contains sid) with
      | some sid => ⟨false, none, some ("Subtask " ++ sid ++ " not found")⟩
      | none =>
        let nb := deep_copy_board board
        let updSt := fun (st : Subtask) =>
          if subtask_ids.contains st.id then { st with completed := completed } else st
        let updTask := fun (t : Task) => { t with subtasks := t.subtasks.map (List.map updSt) }
        let cols := modifyFirst (fun c => c.id == info.column.id)
          (fun c => { c with tasks := modifyFirst (fun t => t.id == task_id && subtasksTruthy t) updTask c.tasks })
          nb.columns
        ⟨true, some { nb with columns := cols }, none⟩

/-- `set_all_subtasks_completed` from `operations.py`. -/
def set_all_subtasks_completed (board : Board) (task_id : String)
    (completed : Bool) : BoardOperationResult :=
  match find_task_by_id board task_id with
  | none => ⟨false, none, some ("Task " ++ task_id ++ " not found")⟩
  | some info =>
    if !subtasksTruthy info.task then
      ⟨false, none, some ("Task " ++ task_id ++ " has no subtasks")⟩
    else
      let nb := deep_copy_board board
      let updSt := fun (st : Subtask) => { st with completed := completed }
      let updTask := fun (t : Task) => { t with subtasks := t.subtasks.map (List.map updSt) }
      let cols := modifyFirst (fun c => c.id == info.column.id)
        (fun c => { c with tasks := modifyFirst (fun t => t.id == task_id && subtasksTruthy t) updTask c.tasks })
        nb.columns
      ⟨true, some { nb with columns := cols }, none⟩

/-! ### Bulk operations -/

/-- Aggregate tail shared by all bulk operations: counts from the item
results, overall success iff no failures, the final board attached. -/
def mkBulkResult (board : Board) (results : List BulkItemResult) : BulkOperationResult :=
  let success_count := (results.filter (fun r => r.success)).length
  let failure_count := (results.filter (fun r => !r.success)).length
  ⟨decide (failure_count = 0), some board, results, success_count, failure_count⟩

/-- One iteration of the `move_tasks` loop. -/
def moveTasksStep (to_column_id : String) (acc : Board × List BulkItemResult)
    (task_id : String) : Board × List BulkItemResult :=
  let current_board := acc.1
  let results := acc.2
  match find_task_by_id current_board task_id with
  | none =>
    (current_board,
      results ++ [⟨task_id, false, some ("Task " ++ task_id ++ " not found")⟩])
  | some info =>
    if info.column.id = to_column_id then
      (current_board, results ++ [⟨task_id, true, none⟩])
    else
      let to_index : Int :=
        match find_column_by_id current_board to_column_id with
        | some target => (target.tasks.length : Int)
        | none => 0
      match move_task current_board task_id info.column.id to_column_id to_index with
      | ⟨true, some b, _⟩ => (b, results ++ [⟨task_id, true, none⟩])
      | r => (current_board, results ++ [⟨task_id, false, r.error⟩])

/-- `move_tasks` from `operations.py`. -/
def move_tasks (board : Board) (task_ids : List String) (to_column_id : String) :
    BulkOperationResult :=
  match find_column_by_id board to_column_id with
  | none =>
    ⟨false, none,
      task_ids.map (fun tid =>
        ⟨tid, false, some ("Target column " ++ to_column_id ++ " not found")⟩),
      0, task_ids.length⟩
  | some _ =>
    let acc := task_ids.foldl (moveTasksStep to_column_id) (board, [])
    mkBulkResult acc.1 acc.2

/-- One iteration of the `patch_tasks` loop. -/
def patchTasksStep (patch : TaskPatch) (acc : Board × List BulkItemResult)
    (task_id : String) : Board × List BulkItemResult :=
  match patch_task acc.1 task_id patch with
  | ⟨true, some b, _⟩ => (b, acc.2 ++ [⟨task_id, true, none⟩])
  | r => (acc.1, acc.2 ++ [⟨task_id, false, r.error⟩])

/-- `patch_tasks` from `operations.py`. -/
def patch_tasks (board : Board) (task_ids : List String) (patch : TaskPatch) :
    BulkOperationResult :=
  let acc := task_ids.foldl (patchTasksStep patch) (board, [])
  mkBulkResult acc.1 acc.2

/-- One iteration of the `delete_tasks` loop. -/
def deleteTasksStep (acc : Board × List BulkItemResult) (task_id : String) :
    Board × List BulkItemResult :=
  match find_task_by_id acc.1 task_id with
  | none =>
    (acc.1, acc.2 ++ [⟨task_id, false, some ("Task " ++ task_id ++ " not found")⟩])
  | some info =>
    match delete_task acc.1 info.column.id task_id with
    | ⟨true, some b, _⟩ => (b, acc.2 ++ [⟨task_id, true, none⟩])
    | r => (acc.1, acc.2 ++ [⟨task_id, false, r.error⟩])

/-- `delete_tasks` from `operations.py`. -/
def delete_tasks (board : Board) (task_ids : List String) : BulkOperationResult :=
  let acc := task_ids.foldl deleteTasksStep (board, [])
  mkBulkResult acc.1 acc.2

/-- One iteration of the `archive_tasks` loop. -/
def archiveTasksStep (acc : Board × List BulkItemResult) (task_id : String) :
    Board × List BulkItemResult :=
  match find_task_by_id acc.1 task_id with
  | none =>
    (acc.1, acc.2 ++ [⟨task_id, false, some ("Task " ++ task_id ++ " not found")⟩])
  | some info =>
    match archive_task acc.1 info.column.id task_id with
    | ⟨true, some b, _⟩ => (b, acc.2 ++ [⟨task_id, true, none⟩])
    | r => (acc.1, acc.2 ++ [⟨task_id, false, r.error⟩])

/-- `archive_tasks` from `operations.py`. -/
def archive_tasks (board : Board) (task_ids : List String) : BulkOperationResult :=
  let acc := task_ids.foldl archiveTasksStep (board, [])
  mkBulkResult acc.1 acc.2

/-! ### The mutation layer as one dispatched call type

`MutOp` enumerates every mutation-layer operation together with its
arguments; `runOp` dispatches a call to the operation above and yields
the returned board, if any.  `runOpCall` additionally records the value
the caller's `board` argument denotes after the call returns: every
operation's writes target `new_board = _deep_copy_board(board)` — a deep
copy — and no statement assigns through the passed-in reference, so in
the explicit-state-passing rendering the post-call value of the argument
is the value that was passed in. -/

/-- One mutation-layer call with its arguments. -/
inductive MutOp where
  | moveTask (task_id from_column_id to_column_id : String) (to_index : Int)
  | addTask (column_id : String) (input_data : TaskInput)
  | updateTask (column_id task_id new_title new_description : String)
  | deleteTask (column_id task_id : String)
  | toggleSubtask (task_id subtask_id : String)
  | updateBoardTitle (new_title : String)
  | updateStatsConfig (columns : List String)
  | archiveTask (column_id task_id : String)
  | restoreTask (task_id to_column_id : String)
  | patchTask (task_id : String) (patch : TaskPatch)
  | addSubtask (task_id title : String)
  | deleteSubtask (task_id subtask_id : String)
  | updateSubtask (task_id subtask_id title : String)
  | setSubtasksCompleted (task_id : String) (subtask_ids : List String) (completed : Bool)
  | setAllSubtasksCompleted (task_id : String) (completed : Bool)
  | moveTasks (task_ids : List String) (to_column_id : String)
  | patchTasks (task_ids : List String) (patch : TaskPatch)
  | deleteTasks (task_ids : List String)
  | archiveTasks (task_ids : List String)
deriving Repr

/-- The board a mutation-layer call returns, if any. -/
def runOp : MutOp → Board → Option Board
  | .moveTask tid fc tc i, b => (move_task b tid fc tc i).board
  | .addTask cid inp, b => (add_task b cid inp).board
  | .updateTask cid tid nt nd, b => (update_task b cid tid nt nd).board
  | .deleteTask cid tid, b => (delete_task b cid tid).board
  | .toggleSubtask tid sid, b => (toggle_subtask b tid sid).board
  | .updateBoardTitle nt, b => (update_board_title b nt).board
  | .updateStatsConfig cols, b => (update_stats_config b cols).board
  | .archiveTask cid tid, b => (archive_task b cid tid).board
  | .restoreTask tid tc, b => (restore_task b tid tc).board
  | .patchTask tid p, b => (patch_task b tid p).board
  | .addSubtask tid title, b => (add_subtask b tid title).board
  | .deleteSubtask tid sid, b => (delete_subtask b tid sid).board
  | .updateSubtask tid sid title, b => (update_subtask b tid sid title).board
  | .setSubtasksCompleted tid sids c, b => (set_subtasks_completed b tid sids c).board
  | .setAllSubtasksCompleted tid c, b => (set_all_subtasks_completed b tid c).board
  | .moveTasks tids tc, b => (move_tasks b tids tc).board
  | .patchTasks tids p, b => (patch_tasks b tids p).board
  | .deleteTasks tids, b => (delete_tasks b tids).board
  | .archiveTasks tids, b => (archive_tasks b tids).board

/-- A mutation-layer call in explicit-state-passing form: the result
board together with the caller-visible value of the input argument after
the call (see the section comment). -/
def runOpCall (op : MutOp) (board : Board) : Option Board × Board :=
  (runOp op board, board)

/-- A task does not carry an empty (zero-length) subtask list. -/
def taskOk (t : Task) : Bool :=
  match t.subtasks with
  | some [] => false
  | _ => true

/-- No task of the board — active or archived — carries an empty subtask
list. -/
def noEmptySubtasks (b : Board) : Bool :=
  (get_all_tasks b).all taskOk && (b.archive.getD []).all taskOk

/-- Column-wise formulation of the active half of `noEmptySubtasks`. -/
def colsOk (cols : List Column) : Bool :=
  cols.all (fun c => c.tasks.all taskOk)

/-! ## Diff engine (`realtime.py`)

`_is_equal` serialises both values deterministically (JSON with sorted
keys, falling back to `str`) and compares the renderings; on the model
values that appear in boards this coincides with structural equality,
which is how it is modelled here.  Python `dict`s keyed by id are
modelled as association lists built with dict upsert: a fresh key is
appended, an existing key keeps its position and has its value replaced,
and iteration follows the list. -/

/-- `ColumnDiff` from `realtime.py`. -/
structure ColumnDiff where
  column_id : String
  before : Option Column := none
  after : Option Column := none
  from_index : Option Nat := none
  to_index : Option Nat := none
  changed_fields : Option (List String) := none
deriving DecidableEq, Repr

/-- `TaskDiff` from `realtime.py`. -/
structure TaskDiff where
  task_id : String
  before : Option Task := none
  after : Option Task := none
  from_column_id : Option String := none
  to_column_id : Option String := none
  from_index : Option Nat := none
  to_index : Option Nat := none
  changed_fields : Option (List String) := none
deriving DecidableEq, Repr

/-- `BoardDiff` from `realtime.py`. -/
structure BoardDiff where
  metadata_changed : Bool := false
  columns_added : List ColumnDiff := []
  columns_removed : List ColumnDiff := []
  columns_updated : List ColumnDiff := []
  columns_moved : List ColumnDiff := []
  tasks_added : List TaskDiff := []
  tasks_removed : List TaskDiff := []
  tasks_updated : List TaskDiff := []
  tasks_moved : List TaskDiff := []
deriving DecidableEq, Repr

/-- Python dict assignment `d[k] = v`: replace in place if the key is
present, append otherwise. -/
def dictUpsert : List (String × α) → String → α → List (String × α)
  | [], k, v => [(k, v)]
  | (k', v') :: rest, k, v =>
    if k' = k then (k, v) :: rest else (k', v') :: dictUpsert rest k v

/-- Python dict lookup (first, hence only, occurrence of the key). -/
def dictGet? : List (String × α) → String → Option α
  | [], _ => none
  | (k', v) :: rest, k => if k' = k then some v else dictGet? rest k

/-- `_index_columns` from `realtime.py`: id → (column, position). -/
def indexColumns (cols : List Column) : List (String × (Column × Nat)) :=
  (cols.enum).foldl (fun d p => dictUpsert d p.2.id (p.2, p.1)) []

/-- `_index_tasks` from `realtime.py`: id → (task, column id, index in its
column), over all columns in order. -/
def indexTasks (cols : List Column) : List (String × (Task × String × Nat)) :=
  cols.foldl (fun d c => (c.tasks.enum).foldl (fun d p => dictUpsert d p.2.id (p.2, c.id, p.1)) d) []

/-- The dictionary built by `_get_metadata` in `realtime.py`: the
board-level fields compared for `metadata_changed`. -/
structure BoardMetadata where
  title : String
  protocol_version : Option String
  schema_url : Option String
  agent : Option AgentInstructions
  rules : Option Rules
  stats_config : Option StatsConfig
deriving DecidableEq, Repr

/-- `_get_metadata` from `realtime.py`. -/
def get_metadata (b : Board) : BoardMetadata :=
  ⟨b.title, b.protocol_version, b.schema_url, b.agent, b.rules, b.stats_config⟩

/-- `_detect_changed_fields` on columns: one comparison per name in the
fixed allow-list (`getattr` on any other name yields `None = None`). -/
def columnFieldEq (a b : Column) : String → Bool
  | "title" => a.title == b.title
  | "order" => a.order == b.order
  | _ => true

/-- Changed-field names for a column pair, in allow-list order. -/
def columnChangedFields (a b : Column) : List String :=
  (["title", "order"]).filter (fun f => !(columnFieldEq a b f))

/-- `_detect_changed_fields` on tasks: the fixed nine-field allow-list. -/
def taskFieldEq (a b : Task) : String → Bool
  | "title" => a.title == b.title
  | "description" => a.description == b.description
  | "related_files" => a.related_files == b.related_files
  | "assignee" => a.assignee == b.assignee
  | "tags" => a.tags == b.tags
  | "priority" => a.priority == b.priority
  | "due_date" => a.due_date == b.due_date
  | "subtasks" => a.subtasks == b.subtasks
  | "template" => a.template == b.template
  | _ => true

/-- Changed-field names for a task pair, in allow-list order. -/
def taskChangedFields (a b : Task) : List String :=
  (["title", "description", "related_files", "assignee", "tags", "priority",
    "due_date", "subtasks", "template"]).filter (fun f => !(taskFieldEq a b f))

/-- `diff_boards` from `realtime.py`. -/
def diff_boards (previous : Board) (next_board : Board) : BoardDiff :=
  let metadata_changed := decide (get_metadata previous ≠ get_metadata next_board)
  let cprev := indexColumns previous.columns
  let cnext := indexColumns next_board.columns
  let columns_removed := cprev.filterMap (fun e =>
    if (dictGet? cnext e.1).isNone then
      some { column_id := e.1, before := some e.2.1, from_index := some e.2.2 }
    else none)
  let columns_added := cnext.filterMap (fun e =>
    if (dictGet? cprev e.1).isNone then
      some { column_id := e.1, after := some e.2.1, to_index := some e.2.2 }
    else none)
  let columns_updated := cnext.filterMap (fun e =>
    match dictGet? cprev e.1 with
    | none => none
    | some pe =>
      let ch := columnChangedFields pe.1 e.2.1
      if ch.isEmpty then none
      else some { column_id := e.1, before := some pe.1, after := some e.2.1,
                  changed_fields := some ch })
  let columns_moved := cnext.filterMap (fun e =>
    match dictGet? cprev e.1 with
    | none => none
    | some pe =>
      if pe.2 ≠ e.2.2 then
        some { column_id := e.1, before := some pe.1, after := some e.2.1,
               from_index := some pe.2, to_index := some e.2.2 }
      else none)
  let tprev := indexTasks previous.columns
  let tnext := indexTasks next_board.columns
  let tasks_removed := tprev.filterMap (fun e =>
    if (dictGet? tnext e.1).isNone then
      some { task_id := e.1, before := some e.2.1, from_column_id := some e.2.2.1,
             from_index := some e.2.2.2 }
    else none)
  let tasks_added := tnext.filterMap (fun e =>
    if (dictGet? tprev e.1).isNone then
      some { task_id := e.1, after := some e.2.1, to_column_id := some e.2.2.1,
             to_index := some e.2.2.2 }
    else none)
  let tasks_moved := tnext.filterMap (fun e =>
    match dictGet? tprev e.1 with
    | none => none
    | some pe =>
      if pe.2.1 ≠ e.2.2.1 ∨ pe.2.2 ≠ e.2.2.2 then
        some { task_id := e.1, before := some pe.1, after := some e.2.1,
               from_column_id := some pe.2.1, to_column_id := some e.2.2.1,
               from_index := some pe.2.2, to_index := some e.2.2.2 }
      else none)
  let tasks_updated := tnext.filterMap (fun e =>
    match dictGet? tprev e.1 with
    | none => none
    | some pe =>
      let ch := taskChangedFields pe.1 e.2.1
      if ch.isEmpty then none
      else some { task_id := e.1, before := some pe.1, after := some e.2.1,
                  from_column_id := some pe.2.1, to_column_id := some e.2.2.1,
                  from_index := some pe.2.2, to_index := some e.2.2.2,
                  changed_fields := some ch })
  { metadata_changed := metadata_changed
    columns_added := columns_added
    columns_removed := columns_removed
    columns_updated := columns_updated
    columns_moved := columns_moved
    tasks_added := tasks_added
    tasks_removed := tasks_removed
    tasks_updated := tasks_updated
    tasks_moved := tasks_moved }

/-! ## Concrete fixture boards used for witnesses and counterexamples -/

/-- A task with just an id and a title. -/
def exampleTask (i : String) : Task := { id := i, title := i }

/-- The "todo" column of the spec's concrete scenario, holding `task-1`
and `task-2`. -/
def exampleTodo : Column :=
  { id := "todo", title := "Todo", tasks := [exampleTask "task-1", exampleTask "task-2"] }

/-- The empty "done" column of the spec's concrete scenario. -/
def exampleDone : Column :=
  { id := "done", title := "Done", tasks := [] }

/-- The board of the spec's concrete scenario. -/
def exampleBoard : Board :=
  { title := "Example", columns := [exampleTodo, exampleDone] }

/-- A task carrying one tag, used to exercise patching. -/
def tagsTask : Task := { exampleTask "task-1" with tags := some ["x"] }

/-- The column holding `tagsTask`. -/
def tagsCol : Column := { id := "todo", title := "Todo", tasks := [tagsTask] }

/-- A board whose only task carries one tag. -/
def tagsBoard : Board := { title := "Tags", columns := [tagsCol] }

/-- A task with exactly one subtask. -/
def subTask : Task :=
  { exampleTask "task-1" with subtasks := some [⟨"task-1-1", "s", false⟩] }

/-- The column holding `subTask`. -/
def subCol : Column := { id := "todo", title := "Todo", tasks := [subTask] }

/-- A board whose only task has exactly one subtask. -/
def oneSubtaskBoard : Board := { title := "Sub", columns := [subCol] }

/-! ## Basic lemmas about the list helpers -/

theorem mem_insertAtNat (l : List α) (n : Nat) (x a : α) :
    a ∈ insertAtNat l n x ↔ a = x ∨ a ∈ l := by
  induction l generalizing n with
  | nil => cases n <;> simp [insertAtNat]
  | cons y ys ih =>
    cases n with
    | zero => simp [insertAtNat]
    | succ m =>
      simp only [insertAtNat, List.mem_cons, ih]
      tauto

theorem insertAtNat_self_mem (l : List α) (n : Nat) (x : α) : x ∈ insertAtNat l n x := by
  rw [mem_insertAtNat]; left; rfl

theorem map_insertAtNat (f : α → β) (l : List α) (n : Nat) (x : α) :
    (insertAtNat l n x).map f = insertAtNat (l.map f) n (f x) := by
  induction l generalizing n with
  | nil => cases n <;> simp [insertAtNat]
  | cons y ys ih =>
    cases n with
    | zero => simp [insertAtNat]
    | succ m => simp [insertAtNat, ih]

theorem insertAtNat_of_length_le (l : List α) (n : Nat) (x : α) (h : l.length ≤ n) :
    insertAtNat l n x = l ++ [x] := by
  induction l generalizing n with
  | nil => cases n <;> simp [insertAtNat]
  | cons y ys ih =>
    cases n with
    | zero => simp at h
    | succ m => simpa [insertAtNat] using ih m (by simpa using h)

theorem nodup_insertAtNat (l : List α) (n : Nat) (x : α) (h : l.Nodup) (hx : x ∉ l) :
    (insertAtNat l n x).Nodup := by
  induction l generalizing n with
  | nil => cases n <;> simp [insertAtNat]
  | cons y ys ih =>
    cases n with
    | zero => simp_all [insertAtNat]
    | succ m =>
      simp only [insertAtNat, List.nodup_cons] at h ⊢
      refine ⟨fun hm => ?_, ih m h.2 (fun hm => hx (by simp [hm]))⟩
      rcases (mem_insertAtNat ys m x y).1 hm with h' | h'
      · exact hx (by simp [h'])
      · exact h.1 h'

theorem modifyFirst_of_forall_not (p : α → Bool) (f : α → α) (l : List α)
    (h : ∀ x ∈ l, p x = false) : modifyFirst p f l = l := by
  induction l with
  | nil => rfl
  | cons y ys ih =>
    have hy : p y = false := h y (by simp)
    simp [modifyFirst, hy, ih (fun x hx => h x (by simp [hx]))]

theorem modifyFirst_map_id (g : α → β) (p : α → Bool) (f : α → α)
    (hf : ∀ x, g (f x) = g x) (l : List α) :
    (modifyFirst p f l).map g = l.map g := by
  induction l with
  | nil => rfl
  | cons y ys ih =>
    by_cases hp : p y
    · simp [modifyFirst, hp, hf]
    · simp [modifyFirst, hp, ih]

theorem modifyFirst_ne_nil (p : α → Bool) (f : α → α) (l : List α) (h : l ≠ []) :
    modifyFirst p f l ≠ [] := by
  cases l with
  | nil => simp at h
  | cons y ys => by_cases hp : p y <;> simp [modifyFirst, hp]

theorem mem_modifyFirst (p : α → Bool) (f : α → α) (l : List α) (a : α)
    (h : a ∈ modifyFirst p f l) : a ∈ l ∨ ∃ x ∈ l, a = f x := by
  induction l with
  | nil => simp [modifyFirst] at h
  | cons y ys ih =>
    by_cases hp : p y
    · simp only [modifyFirst, hp, if_pos] at h
      rcases List.mem_cons.1 h with h' | h'
      · exact Or.inr ⟨y, by simp, h'⟩
      · exact Or.inl (by simp [h'])
    · simp only [modifyFirst, hp] at h
      simp only [Bool.false_eq_true, if_false] at h
      rcases List.mem_cons.1 h with h' | h'
      · exact Or.inl (by simp [h'])
      · rcases ih h' with h'' | ⟨x, hx, hfx⟩
        · exact Or.inl (by simp [h''])
        · exact Or.inr ⟨x, by simp [hx], hfx⟩

theorem findColumn_map (g : Column → Column) (hg : ∀ c, (g c).id = c.id)
    (cid : String) (cols : List Column) :
    findColumn cid (cols.map g) = (findColumn cid cols).map g := by
  induction cols with
  | nil => rfl
  | cons c cs ih =>
    by_cases h : c.id = cid
    · simp [findColumn, hg, h]
    · simp [findColumn, hg, h, ih]

theorem findColumn_eq_none_iff (cid : String) (cols : List Column) :
    findColumn cid cols = none ↔ cid ∉ cols.map Column.id := by
  induction cols with
  | nil => simp [findColumn]
  | cons c cs ih =>
    by_cases h : c.id = cid
    · simp [findColumn, h]
    · rw [findColumn, if_neg h, ih]
      simp only [List.map_cons, List.mem_cons, not_or]
      constructor
      · intro hn
        exact ⟨fun hc => h hc.symm, hn⟩
      · intro hn
        exact hn.2

theorem findColumn_some (cid : String) (cols : List Column) (c : Column)
    (h : findColumn cid cols = some c) : c ∈ cols ∧ c.id = cid := by
  induction cols with
  | nil => simp [findColumn] at h
  | cons c' cs ih =>
    by_cases h' : c'.id = cid
    · rw [findColumn, if_pos h'] at h
      cases h; exact ⟨by simp, h'⟩
    · rw [findColumn, if_neg h'] at h
      rcases ih h with ⟨hm, hid⟩
      exact ⟨by simp [hm], hid⟩

theorem findColumn_of_mem_nodup (cols : List Column) (c : Column)
    (hm : c ∈ cols) (hn : (cols.map Column.id).Nodup) :
    findColumn c.id cols = some c := by
  induction cols with
  | nil => simp at hm
  | cons c' cs ih =>
    simp only [List.map_cons, List.nodup_cons] at hn
    rcases List.mem_cons.1 hm with h | h
    · subst h; simp [findColumn]
    · have hne : c'.id ≠ c.id := by
        intro he
        exact hn.1 (he ▸ (List.mem_map.2 ⟨c, h, rfl⟩))
      simp [findColumn, hne, ih h hn.2]

theorem findTaskAux_succ (tid : String) (l : List Task) (n : Nat) :
    findTaskAux tid l (n + 1) = (findTaskAux tid l n).map (fun p => (p.1, p.2 + 1)) := by
  induction l generalizing n with
  | nil => rfl
  | cons t ts ih =>
    by_cases h : t.id = tid
    · simp [findTaskAux, h]
    · simp [findTaskAux, h, ih]

theorem findTaskAux_eq_none_iff (tid : String) (l : List Task) (n : Nat) :
    findTaskAux tid l n = none ↔ tid ∉ l.map Task.id := by
  induction l generalizing n with
  | nil => simp [findTaskAux]
  | cons t ts ih =>
    by_cases h : t.id = tid
    · simp [findTaskAux, h]
    · rw [findTaskAux, if_neg h, ih]
      simp only [List.map_cons, List.mem_cons, not_or]
      constructor
      · intro hn
        exact ⟨fun hc => h hc.symm, hn⟩
      · intro hn
        exact hn.2

theorem findTaskAux_some_spec (tid : String) (l : List Task) (t : Task) (i : Nat)
    (h : findTaskAux tid l 0 = some (t, i)) :
    t ∈ l ∧ t.id = tid ∧ l.get? i = some t := by
  induction l generalizing t i with
  | nil => simp [findTaskAux] at h
  | cons t' ts ih =>
    by_cases h' : t'.id = tid
    · rw [findTaskAux, if_pos h'] at h
      cases h
      exact ⟨by simp, h', rfl⟩
    · rw [findTaskAux, if_neg h', findTaskAux_succ] at h
      cases hh : findTaskAux tid ts 0 with
      | none =>
        rw [hh] at h
        simp at h
      | some p =>
        obtain ⟨pt, pi⟩ := p
        rw [hh] at h
        simp only [Option.map_some', Option.some.injEq, Prod.mk.injEq] at h
        rcases ih pt pi hh with ⟨hm, hid, hg⟩
        rcases h with ⟨h1, h2⟩
        subst h1
        cases i with
        | zero => omega
        | succ j =>
          have hj : pi = j := by omega
          subst hj
          exact ⟨by simp [hm], hid, by simpa using hg⟩

theorem findTaskInColumns_eq_none_iff (tid : String) (cols : List Column) :
    findTaskInColumns tid cols = none ↔ tid ∉ (cols.flatMap Column.tasks).map Task.id := by
  induction cols with
  | nil => simp [findTaskInColumns]
  | cons c cs ih =>
    simp only [findTaskInColumns]
    cases h : findTaskAux tid c.tasks 0 with
    | none =>
      have h1 := (findTaskAux_eq_none_iff tid c.tasks 0).1 h
      rw [ih]
      simp only [List.flatMap_cons, List.map_append, List.mem_append, not_or]
      constructor
      · intro h2
        exact ⟨h1, h2⟩
      · intro h2
        exact h2.2
    | some p =>
      obtain ⟨pt, pi⟩ := p
      rcases findTaskAux_some_spec tid c.tasks pt pi h with ⟨hm, hid, _⟩
      refine iff_of_false (by simp) (fun hc => hc ?_)
      simp only [List.flatMap_cons, List.map_append, List.mem_append]
      exact Or.inl (List.mem_map.2 ⟨pt, hm, hid⟩)

theorem findTaskInColumns_some_spec (tid : String) (cols : List Column) (info : TaskInfo)
    (h : findTaskInColumns tid cols = some info) :
    info.column ∈ cols ∧ info.task ∈ info.column.tasks ∧ info.task.id = tid ∧
      findTaskAux tid info.column.tasks 0 = some (info.task, info.index) := by
  induction cols with
  | nil => simp [findTaskInColumns] at h
  | cons c cs ih =>
    cases hh : findTaskAux tid c.tasks 0 with
    | none =>
      simp only [findTaskInColumns, hh] at h
      rcases ih h with ⟨h1, h2, h3, h4⟩
      exact ⟨by simp [h1], h2, h3, h4⟩
    | some p =>
      simp only [findTaskInColumns, hh] at h
      cases h
      rcases findTaskAux_some_spec tid c.tasks p.1 p.2 (by rw [hh]) with ⟨h1, h2, _⟩
      exact ⟨by simp, h1, h2, by rw [hh]⟩

theorem find_task_isSome_iff (b : Board) (tid : String) :
    (find_task_by_id b tid).isSome ↔ tid ∈ activeTaskIds b := by
  rw [← Option.ne_none_iff_isSome]
  unfold find_task_by_id activeTaskIds get_all_tasks
  rw [Ne, findTaskInColumns_eq_none_iff tid b.columns]
  tauto

theorem le_foldl_max (l : List Nat) (a : Nat) : ∀ x ∈ l, x ≤ l.foldl max a := by
  induction l generalizing a with
  | nil => simp
  | cons y ys ih =>
    intro x hx
    rcases List.mem_cons.1 hx with h | h
    · subst h
      calc x ≤ max a x := le_max_right a x
        _ ≤ ys.foldl max (max a x) := by
            clear hx ih
            induction ys generalizing a x with
            | nil => simp
            | cons z zs ih2 => exact le_trans (le_max_left _ z) (ih2 (max a x) z)
    · exact ih (max a y) x h

/-! ## Id generation lemmas (C2) -/

theorem digitChar_toNat (d : Nat) (h : d < 10) : (digitChar d).toNat = 48 + d := by
  interval_cases d <;> rfl

theorem digitChar_isDigit (d : Nat) (h : d < 10) : (digitChar d).isDigit = true := by
  interval_cases d <;> rfl

theorem natDigitsRevAux_ne_nil (fuel n : Nat) (h : n < fuel) :
    natDigitsRevAux fuel n ≠ [] := by
  cases fuel with
  | zero => omega
  | succ f =>
    unfold natDigitsRevAux
    split <;> simp

theorem natDigitsRevAux_digits (fuel n : Nat) (h : n < fuel) :
    ∀ c ∈ natDigitsRevAux fuel n, c.isDigit := by
  induction fuel generalizing n with
  | zero => omega
  | succ f ih =>
    unfold natDigitsRevAux
    split
    · next hlt =>
      intro c hc
      rw [List.mem_singleton] at hc
      subst hc
      exact digitChar_isDigit n hlt
    · next hge =>
      intro c hc
      rcases List.mem_cons.1 hc with hc | hc
      · subst hc
        exact digitChar_isDigit (n % 10) (by omega)
      · refine ih (n / 10) ?_ c hc
        have h2 : n / 10 < n := Nat.div_lt_self (by omega) (by omega)
        omega

theorem parseDigits_append_last (xs : List Char) (c : Char) :
    parseDigits (xs ++ [c]) = parseDigits xs * 10 + (c.toNat - 48) := by
  simp [parseDigits, List.foldl_append]

theorem parseDigits_natDigitsRevAux (fuel n : Nat) (h : n < fuel) :
    parseDigits ((natDigitsRevAux fuel n).reverse) = n := by
  induction fuel generalizing n with
  | zero => omega
  | succ f ih =>
    unfold natDigitsRevAux
    split
    · next hlt =>
      simp [parseDigits, digitChar_toNat n hlt]
    · next hge =>
      have h2 : n / 10 < n := Nat.div_lt_self (by omega) (by omega)
      rw [List.reverse_cons, parseDigits_append_last, ih (n / 10) (by omega),
        digitChar_toNat (n % 10) (by omega)]
      omega

theorem natDigitsRev_ne_nil (n : Nat) : natDigitsRev n ≠ [] :=
  natDigitsRevAux_ne_nil (n + 1) n (by omega)

theorem natDigitsRev_digits (n : Nat) : ∀ c ∈ natDigitsRev n, c.isDigit :=
  natDigitsRevAux_digits (n + 1) n (by omega)

theorem parseDigits_natDigitsRev (n : Nat) :
    parseDigits ((natDigitsRev n).reverse) = n :=
  parseDigits_natDigitsRevAux (n + 1) n (by omega)

theorem takeWhile_digits_eq_self (l : List Char) (h : ∀ c ∈ l, c.isDigit) :
    l.takeWhile Char.isDigit = l := by
  induction l with
  | nil => rfl
  | cons c cs ih =>
    rw [List.takeWhile_cons, if_pos (h c (by simp)), ih (fun x hx => h x (by simp [hx]))]

theorem dropLit?_append (p s : List Char) : dropLit? p (p ++ s) = some s := by
  induction p with
  | nil => rfl
  | cons c cs ih => simp [dropLit?, ih]

theorem searchNumber_append_digits (p : Char) (ps ds : List Char) (hne : ds ≠ [])
    (hd : ∀ c ∈ ds, c.isDigit) :
    searchNumber (p :: ps) ((p :: ps) ++ ds) = some (parseDigits ds) := by
  have hdrop : dropLit? (p :: ps) ((p :: ps) ++ ds) = some ds := dropLit?_append (p :: ps) ds
  rw [show ((p :: ps) ++ ds : List Char) = p :: (ps ++ ds) from rfl] at hdrop ⊢
  rw [searchNumber, hdrop]
  simp only [takeWhile_digits_eq_self ds hd]
  rw [if_neg (by simpa [List.isEmpty_iff] using hne)]

theorem extract_task_prefix_digits (n : Nat) :
    extract_task_id_number ("task-" ++ natToString n) = n := by
  have hdata : ("task-" ++ natToString n).data = "task-".data ++ (natDigitsRev n).reverse := rfl
  unfold extract_task_id_number
  rw [hdata, show ("task-".data : List Char) = 't' :: "ask-".data from rfl,
    searchNumber_append_digits 't' ("ask-".data) ((natDigitsRev n).reverse)
      (by simpa using natDigitsRev_ne_nil n)
      (fun c hc => natDigitsRev_digits n c (List.mem_reverse.1 hc)),
    parseDigits_natDigitsRev n]
  rfl

theorem mem_le_get_max (b : Board) (t : Task) (ht : t ∈ get_all_tasks b) :
    extract_task_id_number t.id ≤ get_max_task_id_number b :=
  le_foldl_max _ 0 (extract_task_id_number t.id)
    (List.mem_map.2 ⟨t, ht, rfl⟩)

theorem generate_next_task_id_fresh (b : Board) :
    generate_next_task_id b ∉ activeTaskIds b := by
  intro hmem
  obtain ⟨t, ht, hid⟩ := List.mem_map.1 hmem
  have h1 : extract_task_id_number t.id ≤ get_max_task_id_number b := mem_le_get_max b t ht
  rw [hid] at h1
  rw [show (generate_next_task_id b : String) =
    "task-" ++ natToString (get_max_task_id_number b + 1) from rfl,
    extract_task_prefix_digits] at h1
  omega

theorem activeIds_modifyFirst_append (cols : List Column) (cid : String) (t : Task)
    (h : cid ∈ cols.map Column.id) :
    ∃ l1 l2, (cols.flatMap Column.tasks).map Task.id = l1 ++ l2 ∧
      ((modifyFirst (fun c => c.id == cid) (fun c => { c with tasks := c.tasks ++ [t] })
          cols).flatMap Column.tasks).map Task.id = l1 ++ t.id :: l2 := by
  induction cols with
  | nil => simp at h
  | cons c cs ih =>
    by_cases hc : c.id = cid
    · refine ⟨c.tasks.map Task.id, (cs.flatMap Column.tasks).map Task.id, by simp, ?_⟩
      have hceq : (c.id == cid) = true := by simp [hc]
      simp [modifyFirst, hceq]
    · have hcs : cid ∈ cs.map Column.id := by
        rw [List.map_cons, List.mem_cons] at h
        rcases h with h' | h'
        · exact absurd h'.symm hc
        · exact h'
      obtain ⟨l1, l2, h1, h2⟩ := ih hcs
      have hceq : (c.id == cid) = false := by simp [hc]
      refine ⟨c.tasks.map Task.id ++ l1, l2, ?_, ?_⟩
      · simp [h1]
      · simp [modifyFirst, hceq, h2]

/-- C2: `add_task` generates the id "task-" followed by one plus the
maximum numeric suffix over tasks of the active columns; the archive is
ignored by the maximum computation; the generated id never collides with
an existing active task id; and on success, a board with pairwise
distinct active task ids keeps that property, the new id included. -/
theorem add_task_id_generation :
    (∀ (b : Board) (a : Option (List Task)),
      get_max_task_id_number { b with archive := a } = get_max_task_id_number b) ∧
    (∀ b : Board, generate_next_task_id b =
      "task-" ++ natToString (get_max_task_id_number b + 1)) ∧
    (∀ b : Board, generate_next_task_id b ∉ activeTaskIds b) ∧
    (∀ (b : Board) (cid : String) (inp : TaskInput) (b' : Board),
      (add_task b cid inp).board = some b' → (activeTaskIds b).Nodup →
      generate_next_task_id b ∈ activeTaskIds b' ∧ (activeTaskIds b').Nodup) := by
  refine ⟨fun b a => rfl, fun b => rfl, generate_next_task_id_fresh, ?_⟩
  intro b cid inp b' hb hnd
  cases hC : find_column_by_id b cid with
  | none => simp [add_task, hC] at hb
  | some C =>
    by_cases htl : inp.title = "" ∨ pyStrip inp.title = ""
    · rw [show (add_task b cid inp : BoardOperationResult) =
        ⟨false, none, some ("Task title is required")⟩ from by
          simp only [add_task, hC]; rw [if_pos htl]] at hb
      cases hb
    · simp only [add_task, hC] at hb
      rw [if_neg htl] at hb
      simp only [Option.some.injEq] at hb
      have hmem : cid ∈ b.columns.map Column.id := by
        rcases findColumn_some cid b.columns C hC with ⟨hm, hid⟩
        exact List.mem_map.2 ⟨C, hm, hid⟩
      obtain ⟨l1, l2, h1, h2⟩ := activeIds_modifyFirst_append b.columns cid _ hmem
      have hact : activeTaskIds b' = l1 ++ generate_next_task_id b :: l2 := by
        rw [← hb]
        exact h2
      have hfresh : generate_next_task_id b ∉ l1 ++ l2 := by
        rw [show (l1 ++ l2 : List String) = activeTaskIds b from h1.symm]
        exact generate_next_task_id_fresh b
      have hnd' : (l1 ++ l2).Nodup := by
        rw [show (l1 ++ l2 : List String) = activeTaskIds b from h1.symm]
        exact hnd
      constructor
      · rw [hact]
        exact List.mem_append.2 (Or.inr (by simp))
      · rw [hact]
        exact List.nodup_middle.mpr (List.nodup_cons.mpr ⟨hfresh, hnd'⟩)

/-- Witness for C2: adding a task titled "New" to the example board's
`todo` column yields the fresh id `task-3` and keeps the ids distinct. -/
theorem add_task_id_generation_witness :
    generate_next_task_id exampleBoard ∉ activeTaskIds exampleBoard ∧
    ∃ b', (add_task exampleBoard "todo" { title := "New" }).board = some b' ∧
      generate_next_task_id exampleBoard ∈ activeTaskIds b' ∧ (activeTaskIds b').Nodup := by
  refine ⟨add_task_id_generation.2.2.1 exampleBoard, ?_⟩
  obtain ⟨b', hb⟩ := Option.isSome_iff_exists.mp
    (show (add_task exampleBoard "todo" { title := "New" }).board.isSome = true by decide)
  obtain ⟨hm, hn⟩ := add_task_id_generation.2.2.2 exampleBoard "todo" { title := "New" } b' hb
    (by decide)
  exact ⟨b', hb, hm, hn⟩

/-! ## C4: the input board after a mutation-layer call -/

/-- C4: every mutation-layer operation, single or bulk, leaves its input
board argument unchanged: in the explicit-state-passing rendering of the
calls, the caller-visible value of the argument after the call equals the
value passed in, because each operation's writes target the deep copy
made by `_deep_copy_board` and never the argument itself. -/
theorem input_board_unchanged : ∀ (op : MutOp) (b : Board), (runOpCall op b).2 = b :=
  fun _ _ => rfl

/-! ## The no-empty-subtask-list invariant (C10) -/

theorem all_filter_of_all (l : List α) (p q : α → Bool) (h : l.all q = true) :
    (l.filter p).all q = true := by
  rw [List.all_eq_true] at h ⊢
  exact fun x hx => h x (List.mem_filter.1 hx).1

theorem all_insertAtNat_of_all (l : List α) (n : Nat) (x : α) (q : α → Bool)
    (h : l.all q = true) (hx : q x = true) : (insertAtNat l n x).all q = true := by
  rw [List.all_eq_true] at h ⊢
  intro a ha
  rcases (mem_insertAtNat l n x a).1 ha with h' | h'
  · subst h'
    exact hx
  · exact h a h'

theorem all_eraseIdx_of_all (l : List α) (i : Nat) (q : α → Bool) (h : l.all q = true) :
    (l.eraseIdx i).all q = true := by
  rw [List.all_eq_true] at h ⊢
  exact fun x hx => h x ((List.eraseIdx_sublist l i).subset hx)

theorem all_modifyFirst_of_all (p : α → Bool) (f : α → α) (q : α → Bool) (l : List α)
    (h : l.all q = true) (hf : ∀ x, q x = true → q (f x) = true) :
    (modifyFirst p f l).all q = true := by
  rw [List.all_eq_true] at h ⊢
  intro a ha
  rcases mem_modifyFirst p f l a ha with h' | ⟨x, hx, rfl⟩
  · exact h a h'
  · exact hf x (h x hx)

theorem all_flatMap_tasks (cols : List Column) :
    (cols.flatMap Column.tasks).all taskOk = colsOk cols := by
  induction cols with
  | nil => rfl
  | cons c cs ih => simp [colsOk, List.all_append, ih, List.all_eq_true]

theorem noEmptySubtasks_eq (b : Board) :
    noEmptySubtasks b = (colsOk b.columns && (b.archive.getD []).all taskOk) := by
  unfold noEmptySubtasks get_all_tasks
  rw [all_flatMap_tasks]

theorem colsOk_modifyFirst (p : Column → Bool) (g : Column → Column) (cols : List Column)
    (h : colsOk cols = true)
    (hg : ∀ c, c.tasks.all taskOk = true → (g c).tasks.all taskOk = true) :
    colsOk (modifyFirst p g cols) = true :=
  all_modifyFirst_of_all p g _ cols h (fun c hc => hg c hc)

theorem colsOk_map (g : Column → Column) (cols : List Column)
    (h : colsOk cols = true)
    (hg : ∀ c, c.tasks.all taskOk = true → (g c).tasks.all taskOk = true) :
    colsOk (cols.map g) = true := by
  unfold colsOk at *
  rw [List.all_eq_true] at h ⊢
  intro c hc
  rcases List.mem_map.1 hc with ⟨c0, hc0, rfl⟩
  exact hg c0 (h c0 hc0)

theorem colsOk_all_of_mem (cols : List Column) (c : Column) (h : colsOk cols = true)
    (hc : c ∈ cols) : c.tasks.all taskOk = true := by
  unfold colsOk at h
  rw [List.all_eq_true] at h
  exact h c hc

theorem taskOk_of_mem_all (l : List Task) (t : Task) (h : l.all taskOk = true)
    (ht : t ∈ l) : taskOk t = true := by
  rw [List.all_eq_true] at h
  exact h t ht

theorem taskOk_subtasks_eq (t t' : Task) (h : t'.subtasks = t.subtasks)
    (ht : taskOk t = true) : taskOk t' = true := by
  unfold taskOk at ht ⊢
  rw [h]
  exact ht

theorem taskOk_of_subtasks_shape (t : Task) (h : ∀ l, t.subtasks = some l → l ≠ []) :
    taskOk t = true := by
  unfold taskOk
  cases hs : t.subtasks with
  | none => rfl
  | some l =>
    cases l with
    | nil => exact absurd rfl (h [] hs)
    | cons x xs => rfl

theorem taskOk_map_subtasks (t : Task) (g : List Subtask → List Subtask)
    (hg : ∀ l, l ≠ [] → g l ≠ []) (ht : taskOk t = true) :
    taskOk { t with subtasks := t.subtasks.map g } = true := by
  refine taskOk_of_subtasks_shape _ (fun l hl => ?_)
  simp only at hl
  cases hs : t.subtasks with
  | none => rw [hs] at hl; cases hl
  | some l0 =>
    rw [hs] at hl
    simp only [Option.map_some', Option.some.injEq] at hl
    subst hl
    have hne : l0 ≠ [] := by
      intro he
      subst he
      unfold taskOk at ht
      rw [hs] at ht
      cases ht
    exact hg l0 hne

theorem noEmpty_modifyCols (b : Board) (p : Column → Bool) (g : Column → Column)
    (h : noEmptySubtasks b = true)
    (hg : ∀ c, c.tasks.all taskOk = true → (g c).tasks.all taskOk = true) :
    noEmptySubtasks { b with columns := modifyFirst p g b.columns } = true := by
  rw [noEmptySubtasks_eq] at h ⊢
  simp only [Bool.and_eq_true] at h ⊢
  exact ⟨colsOk_modifyFirst p g b.columns h.1 hg, h.2⟩

theorem noEmpty_modifyTasks (b : Board) (p : Column → Bool) (q : Task → Bool)
    (f : Task → Task) (h : noEmptySubtasks b = true)
    (hf : ∀ t, taskOk t = true → taskOk (f t) = true) :
    noEmptySubtasks { b with columns := modifyFirst p (fun c => { c with tasks := modifyFirst q f c.tasks }) b.columns } = true :=
  noEmpty_modifyCols b p _ h (fun c hc => all_modifyFirst_of_all q f taskOk c.tasks hc hf)

theorem update_board_title_noEmpty (b : Board) (nt : String) (b' : Board)
    (hb : (update_board_title b nt).board = some b') (h : noEmptySubtasks b = true) :
    noEmptySubtasks b' = true := by
  have hbe := Option.some.inj hb
  subst hbe
  exact h

theorem update_stats_config_noEmpty (b : Board) (cols : List String) (b' : Board)
    (hb : (update_stats_config b cols).board = some b') (h : noEmptySubtasks b = true) :
    noEmptySubtasks b' = true := by
  have hbe := Option.some.inj hb
  subst hbe
  exact h

theorem patch_task_noEmpty (b : Board) (tid : String) (p : TaskPatch) (b' : Board)
    (hb : (patch_task b tid p).board = some b') (h : noEmptySubtasks b = true) :
    noEmptySubtasks b' = true := by
  unfold patch_task at hb
  split at hb
  · exact Option.noConfusion hb
  · have hbe := Option.some.inj hb
    subst hbe
    exact noEmpty_modifyTasks b _ _ _ h
      (fun t ht => taskOk_subtasks_eq t (applyPatchToTask p t) rfl ht)

theorem update_task_noEmpty (b : Board) (cid tid nt nd : String) (b' : Board)
    (hb : (update_task b cid tid nt nd).board = some b') (h : noEmptySubtasks b = true) :
    noEmptySubtasks b' = true := by
  unfold update_task at hb
  split at hb
  · exact Option.noConfusion hb
  · split at hb
    · have hbe := Option.some.inj hb
      subst hbe
      exact noEmpty_modifyTasks b _ _ _ h (fun t ht => taskOk_subtasks_eq t _ rfl ht)
    · exact Option.noConfusion hb

theorem delete_task_noEmpty (b : Board) (cid tid : String) (b' : Board)
    (hb : (delete_task b cid tid).board = some b') (h : noEmptySubtasks b = true) :
    noEmptySubtasks b' = true := by
  unfold delete_task at hb
  split at hb
  · exact Option.noConfusion hb
  · split at hb
    · have hbe := Option.some.inj hb
      subst hbe
      exact noEmpty_modifyCols b _ _ h
        (fun c hc => all_filter_of_all c.tasks _ taskOk hc)
    · exact Option.noConfusion hb

theorem toggle_subtask_noEmpty (b : Board) (tid sid : String) (b' : Board)
    (hb : (toggle_subtask b tid sid).board = some b') (h : noEmptySubtasks b = true) :
    noEmptySubtasks b' = true := by
  unfold toggle_subtask at hb
  split at hb
  · exact Option.noConfusion hb
  · split at hb
    · exact Option.noConfusion hb
    · split at hb
      · exact Option.noConfusion hb
      · have hbe := Option.some.inj hb
        subst hbe
        exact noEmpty_modifyTasks b _ _ _ h
          (fun t ht => taskOk_map_subtasks t _ (fun l hl => modifyFirst_ne_nil _ _ l hl) ht)

theorem add_subtask_noEmpty (b : Board) (tid title : String) (b' : Board)
    (hb : (add_subtask b tid title).board = some b') (h : noEmptySubtasks b = true) :
    noEmptySubtasks b' = true := by
  unfold add_subtask at hb
  split at hb
  · exact Option.noConfusion hb
  · split at hb
    · exact Option.noConfusion hb
    · have hbe := Option.some.inj hb
      subst hbe
      refine noEmpty_modifyTasks b _ _ _ h (fun t ht => ?_)
      refine taskOk_of_subtasks_shape _ (fun l hl => ?_)
      simp only [Option.some.injEq] at hl
      subst hl
      simp

theorem delete_subtask_noEmpty (b : Board) (tid sid : String) (b' : Board)
    (hb : (delete_subtask b tid sid).board = some b') (h : noEmptySubtasks b = true) :
    noEmptySubtasks b' = true := by
  unfold delete_subtask at hb
  split at hb
  · exact Option.noConfusion hb
  · split at hb
    · exact Option.noConfusion hb
    · split at hb
      · exact Option.noConfusion hb
      · have hbe := Option.some.inj hb
        subst hbe
        refine noEmpty_modifyTasks b _ _ _ h (fun t ht => ?_)
        refine taskOk_of_subtasks_shape _ (fun l hl => ?_)
        simp only at hl
        split at hl
        · exact Option.noConfusion hl
        · next hemp =>
          have hle := Option.some.inj hl
          subst hle
          simpa [List.isEmpty_iff] using hemp

theorem update_subtask_noEmpty (b : Board) (tid sid title : String) (b' : Board)
    (hb : (update_subtask b tid sid title).board = some b') (h : noEmptySubtasks b = true) :
    noEmptySubtasks b' = true := by
  unfold update_subtask at hb
  split at hb
  · exact Option.noConfusion hb
  · split at hb
    · exact Option.noConfusion hb
    · split at hb
      · exact Option.noConfusion hb
      · split at hb
        · exact Option.noConfusion hb
        · have hbe := Option.some.inj hb
          subst hbe
          exact noEmpty_modifyTasks b _ _ _ h
            (fun t ht => taskOk_map_subtasks t _ (fun l hl => modifyFirst_ne_nil _ _ l hl) ht)

theorem set_subtasks_completed_noEmpty (b : Board) (tid : String) (sids : List String)
    (c : Bool) (b' : Board)
    (hb : (set_subtasks_completed b tid sids c).board = some b')
    (h : noEmptySubtasks b = true) : noEmptySubtasks b' = true := by
  unfold set_subtasks_completed at hb
  split at hb
  · exact Option.noConfusion hb
  · split at hb
    · exact Option.noConfusion hb
    · dsimp only [] at hb
      split at hb
      · exact Option.noConfusion hb
      · have hbe := Option.some.inj hb
        subst hbe
        exact noEmpty_modifyTasks b _ _ _ h
          (fun t ht => taskOk_map_subtasks t _
            (fun l hl => by cases l with | nil => exact absurd rfl hl | cons x xs => simp) ht)

theorem set_all_subtasks_completed_noEmpty (b : Board) (tid : String) (c : Bool) (b' : Board)
    (hb : (set_all_subtasks_completed b tid c).board = some b')
    (h : noEmptySubtasks b = true) : noEmptySubtasks b' = true := by
  unfold set_all_subtasks_completed at hb
  split at hb
  · exact Option.noConfusion hb
  · split at hb
    · exact Option.noConfusion hb
    · have hbe := Option.some.inj hb
      subst hbe
      exact noEmpty_modifyTasks b _ _ _ h
        (fun t ht => taskOk_map_subtasks t _
          (fun l hl => by cases l with | nil => exact absurd rfl hl | cons x xs => simp) ht)

theorem all_append_singleton (l : List α) (x : α) (q : α → Bool)
    (h : l.all q = true) (hx : q x = true) : (l ++ [x]).all q = true := by
  rw [List.all_append]
  simp [h, hx]

theorem move_task_noEmpty (b : Board) (tid fc tc : String) (ti : Int) (b' : Board)
    (hb : (move_task b tid fc tc ti).board = some b') (h : noEmptySubtasks b = true) :
    noEmptySubtasks b' = true := by
  unfold move_task at hb
  split at hb
  · exact Option.noConfusion hb
  · next F hF =>
    split at hb
    · exact Option.noConfusion hb
    · split at hb
      · exact Option.noConfusion hb
      · next task idx hfind =>
        have hbe := Option.some.inj hb
        subst hbe
        have hFmem : F ∈ b.columns := (findColumn_some fc b.columns F hF).1
        rw [noEmptySubtasks_eq] at h ⊢
        simp only [Bool.and_eq_true] at h ⊢
        have htask : taskOk task = true :=
          taskOk_of_mem_all F.tasks task (colsOk_all_of_mem b.columns F h.1 hFmem)
            (findTaskAux_some_spec tid F.tasks task idx hfind).1
        refine ⟨colsOk_map _ b.columns h.1 (fun c hc => ?_), h.2⟩
        unfold moveTaskTransform
        split
        · split
          · next moved hget =>
            exact all_insertAtNat_of_all _ _ _ _ (all_eraseIdx_of_all _ _ _ hc)
              (taskOk_of_mem_all c.tasks moved hc (List.get?_mem hget))
          · exact hc
        · split
          · exact all_filter_of_all _ _ _ hc
          · split
            · exact all_insertAtNat_of_all _ _ _ _ hc htask
            · exact hc

theorem add_task_noEmpty (b : Board) (cid : String) (inp : TaskInput) (b' : Board)
    (hb : (add_task b cid inp).board = some b') (h : noEmptySubtasks b = true) :
    noEmptySubtasks b' = true := by
  unfold add_task at hb
  split at hb
  · exact Option.noConfusion hb
  · split at hb
    · exact Option.noConfusion hb
    · have hbe := Option.some.inj hb
      subst hbe
      refine noEmpty_modifyCols b _ _ h (fun c hc => ?_)
      refine all_append_singleton c.tasks _ taskOk hc ?_
      refine taskOk_of_subtasks_shape _ (fun l hl => ?_)
      simp only at hl
      cases hs : inp.subtasks with
      | none =>
        rw [hs] at hl
        exact Option.noConfusion hl
      | some ss =>
        cases ss with
        | nil =>
          rw [hs] at hl
          exact Option.noConfusion hl
        | cons s rest =>
          rw [hs] at hl
          have hle := Option.some.inj hl
          subst hle
          simp

theorem archive_task_noEmpty (b : Board) (cid tid : String) (b' : Board)
    (hb : (archive_task b cid tid).board = some b') (h : noEmptySubtasks b = true) :
    noEmptySubtasks b' = true := by
  unfold archive_task at hb
  split at hb
  · exact Option.noConfusion hb
  · next C hC =>
    split at hb
    · exact Option.noConfusion hb
    · next task hfind =>
      have hbe := Option.some.inj hb
      subst hbe
      have hCmem : C ∈ b.columns := (findColumn_some cid b.columns C hC).1
      rw [noEmptySubtasks_eq] at h ⊢
      simp only [Bool.and_eq_true] at h ⊢
      have htask : taskOk task = true :=
        taskOk_of_mem_all C.tasks task (colsOk_all_of_mem b.columns C h.1 hCmem)
          (List.mem_of_find?_eq_some hfind)
      refine ⟨colsOk_modifyFirst _ _ _ h.1 (fun c hc => all_filter_of_all _ _ _ hc), ?_⟩
      show ((b.archive.getD []) ++ [deep_copy_task task]).all taskOk = true
      exact all_append_singleton _ _ _ h.2 htask

theorem restore_task_noEmpty (b : Board) (tid tc : String) (b' : Board)
    (hb : (restore_task b tid tc).board = some b') (h : noEmptySubtasks b = true) :
    noEmptySubtasks b' = true := by
  unfold restore_task at hb
  split at hb
  · exact Option.noConfusion hb
  · split at hb
    · exact Option.noConfusion hb
    · next task hfind =>
      split at hb
      · exact Option.noConfusion hb
      · have hbe := Option.some.inj hb
        subst hbe
        rw [noEmptySubtasks_eq] at h ⊢
        simp only [Bool.and_eq_true] at h ⊢
        have htask : taskOk task = true :=
          taskOk_of_mem_all _ task h.2 (List.mem_of_find?_eq_some hfind)
        refine ⟨colsOk_modifyFirst _ _ _ h.1
          (fun c hc => all_append_singleton _ _ _ hc htask), ?_⟩
        show ((b.archive.getD []).filter (fun t => t.id != tid)).all taskOk = true
        exact all_filter_of_all _ _ _ h.2

theorem foldl_noEmpty (step : Board × List BulkItemResult → String → Board × List BulkItemResult)
    (hstep : ∀ acc x, noEmptySubtasks acc.1 = true → noEmptySubtasks (step acc x).1 = true)
    (ids : List String) :
    ∀ init : Board × List BulkItemResult, noEmptySubtasks init.1 = true →
      noEmptySubtasks (ids.foldl step init).1 = true := by
  induction ids with
  | nil => exact fun init h => h
  | cons x xs ih => exact fun init h => ih (step init x) (hstep init x h)

theorem moveTasksStep_noEmpty (tc : String) (acc : Board × List BulkItemResult) (tid : String)
    (h : noEmptySubtasks acc.1 = true) :
    noEmptySubtasks (moveTasksStep tc acc tid).1 = true := by
  unfold moveTasksStep
  dsimp only []
  split
  · exact h
  · next info hinfo =>
    split
    · exact h
    · split
      · next b2 e heq =>
        exact move_task_noEmpty acc.1 tid info.column.id tc _ b2 (by rw [heq]) h
      · exact h

theorem patchTasksStep_noEmpty (p : TaskPatch) (acc : Board × List BulkItemResult)
    (tid : String) (h : noEmptySubtasks acc.1 = true) :
    noEmptySubtasks (patchTasksStep p acc tid).1 = true := by
  unfold patchTasksStep
  split
  · next b2 e heq =>
    exact patch_task_noEmpty acc.1 tid p b2 (by rw [heq]) h
  · exact h

theorem deleteTasksStep_noEmpty (acc : Board × List BulkItemResult)
    (tid : String) (h : noEmptySubtasks acc.1 = true) :
    noEmptySubtasks (deleteTasksStep acc tid).1 = true := by
  unfold deleteTasksStep
  split
  · exact h
  · next info hinfo =>
    split
    · next b2 e heq =>
      exact delete_task_noEmpty acc.1 info.column.id tid b2 (by rw [heq]) h
    · exact h

theorem archiveTasksStep_noEmpty (acc : Board × List BulkItemResult)
    (tid : String) (h : noEmptySubtasks acc.1 = true) :
    noEmptySubtasks (archiveTasksStep acc tid).1 = true := by
  unfold archiveTasksStep
  split
  · exact h
  · next info hinfo =>
    split
    · next b2 e heq =>
      exact archive_task_noEmpty acc.1 info.column.id tid b2 (by rw [heq]) h
    · exact h

theorem move_tasks_noEmpty (b : Board) (ids : List String) (tc : String) (b' : Board)
    (hb : (move_tasks b ids tc).board = some b') (h : noEmptySubtasks b = true) :
    noEmptySubtasks b' = true := by
  unfold move_tasks at hb
  split at hb
  · exact Option.noConfusion hb
  · have hbe := Option.some.inj hb
    subst hbe
    exact foldl_noEmpty _ (moveTasksStep_noEmpty tc) ids (b, []) h

theorem patch_tasks_noEmpty (b : Board) (ids : List String) (p : TaskPatch) (b' : Board)
    (hb : (patch_tasks b ids p).board = some b') (h : noEmptySubtasks b = true) :
    noEmptySubtasks b' = true := by
  have hbe := Option.some.inj hb
  subst hbe
  exact foldl_noEmpty _ (patchTasksStep_noEmpty p) ids (b, []) h

theorem delete_tasks_noEmpty (b : Board) (ids : List String) (b' : Board)
    (hb : (delete_tasks b ids).board = some b') (h : noEmptySubtasks b = true) :
    noEmptySubtasks b' = true := by
  have hbe := Option.some.inj hb
  subst hbe
  exact foldl_noEmpty _ deleteTasksStep_noEmpty ids (b, []) h

theorem archive_tasks_noEmpty (b : Board) (ids : List String) (b' : Board)
    (hb : (archive_tasks b ids).board = some b') (h : noEmptySubtasks b = true) :
    noEmptySubtasks b' = true := by
  have hbe := Option.some.inj hb
  subst hbe
  exact foldl_noEmpty _ archiveTasksStep_noEmpty ids (b, []) h

theorem add_task_new_tasks_ok (b : Board) (cid : String) (inp : TaskInput) (b' : Board)
    (hb : (add_task b cid inp).board = some b') :
    ∀ t, t ∈ get_all_tasks b' → t ∉ get_all_tasks b → taskOk t = true := by
  unfold add_task at hb
  split at hb
  · exact Option.noConfusion hb
  · split at hb
    · exact Option.noConfusion hb
    · have hbe := Option.some.inj hb
      subst hbe
      intro t ht hnt
      unfold get_all_tasks at ht
      rcases List.mem_flatMap.1 ht with ⟨c, hc, htc⟩
      rcases mem_modifyFirst _ _ _ c hc with hcmem | ⟨c0, hc0, rfl⟩
      · exact absurd (show t ∈ get_all_tasks b from List.mem_flatMap.2 ⟨c, hcmem, htc⟩) hnt
      · rcases List.mem_append.1 htc with hmem | hmem
        · exact absurd (show t ∈ get_all_tasks b from List.mem_flatMap.2 ⟨c0, hc0, hmem⟩) hnt
        · have ht' := List.mem_singleton.1 hmem
          subst ht'
          refine taskOk_of_subtasks_shape _ (fun l hl => ?_)
          simp only at hl
          cases hs : inp.subtasks with
          | none =>
            rw [hs] at hl
            exact Option.noConfusion hl
          | some ss =>
            cases ss with
            | nil =>
              rw [hs] at hl
              exact Option.noConfusion hl
            | cons s rest =>
              rw [hs] at hl
              have hle := Option.some.inj hl
              subst hle
              simp

/-! ## Lemmas about the dict-style indexes of the diff engine -/

theorem mem_keys_dictUpsert (l : List (String × α)) (k : String) (v : α) (k' : String) :
    k' ∈ (dictUpsert l k v).map Prod.fst ↔ k' = k ∨ k' ∈ l.map Prod.fst := by
  induction l with
  | nil => simp [dictUpsert]
  | cons e es ih =>
    by_cases h : e.1 = k
    · rw [show (e :: es : List (String × α)) = (e.1, e.2) :: es from rfl]
      simp only [dictUpsert, if_pos h, List.map_cons, List.mem_cons]
      rw [h]
      tauto
    · rw [show (e :: es : List (String × α)) = (e.1, e.2) :: es from rfl]
      simp only [dictUpsert, if_neg h, List.map_cons, List.mem_cons, ih]
      tauto

theorem nodupKeys_dictUpsert (l : List (String × α)) (k : String) (v : α)
    (h : (l.map Prod.fst).Nodup) : ((dictUpsert l k v).map Prod.fst).Nodup := by
  induction l with
  | nil => simp [dictUpsert]
  | cons e es ih =>
    simp only [List.map_cons, List.nodup_cons] at h
    by_cases he : e.1 = k
    · rw [show (e :: es : List (String × α)) = (e.1, e.2) :: es from rfl]
      simp only [dictUpsert, if_pos he, List.map_cons, List.nodup_cons]
      exact ⟨he ▸ h.1, h.2⟩
    · rw [show (e :: es : List (String × α)) = (e.1, e.2) :: es from rfl]
      simp only [dictUpsert, if_neg he, List.map_cons, List.nodup_cons]
      refine ⟨fun hm => ?_, ih h.2⟩
      rcases (mem_keys_dictUpsert es k v e.1).1 hm with h' | h'
      · exact he h'
      · exact h.1 h'

theorem dictGet?_of_mem (l : List (String × α)) (k : String) (v : α)
    (h : (l.map Prod.fst).Nodup) (hm : (k, v) ∈ l) : dictGet? l k = some v := by
  induction l with
  | nil => simp at hm
  | cons e es ih =>
    simp only [List.map_cons, List.nodup_cons] at h
    rcases List.mem_cons.1 hm with h' | h'
    · subst h'
      simp [dictGet?]
    · have hne : e.1 ≠ k := by
        intro he
        exact h.1 (he ▸ (List.mem_map.2 ⟨(k, v), h', he ▸ rfl⟩))
      rw [show (e :: es : List (String × α)) = (e.1, e.2) :: es from rfl]
      simp only [dictGet?, if_neg hne]
      exact ih h.2 h'

theorem dictGet?_isSome_iff (l : List (String × α)) (k : String) :
    (dictGet? l k).isSome ↔ k ∈ l.map Prod.fst := by
  induction l with
  | nil => simp [dictGet?]
  | cons e es ih =>
    by_cases h : e.1 = k
    · rw [show (e :: es : List (String × α)) = (e.1, e.2) :: es from rfl]
      simp [dictGet?, h]
    · rw [show (e :: es : List (String × α)) = (e.1, e.2) :: es from rfl]
      simp only [dictGet?, if_neg h, List.map_cons, List.mem_cons, ih]
      constructor
      · intro hm
        exact Or.inr hm
      · intro hm
        rcases hm with hm | hm
        · exact absurd hm.symm h
        · exact hm

theorem dictUpsert_of_not_mem (l : List (String × α)) (k : String) (v : α)
    (h : k ∉ l.map Prod.fst) : dictUpsert l k v = l ++ [(k, v)] := by
  induction l with
  | nil => rfl
  | cons e es ih =>
    simp only [List.map_cons, List.mem_cons, not_or] at h
    have hne : e.1 ≠ k := fun he => h.1 he.symm
    rw [show (e :: es : List (String × α)) = (e.1, e.2) :: es from rfl]
    simp only [dictUpsert, if_neg hne, ih h.2, List.cons_append]

theorem nodupKeys_foldl_upsert {β γ : Type} (key : β → String) (val : β → γ)
    (xs : List β) (d : List (String × γ)) (hd : (d.map Prod.fst).Nodup) :
    ((xs.foldl (fun acc x => dictUpsert acc (key x) (val x)) d).map Prod.fst).Nodup := by
  induction xs generalizing d with
  | nil => exact hd
  | cons x xs ih => exact ih _ (nodupKeys_dictUpsert d (key x) (val x) hd)

theorem nodupKeys_indexColumns (cols : List Column) :
    ((indexColumns cols).map Prod.fst).Nodup :=
  nodupKeys_foldl_upsert (fun p => p.2.id) (fun p => (p.2, p.1)) cols.enum [] (by simp)

theorem nodupKeys_indexTasks (cols : List Column) :
    ((indexTasks cols).map Prod.fst).Nodup := by
  suffices h : ∀ (cs : List Column) (d : List (String × (Task × String × Nat))),
      (d.map Prod.fst).Nodup →
      ((cs.foldl (fun d c =>
          (c.tasks.enum).foldl (fun d p => dictUpsert d p.2.id (p.2, c.id, p.1)) d) d).map
        Prod.fst).Nodup by
    exact h cols [] (by simp)
  intro cs
  induction cs with
  | nil => exact fun d hd => hd
  | cons c cs ih =>
    intro d hd
    exact ih _ (nodupKeys_foldl_upsert (fun p => p.2.id) (fun p => (p.2, c.id, p.1)) c.tasks.enum d hd)

theorem dictGet?_index_self {γ : Type} (idx : List (String × γ))
    (hn : (idx.map Prod.fst).Nodup) (e : String × γ) (he : e ∈ idx) :
    dictGet? idx e.1 = some e.2 :=
  dictGet?_of_mem idx e.1 e.2 hn (by simpa using he)

theorem enum_map_snd_f {β : Type} (l : List α) (f : α → β) :
    l.enum.map (fun p => f p.2) = l.map f := by
  conv_rhs => rw [← List.enum_map_snd l]
  rw [List.map_map]
  rfl

theorem foldl_upsert_fresh {β γ : Type} (kf : β → String) (vf : β → γ)
    (l : List β) (d : List (String × γ))
    (hnd : (l.map kf).Nodup)
    (hdisj : ∀ x ∈ l, kf x ∉ d.map Prod.fst) :
    l.foldl (fun acc x => dictUpsert acc (kf x) (vf x)) d =
      d ++ l.map (fun x => (kf x, vf x)) := by
  induction l generalizing d with
  | nil => simp
  | cons x xs ih =>
    simp only [List.foldl_cons]
    rw [dictUpsert_of_not_mem d (kf x) (vf x) (hdisj x (by simp))]
    rw [List.map_cons] at hnd
    have hnd' : (xs.map kf).Nodup := hnd.of_cons
    have hx : kf x ∉ xs.map kf := (List.nodup_cons.1 hnd).1
    have hdisj2 : ∀ y ∈ xs, kf y ∉ (d ++ [(kf x, vf x)]).map Prod.fst := by
      intro y hy hmem
      rw [List.map_append] at hmem
      rcases List.mem_append.1 hmem with h1 | h2
      · exact hdisj y (List.mem_cons_of_mem x hy) h1
      · have he : kf y = kf x := by simpa using h2
        exact hx (he ▸ List.mem_map_of_mem kf hy)
    rw [ih (d ++ [(kf x, vf x)]) hnd' hdisj2]
    simp

theorem foldl_upsert_tasks (cid : String) (l : List (Nat × Task))
    (d : List (String × (Task × String × Nat)))
    (hnd : (l.map (fun p => p.2.id)).Nodup)
    (hdisj : ∀ x ∈ l, x.2.id ∉ d.map Prod.fst) :
    l.foldl (fun acc p => dictUpsert acc p.2.id (p.2, cid, p.1)) d =
      d ++ l.map (fun p => (p.2.id, (p.2, cid, p.1))) :=
  foldl_upsert_fresh (fun p => p.2.id) (fun p => (p.2, cid, p.1)) l d hnd hdisj

theorem indexColumns_eq (cols : List Column) (h : (cols.map Column.id).Nodup) :
    indexColumns cols = cols.enum.map (fun p => (p.2.id, (p.2, p.1))) := by
  have hnd : (cols.enum.map (fun p => p.2.id)).Nodup := by
    rw [enum_map_snd_f]
    exact h
  exact foldl_upsert_fresh (fun p => p.2.id) (fun p => (p.2, p.1)) cols.enum [] hnd
    (by simp)

theorem indexTasks_eq (cols : List Column)
    (h : ((cols.flatMap Column.tasks).map Task.id).Nodup) :
    indexTasks cols =
      cols.flatMap (fun c => c.tasks.enum.map (fun p => (p.2.id, (p.2, c.id, p.1)))) := by
  suffices H : ∀ (cs : List Column) (d : List (String × (Task × String × Nat))),
      ((cs.flatMap Column.tasks).map Task.id).Nodup →
      (∀ i ∈ (cs.flatMap Column.tasks).map Task.id, i ∉ d.map Prod.fst) →
      cs.foldl (fun d c =>
          (c.tasks.enum).foldl (fun d p => dictUpsert d p.2.id (p.2, c.id, p.1)) d) d =
        d ++ cs.flatMap (fun c => c.tasks.enum.map (fun p => (p.2.id, (p.2, c.id, p.1)))) by
    exact H cols [] h (by simp)
  intro cs
  induction cs with
  | nil =>
    intro d _ _
    simp
  | cons c cs ih =>
    intro d hnd hdisj
    rw [List.flatMap_cons, List.map_append] at hnd
    rcases List.nodup_append.1 hnd with ⟨hndc, hndcs, hsep⟩
    have hA : (c.tasks.enum.map (fun p => p.2.id)).Nodup := by
      rw [enum_map_snd_f]
      exact hndc
    have hB : ∀ x ∈ c.tasks.enum, x.2.id ∉ d.map Prod.fst := by
      intro x hx
      refine hdisj x.2.id ?_
      rw [List.flatMap_cons, List.map_append]
      refine List.mem_append.2 (Or.inl ?_)
      rw [← enum_map_snd_f c.tasks Task.id]
      exact List.mem_map_of_mem (fun p => p.2.id) hx
    simp only [List.foldl_cons]
    rw [foldl_upsert_tasks c.id c.tasks.enum d hA hB]
    have hdisj2 : ∀ i ∈ (cs.flatMap Column.tasks).map Task.id,
        i ∉ (d ++ c.tasks.enum.map (fun p => (p.2.id, (p.2, c.id, p.1)))).map Prod.fst := by
      intro i hi hmem
      rw [List.map_append] at hmem
      rcases List.mem_append.1 hmem with h1 | h2
      · exact hdisj i (by
          rw [List.flatMap_cons, List.map_append]
          exact List.mem_append.2 (Or.inr hi)) h1
      · rw [List.map_map] at h2
        have h2' : i ∈ c.tasks.map Task.id := by
          rw [← enum_map_snd_f c.tasks Task.id]
          exact h2
        exact hsep h2' hi
    rw [ih (d ++ c.tasks.enum.map (fun p => (p.2.id, (p.2, c.id, p.1)))) hndcs hdisj2]
    rw [List.flatMap_cons, List.append_assoc]

theorem diff_boards_columns_removed (P N : Board) :
    (diff_boards P N).columns_removed = (indexColumns P.columns).filterMap (fun e =>
      if (dictGet? (indexColumns N.columns) e.1).isNone then
        some { column_id := e.1, before := some e.2.1, from_index := some e.2.2 }
      else none) := rfl

theorem diff_boards_tasks_removed (P N : Board) :
    (diff_boards P N).tasks_removed = (indexTasks P.columns).filterMap (fun e =>
      if (dictGet? (indexTasks N.columns) e.1).isNone then
        some { task_id := e.1, before := some e.2.1, from_column_id := some e.2.2.1,
               from_index := some e.2.2.2 }
      else none) := rfl

theorem diff_boards_tasks_added (P N : Board) :
    (diff_boards P N).tasks_added = (indexTasks N.columns).filterMap (fun e =>
      if (dictGet? (indexTasks P.columns) e.1).isNone then
        some { task_id := e.1, after := some e.2.1, to_column_id := some e.2.2.1,
               to_index := some e.2.2.2 }
      else none) := rfl

theorem diff_boards_tasks_moved (P N : Board) :
    (diff_boards P N).tasks_moved = (indexTasks N.columns).filterMap (fun e =>
      match dictGet? (indexTasks P.columns) e.1 with
      | none => none
      | some pe =>
        if pe.2.1 ≠ e.2.2.1 ∨ pe.2.2 ≠ e.2.2.2 then
          some { task_id := e.1, before := some pe.1, after := some e.2.1,
                 from_column_id := some pe.2.1, to_column_id := some e.2.2.1,
                 from_index := some pe.2.2, to_index := some e.2.2.2 }
        else none) := rfl

theorem diff_boards_tasks_updated (P N : Board) :
    (diff_boards P N).tasks_updated = (indexTasks N.columns).filterMap (fun e =>
      match dictGet? (indexTasks P.columns) e.1 with
      | none => none
      | some pe =>
        let ch := taskChangedFields pe.1 e.2.1
        if ch.isEmpty then none
        else some { task_id := e.1, before := some pe.1, after := some e.2.1,
                    from_column_id := some pe.2.1, to_column_id := some e.2.2.1,
                    from_index := some pe.2.2, to_index := some e.2.2.2,
                    changed_fields := some ch }) := rfl

theorem colRemoved_map_id (es cn : List (String × (Column × Nat))) :
    ((es.filterMap (fun e =>
      if (dictGet? cn e.1).isNone then
        some ({ column_id := e.1, before := some e.2.1, from_index := some e.2.2 } : ColumnDiff)
      else none)).map ColumnDiff.column_id) =
      (es.map Prod.fst).filter (fun k => (dictGet? cn k).isNone) := by
  induction es with
  | nil => rfl
  | cons e es ih =>
    by_cases h : dictGet? cn e.1 = none
    · simpa [List.filterMap_cons, List.filter_cons, h] using ih
    · simpa [List.filterMap_cons, List.filter_cons, h] using ih

theorem taskRemoved_map_id (es tn : List (String × (Task × String × Nat))) :
    ((es.filterMap (fun e =>
      if (dictGet? tn e.1).isNone then
        some ({ task_id := e.1, before := some e.2.1, from_column_id := some e.2.2.1,
                from_index := some e.2.2.2 } : TaskDiff)
      else none)).map TaskDiff.task_id) =
      (es.map Prod.fst).filter (fun k => (dictGet? tn k).isNone) := by
  induction es with
  | nil => rfl
  | cons e es ih =>
    by_cases h : dictGet? tn e.1 = none
    · simpa [List.filterMap_cons, List.filter_cons, h] using ih
    · simpa [List.filterMap_cons, List.filter_cons, h] using ih

theorem taskAdded_key_mem (tp tn : List (String × (Task × String × Nat))) (x : TaskDiff)
    (hx : x ∈ tn.filterMap (fun e =>
      if (dictGet? tp e.1).isNone then
        some { task_id := e.1, after := some e.2.1, to_column_id := some e.2.2.1,
               to_index := some e.2.2.2 }
      else none)) : x.task_id ∈ tn.map Prod.fst := by
  rcases List.mem_filterMap.1 hx with ⟨e, he, hfe⟩
  split at hfe
  · have hxe := Option.some.inj hfe
    subst hxe
    exact List.mem_map_of_mem Prod.fst he
  · exact Option.noConfusion hfe

theorem taskMoved_key_mem (tp tn : List (String × (Task × String × Nat))) (x : TaskDiff)
    (hx : x ∈ tn.filterMap (fun e =>
      match dictGet? tp e.1 with
      | none => none
      | some pe =>
        if pe.2.1 ≠ e.2.2.1 ∨ pe.2.2 ≠ e.2.2.2 then
          some { task_id := e.1, before := some pe.1, after := some e.2.1,
                 from_column_id := some pe.2.1, to_column_id := some e.2.2.1,
                 from_index := some pe.2.2, to_index := some e.2.2.2 }
        else none)) : x.task_id ∈ tn.map Prod.fst := by
  rcases List.mem_filterMap.1 hx with ⟨e, he, hfe⟩
  split at hfe
  · exact Option.noConfusion hfe
  · split at hfe
    · have hxe := Option.some.inj hfe
      subst hxe
      exact List.mem_map_of_mem Prod.fst he
    · exact Option.noConfusion hfe

theorem taskUpdated_key_mem (tp tn : List (String × (Task × String × Nat))) (x : TaskDiff)
    (hx : x ∈ tn.filterMap (fun e =>
      match dictGet? tp e.1 with
      | none => none
      | some pe =>
        let ch := taskChangedFields pe.1 e.2.1
        if ch.isEmpty then none
        else some { task_id := e.1, before := some pe.1, after := some e.2.1,
                    from_column_id := some pe.2.1, to_column_id := some e.2.2.1,
                    from_index := some pe.2.2, to_index := some e.2.2.2,
                    changed_fields := some ch })) : x.task_id ∈ tn.map Prod.fst := by
  rcases List.mem_filterMap.1 hx with ⟨e, he, hfe⟩
  split at hfe
  · exact Option.noConfusion hfe
  · dsimp only [] at hfe
    split at hfe
    · exact Option.noConfusion hfe
    · have hxe := Option.some.inj hfe
      subst hxe
      exact List.mem_map_of_mem Prod.fst he

theorem columnChangedFields_self (a : Column) : columnChangedFields a a = [] := by
  simp [columnChangedFields, columnFieldEq]

theorem taskChangedFields_self (a : Task) : taskChangedFields a a = [] := by
  simp [taskChangedFields, taskFieldEq]

/-- C6: for every board, diffing the board against itself yields a diff in
which all eight buckets (columns added/removed/updated/moved and tasks
added/removed/updated/moved) are empty and `metadata_changed` is false. -/
theorem diff_boards_self_empty (b : Board) :
    diff_boards b b = { metadata_changed := false } := by
  have hc : ∀ e ∈ indexColumns b.columns, dictGet? (indexColumns b.columns) e.1 = some e.2 :=
    fun e he => dictGet?_index_self _ (nodupKeys_indexColumns b.columns) e he
  have ht : ∀ e ∈ indexTasks b.columns, dictGet? (indexTasks b.columns) e.1 = some e.2 :=
    fun e he => dictGet?_index_self _ (nodupKeys_indexTasks b.columns) e he
  simp only [diff_boards, BoardDiff.mk.injEq]
  refine ⟨by simp, ?_, ?_, ?_, ?_, ?_, ?_, ?_, ?_⟩ <;>
    refine List.filterMap_eq_nil_iff.mpr (fun e he => ?_)
  · simp [hc e he]
  · simp [hc e he]
  · simp [hc e he, columnChangedFields_self]
  · simp [hc e he]
  · simp [ht e he]
  · simp [ht e he]
  · simp [ht e he, taskChangedFields_self]
  · simp [ht e he]

/-- C7: removing one column that owns exactly two tasks yields exactly the
one column-removal entry and exactly the two task-removal entries for that
column's tasks, and neither task id shows up in any other task bucket
(added, updated or moved); the data-model invariants (unique column ids,
board-wide unique task ids) are assumed. -/
theorem diff_removed_column_spec (P N : Board) (l1 l2 : List Column) (c : Column)
    (t1 t2 : Task)
    (hP : P.columns = l1 ++ c :: l2)
    (hN : N.columns = l1 ++ l2)
    (hc : c.tasks = [t1, t2])
    (hcols : (columnIds P).Nodup)
    (htasks : (activeTaskIds P).Nodup) :
    ((diff_boards P N).columns_removed.map ColumnDiff.column_id = [c.id]) ∧
    ((diff_boards P N).tasks_removed.map TaskDiff.task_id = [t1.id, t2.id]) ∧
    (∀ i, (i = t1.id ∨ i = t2.id) →
      i ∉ (diff_boards P N).tasks_added.map TaskDiff.task_id ∧
      i ∉ (diff_boards P N).tasks_updated.map TaskDiff.task_id ∧
      i ∉ (diff_boards P N).tasks_moved.map TaskDiff.task_id) := by
  have hcolsP : ((l1 ++ c :: l2).map Column.id).Nodup := by
    rw [← hP]
    exact hcols
  have htasksP : (((l1 ++ c :: l2).flatMap Column.tasks).map Task.id).Nodup := by
    rw [← hP]
    exact htasks
  have hids : ((l1 ++ c :: l2).flatMap Column.tasks).map Task.id =
      (l1.flatMap Column.tasks).map Task.id ++
        (t1.id :: t2.id :: (l2.flatMap Column.tasks).map Task.id) := by
    rw [List.flatMap_append, List.flatMap_cons, hc]
    simp
  have h0 := htasksP
  rw [hids] at h0
  rcases List.nodup_append.1 h0 with ⟨hA, hcons, hdisj⟩
  rw [List.nodup_cons] at hcons
  obtain ⟨ht1n, hcons2⟩ := hcons
  rw [List.nodup_cons] at hcons2
  obtain ⟨ht2n, hB⟩ := hcons2
  have ht1AB : t1.id ∉ (l1.flatMap Column.tasks).map Task.id ++
      (l2.flatMap Column.tasks).map Task.id := by
    rw [List.mem_append]
    rintro (hmem | hmem)
    · exact hdisj hmem (by simp)
    · exact ht1n (by simp [hmem])
  have ht2AB : t2.id ∉ (l1.flatMap Column.tasks).map Task.id ++
      (l2.flatMap Column.tasks).map Task.id := by
    rw [List.mem_append]
    rintro (hmem | hmem)
    · exact hdisj hmem (by simp)
    · exact ht2n hmem
  have hcolsN : ((l1 ++ l2).map Column.id).Nodup := by
    have hsub : (l1 ++ l2).Sublist (l1 ++ c :: l2) :=
      (List.sublist_cons_self c l2).append_left l1
    exact hcolsP.sublist (hsub.map Column.id)
  have htasksN : (((l1 ++ l2).flatMap Column.tasks).map Task.id).Nodup := by
    have he : ((l1 ++ l2).flatMap Column.tasks).map Task.id =
        (l1.flatMap Column.tasks).map Task.id ++
          (l2.flatMap Column.tasks).map Task.id := by
      rw [List.flatMap_append]
      simp
    rw [he]
    exact List.nodup_append.2 ⟨hA, hB, fun a ha hb => hdisj ha (by simp [hb])⟩
  have hentry : (fun c0 : Column =>
      (c0.tasks.enum.map (fun p => (p.2.id, (p.2, c0.id, p.1)))).map Prod.fst) =
      (fun c0 : Column => c0.tasks.map Task.id) := by
    funext c0
    rw [List.map_map]
    exact enum_map_snd_f c0.tasks Task.id
  have hkeysCP : (indexColumns P.columns).map Prod.fst = (l1 ++ c :: l2).map Column.id := by
    rw [hP, indexColumns_eq _ hcolsP, List.map_map]
    exact enum_map_snd_f (l1 ++ c :: l2) Column.id
  have hkeysCN : (indexColumns N.columns).map Prod.fst = (l1 ++ l2).map Column.id := by
    rw [hN, indexColumns_eq _ hcolsN, List.map_map]
    exact enum_map_snd_f (l1 ++ l2) Column.id
  have hkeysTP : (indexTasks P.columns).map Prod.fst =
      (l1.flatMap Column.tasks).map Task.id ++
        (t1.id :: t2.id :: (l2.flatMap Column.tasks).map Task.id) := by
    rw [hP, indexTasks_eq _ htasksP, List.map_flatMap, hentry, ← hids, List.map_flatMap]
  have hkeysTN : (indexTasks N.columns).map Prod.fst =
      (l1.flatMap Column.tasks).map Task.id ++
        (l2.flatMap Column.tasks).map Task.id := by
    rw [hN, indexTasks_eq _ htasksN, List.map_flatMap, hentry, List.flatMap_append]
    simp [List.map_flatMap]
  have hcondC : ∀ k, (dictGet? (indexColumns N.columns) k).isNone = true ↔
      k ∉ (l1 ++ l2).map Column.id := by
    intro k
    rw [Option.isNone_iff_eq_none, ← Option.not_isSome_iff_eq_none, dictGet?_isSome_iff,
      hkeysCN]
  have hcondT : ∀ k, (dictGet? (indexTasks N.columns) k).isNone = true ↔
      k ∉ (l1.flatMap Column.tasks).map Task.id ++
        (l2.flatMap Column.tasks).map Task.id := by
    intro k
    rw [Option.isNone_iff_eq_none, ← Option.not_isSome_iff_eq_none, dictGet?_isSome_iff,
      hkeysTN]
  refine ⟨?_, ?_, ?_⟩
  · rw [diff_boards_columns_removed, colRemoved_map_id, hkeysCP]
    have hcid : c.id ∉ (l1 ++ l2).map Column.id := by
      have hcp := hcolsP
      rw [List.map_append, List.map_cons] at hcp
      rcases List.nodup_append.1 hcp with ⟨_, hc2, hdisjC⟩
      rw [List.nodup_cons] at hc2
      rw [List.map_append, List.mem_append]
      rintro (hm | hm)
      · exact hdisjC hm (by simp)
      · exact hc2.1 hm
    have hfl1 : (l1.map Column.id).filter
        (fun k => (dictGet? (indexColumns N.columns) k).isNone) = [] := by
      rw [List.filter_eq_nil_iff]
      intro k hk hcond
      exact (hcondC k).1 hcond (by
        rw [List.map_append]
        exact List.mem_append.2 (Or.inl hk))
    have hfl2 : (l2.map Column.id).filter
        (fun k => (dictGet? (indexColumns N.columns) k).isNone) = [] := by
      rw [List.filter_eq_nil_iff]
      intro k hk hcond
      exact (hcondC k).1 hcond (by
        rw [List.map_append]
        exact List.mem_append.2 (Or.inr hk))
    rw [List.map_append, List.map_cons, List.filter_append, List.filter_cons,
      if_pos ((hcondC c.id).2 hcid), hfl1, hfl2]
    rfl
  · rw [diff_boards_tasks_removed, taskRemoved_map_id, hkeysTP]
    have hfA : ((l1.flatMap Column.tasks).map Task.id).filter
        (fun k => (dictGet? (indexTasks N.columns) k).isNone) = [] := by
      rw [List.filter_eq_nil_iff]
      intro k hk hcond
      exact (hcondT k).1 hcond (List.mem_append.2 (Or.inl hk))
    have hfB : ((l2.flatMap Column.tasks).map Task.id).filter
        (fun k => (dictGet? (indexTasks N.columns) k).isNone) = [] := by
      rw [List.filter_eq_nil_iff]
      intro k hk hcond
      exact (hcondT k).1 hcond (List.mem_append.2 (Or.inr hk))
    rw [List.filter_append, List.filter_cons, List.filter_cons,
      if_pos ((hcondT t1.id).2 ht1AB), if_pos ((hcondT t2.id).2 ht2AB), hfA, hfB]
    rfl
  · intro i hi
    have hiAB : i ∉ (l1.flatMap Column.tasks).map Task.id ++
        (l2.flatMap Column.tasks).map Task.id := by
      rcases hi with rfl | rfl
      · exact ht1AB
      · exact ht2AB
    refine ⟨?_, ?_, ?_⟩
    · intro hmem
      rcases List.mem_map.1 hmem with ⟨x, hx, hxi⟩
      rw [diff_boards_tasks_added] at hx
      have hkey := taskAdded_key_mem _ _ x hx
      rw [hkeysTN, hxi] at hkey
      exact hiAB hkey
    · intro hmem
      rcases List.mem_map.1 hmem with ⟨x, hx, hxi⟩
      rw [diff_boards_tasks_updated] at hx
      have hkey := taskUpdated_key_mem _ _ x hx
      rw [hkeysTN, hxi] at hkey
      exact hiAB hkey
    · intro hmem
      rcases List.mem_map.1 hmem with ⟨x, hx, hxi⟩
      rw [diff_boards_tasks_moved] at hx
      have hkey := taskMoved_key_mem _ _ x hx
      rw [hkeysTN, hxi] at hkey
      exact hiAB hkey

/-- Witness for C7: dropping the two-task `todo` column from the example
board records one column removal, the two task removals, and neither task
id in the updated bucket. -/
theorem diff_removed_column_spec_witness :
    ((diff_boards exampleBoard { exampleBoard with columns := [exampleDone] }).columns_removed.map
        ColumnDiff.column_id = ["todo"]) ∧
    ((diff_boards exampleBoard { exampleBoard with columns := [exampleDone] }).tasks_removed.map
        TaskDiff.task_id = ["task-1", "task-2"]) ∧
    "task-1" ∉ (diff_boards exampleBoard
        { exampleBoard with columns := [exampleDone] }).tasks_updated.map TaskDiff.task_id := by
  have h := diff_removed_column_spec exampleBoard
    { exampleBoard with columns := [exampleDone] } [] [exampleDone] exampleTodo
    (exampleTask "task-1") (exampleTask "task-2") rfl rfl rfl (by decide) (by decide)
  exact ⟨h.1, h.2.1, (h.2.2 "task-1" (Or.inl rfl)).2.1⟩

/-! ## Lemmas about `move_task` -/

theorem moveTaskTransform_id (tid fc tc : String) (ti : Nat) (toi : Int) (task : Task)
    (col : Column) : (moveTaskTransform tid fc tc ti toi task col).id = col.id := by
  unfold moveTaskTransform
  split
  · split <;> rfl
  · split
    · rfl
    · split <;> rfl

theorem pyInsert_of_length_le (l : List α) (i : Int) (x : α) (h : (l.length : Int) ≤ i) :
    pyInsert l i x = l ++ [x] := by
  have h0 : ¬ i < 0 := by omega
  simp only [pyInsert, if_neg h0]
  exact insertAtNat_of_length_le l i.toNat x (by omega)

theorem move_task_success_eq (b : Board) (tid fc tc : String) (i : Int) (F : Column)
    (t : Task) (idx : Nat)
    (hF : find_column_by_id b fc = some F)
    (hT : (find_column_by_id b tc).isSome)
    (hA : findTaskAux tid F.tasks 0 = some (t, idx)) :
    move_task b tid fc tc i =
      ⟨true, some { b with columns := b.columns.map (moveTaskTransform tid fc tc idx i t) },
        none⟩ := by
  obtain ⟨T, hT2⟩ := Option.isSome_iff_exists.mp hT
  simp only [move_task, hF, hT2, hA]
  try rfl

theorem moveTaskTransform_at_from (tid fc tc : String) (idx : Nat) (i : Int) (t : Task)
    (hne : fc ≠ tc) (c : Column) (hc : c.id = fc) :
    moveTaskTransform tid fc tc idx i t c =
      { c with tasks := c.tasks.filter (fun x => x.id != tid) } := by
  have h1 : ¬(c.id = fc ∧ c.id = tc) := by
    rintro ⟨ha, hb⟩
    exact hne (ha.symm.trans hb)
  unfold moveTaskTransform
  rw [if_neg h1, if_pos hc]

theorem moveTaskTransform_at_to (tid fc tc : String) (idx : Nat) (i : Int) (t : Task)
    (hne : fc ≠ tc) (c : Column) (hc : c.id = tc) :
    moveTaskTransform tid fc tc idx i t c = { c with tasks := pyInsert c.tasks i t } := by
  have h1 : ¬(c.id = fc ∧ c.id = tc) := fun h => hne ((hc ▸ h.1).symm)
  have h2 : ¬(c.id = fc) := fun h => hne ((hc ▸ h).symm)
  unfold moveTaskTransform
  rw [if_neg h1, if_neg h2, if_pos hc]
  rfl

theorem moveTaskTransform_at_other (tid fc tc : String) (idx : Nat) (i : Int) (t : Task)
    (c : Column) (h1 : c.id ≠ fc) (h2 : c.id ≠ tc) :
    moveTaskTransform tid fc tc idx i t c = c := by
  unfold moveTaskTransform
  rw [if_neg (fun h => h1 h.1), if_neg h1, if_neg h2]

theorem moveTaskTransform_at_same (tid fc : String) (idx : Nat) (i : Int) (t : Task)
    (c : Column) (hc : c.id = fc) (hg : c.tasks.get? idx = some t) :
    moveTaskTransform tid fc fc idx i t c =
      { c with tasks := pyInsert (c.tasks.eraseIdx idx) i t } := by
  unfold moveTaskTransform
  rw [if_pos ⟨hc, hc⟩, hg]

theorem move_task_same_column (b : Board) (tid fc : String) (i : Int) (F : Column)
    (t : Task) (idx : Nat)
    (hF : find_column_by_id b fc = some F) (hA : findTaskAux tid F.tasks 0 = some (t, idx)) :
    ∃ b', move_task b tid fc fc i = ⟨true, some b', none⟩ ∧
      find_column_by_id b' fc = some { F with tasks := pyInsert (F.tasks.eraseIdx idx) i t } := by
  have hFid : F.id = fc := (findColumn_some fc b.columns F hF).2
  have hg : F.tasks.get? idx = some t := (findTaskAux_some_spec tid F.tasks t idx hA).2.2
  refine ⟨{ b with columns := b.columns.map (moveTaskTransform tid fc fc idx i t) },
    move_task_success_eq b tid fc fc i F t idx hF (by rw [hF]; rfl) hA, ?_⟩
  show findColumn fc (b.columns.map _) = _
  rw [findColumn_map _ (moveTaskTransform_id tid fc fc idx i t) fc b.columns,
    show findColumn fc b.columns = some F from hF, Option.map_some',
    moveTaskTransform_at_same tid fc idx i t F hFid hg]

theorem move_task_cross_column (b : Board) (tid fc tc : String) (i : Int) (F T : Column)
    (t : Task) (idx : Nat) (hne : fc ≠ tc)
    (hF : find_column_by_id b fc = some F) (hT : find_column_by_id b tc = some T)
    (hA : findTaskAux tid F.tasks 0 = some (t, idx)) :
    ∃ b', move_task b tid fc tc i = ⟨true, some b', none⟩ ∧
      b' = { b with columns := b.columns.map (moveTaskTransform tid fc tc idx i t) } ∧
      find_column_by_id b' fc = some { F with tasks := F.tasks.filter (fun x => x.id != tid) } ∧
      find_column_by_id b' tc = some { T with tasks := pyInsert T.tasks i t } := by
  have hFid : F.id = fc := (findColumn_some fc b.columns F hF).2
  have hTid : T.id = tc := (findColumn_some tc b.columns T hT).2
  refine ⟨{ b with columns := b.columns.map (moveTaskTransform tid fc tc idx i t) },
    move_task_success_eq b tid fc tc i F t idx hF (by rw [hT]; rfl) hA, rfl, ?_, ?_⟩
  · show findColumn fc (b.columns.map _) = _
    rw [findColumn_map _ (moveTaskTransform_id tid fc tc idx i t) fc b.columns,
      show findColumn fc b.columns = some F from hF, Option.map_some',
      moveTaskTransform_at_from tid fc tc idx i t hne F hFid]
  · show findColumn tc (b.columns.map _) = _
    rw [findColumn_map _ (moveTaskTransform_id tid fc tc idx i t) tc b.columns,
      show findColumn tc b.columns = some T from hT, Option.map_some',
      moveTaskTransform_at_to tid fc tc idx i t hne T hTid]

/-- C5: `move_task` fails (success false, no board) exactly when the
source column, target column, or the task in the stated source column is
missing; identical source and target reorder in place by removing at the
found index and inserting at the (clamped) target index; distinct columns
remove the task from the source and insert a copy into the target at the
target index, an index beyond the length appending; and the spec's
concrete scenario moves `task-1` from `todo` to empty `done` at index 0,
leaving `done.tasks = [task-1]` and `todo.tasks = [task-2]`. -/
theorem move_task_spec :
    (∀ (b : Board) (tid fc tc : String) (i : Int),
      ((move_task b tid fc tc i).success = true ↔
        ∃ F, find_column_by_id b fc = some F ∧ (find_column_by_id b tc).isSome ∧
          (findTaskAux tid F.tasks 0).isSome) ∧
      ((move_task b tid fc tc i).success = false ↔ (move_task b tid fc tc i).board = none)) ∧
    (∀ (b : Board) (tid fc : String) (i : Int) (F : Column) (t : Task) (idx : Nat),
      find_column_by_id b fc = some F → findTaskAux tid F.tasks 0 = some (t, idx) →
      ∃ b', move_task b tid fc fc i = ⟨true, some b', none⟩ ∧
        find_column_by_id b' fc = some { F with tasks := pyInsert (F.tasks.eraseIdx idx) i t }) ∧
    (∀ (b : Board) (tid fc tc : String) (i : Int) (F T : Column) (t : Task) (idx : Nat),
      fc ≠ tc → find_column_by_id b fc = some F → find_column_by_id b tc = some T →
      findTaskAux tid F.tasks 0 = some (t, idx) →
      ∃ b', move_task b tid fc tc i = ⟨true, some b', none⟩ ∧
        find_column_by_id b' fc = some { F with tasks := F.tasks.filter (fun x => x.id != tid) } ∧
        find_column_by_id b' tc = some { T with tasks := pyInsert T.tasks i t }) ∧
    (∀ (l : List Task) (i : Int) (x : Task), (l.length : Int) ≤ i → pyInsert l i x = l ++ [x]) ∧
    ((move_task exampleBoard "task-1" "todo" "done" 0).board.map
        (fun b => b.columns.map (fun c => (c.id, c.tasks.map Task.id))) =
      some [("todo", ["task-2"]), ("done", ["task-1"])]) := by
  refine ⟨?_, ?_, ?_, ?_, ?_⟩
  · intro b tid fc tc i
    cases hF : find_column_by_id b fc with
    | none => exact ⟨by simp [move_task, hF], by simp [move_task, hF]⟩
    | some F =>
      cases hT : find_column_by_id b tc with
      | none =>
        exact ⟨by simp [move_task, hF, hT], by simp [move_task, hF, hT]⟩
      | some T =>
        cases hA : findTaskAux tid F.tasks 0 with
        | none =>
          exact ⟨by simp [move_task, hF, hT, hA], by simp [move_task, hF, hT, hA]⟩
        | some p =>
          obtain ⟨pt, pi⟩ := p
          exact ⟨by simp [move_task, hF, hT, hA], by simp [move_task, hF, hT, hA]⟩
  · exact fun b tid fc i F t idx hF hA => move_task_same_column b tid fc i F t idx hF hA
  · intro b tid fc tc i F T t idx hne hF hT hA
    obtain ⟨b2, h1, -, h2, h3⟩ := move_task_cross_column b tid fc tc i F T t idx hne hF hT hA
    exact ⟨b2, h1, h2, h3⟩
  · exact pyInsert_of_length_le
  · rfl

/-- Witness for C5: the cross-column conjunct instantiated on the spec's
concrete scenario board. -/
theorem move_task_spec_witness :
    ∃ b', move_task exampleBoard "task-1" "todo" "done" 0 = ⟨true, some b', none⟩ ∧
      find_column_by_id b' "todo" =
        some { exampleTodo with
               tasks := exampleTodo.tasks.filter (fun x => x.id != "task-1") } ∧
      find_column_by_id b' "done" =
        some { exampleDone with tasks := pyInsert exampleDone.tasks 0 (exampleTask "task-1") } :=
  move_task_spec.2.2.1 exampleBoard "task-1" "todo" "done" 0 exampleTodo exampleDone
    (exampleTask "task-1") 0 (by decide) rfl rfl rfl

/-! ## The "find a task and modify it in place" loop shape

`patch_task` and every subtask operation locate a task with
`find_task_by_id` and then rewrite exactly that task inside the first
column whose id matches the found column's id.  The lemmas below
characterise that shape once, for any in-place task update `f` guarded by
any predicate `q` that only accepts tasks with the looked-up id. -/

theorem findTaskAux_modifyFirst_other (tid k : String) (hk : k ≠ tid)
    (q : Task → Bool) (f : Task → Task)
    (hq : ∀ x, q x = true → x.id = tid) (hf : ∀ x, (f x).id = x.id)
    (l : List Task) (n : Nat) :
    findTaskAux k (modifyFirst q f l) n = findTaskAux k l n := by
  induction l generalizing n with
  | nil => rfl
  | cons x xs ih =>
    by_cases hx : q x
    · have hxid : x.id = tid := hq x hx
      have h1 : ¬ (f x).id = k := by rw [hf, hxid]; exact fun h => hk h.symm
      have h2 : ¬ x.id = k := by rw [hxid]; exact fun h => hk h.symm
      simp only [modifyFirst, hx, if_pos, findTaskAux, if_neg h1, if_neg h2]
    · simp only [modifyFirst, hx, Bool.false_eq_true, if_false, findTaskAux]
      by_cases hxk : x.id = k
      · rw [if_pos hxk, if_pos hxk]
      · rw [if_neg hxk, if_neg hxk, ih]

theorem findTaskAux_modifyFirst_self (tid : String) (q : Task → Bool) (f : Task → Task)
    (hq : ∀ x, q x = true → x.id = tid) (hf : ∀ x, (f x).id = x.id)
    (l : List Task) (t : Task) (i : Nat)
    (hA : findTaskAux tid l 0 = some (t, i)) (hqt : q t = true) :
    findTaskAux tid (modifyFirst q f l) 0 = some (f t, i) := by
  induction l generalizing t i with
  | nil => simp [findTaskAux] at hA
  | cons x xs ih =>
    by_cases hx : x.id = tid
    · rw [findTaskAux, if_pos hx] at hA
      cases hA
      have hqx : q x = true := hqt
      have hfx : (f x).id = tid := by rw [hf, hx]
      simp only [modifyFirst, hqx, if_pos, findTaskAux, if_pos hfx]
    · have hqx : q x = false := by
        cases hqx : q x with
        | false => rfl
        | true => exact absurd (hq x hqx) hx
      rw [findTaskAux, if_neg hx, findTaskAux_succ] at hA
      cases hh : findTaskAux tid xs 0 with
      | none => rw [hh] at hA; simp at hA
      | some p =>
        obtain ⟨pt, pi⟩ := p
        rw [hh] at hA
        simp only [Option.map_some', Option.some.injEq, Prod.mk.injEq] at hA
        obtain ⟨h1, h2⟩ := hA
        subst h1
        simp only [modifyFirst, hqx, Bool.false_eq_true, if_false, findTaskAux, if_neg hx,
          findTaskAux_succ, ih pt pi hh hqt]
        rw [← h2]
        rfl

theorem modifyColumns_spec (tid : String) (q : Task → Bool) (f : Task → Task)
    (hq : ∀ x, q x = true → x.id = tid) (hf : ∀ x, (f x).id = x.id)
    (cols : List Column) (info : TaskInfo)
    (hcols : (cols.map Column.id).Nodup)
    (h : findTaskInColumns tid cols = some info) (hqt : q info.task = true) :
    ((findTaskInColumns tid (modifyFirst (fun c => c.id == info.column.id)
        (fun c => { c with tasks := modifyFirst q f c.tasks }) cols)).map TaskInfo.task =
      some (f info.task)) ∧
    ((findTaskInColumns tid (modifyFirst (fun c => c.id == info.column.id)
        (fun c => { c with tasks := modifyFirst q f c.tasks }) cols)).map
          (fun x => x.column.id) = some info.column.id) ∧
    (∀ k, k ≠ tid →
      (findTaskInColumns k (modifyFirst (fun c => c.id == info.column.id)
          (fun c => { c with tasks := modifyFirst q f c.tasks }) cols)).map TaskInfo.task =
        (findTaskInColumns k cols).map TaskInfo.task) ∧
    ((modifyFirst (fun c => c.id == info.column.id)
        (fun c => { c with tasks := modifyFirst q f c.tasks }) cols).map Column.id =
      cols.map Column.id) ∧
    (((modifyFirst (fun c => c.id == info.column.id)
        (fun c => { c with tasks := modifyFirst q f c.tasks }) cols).flatMap
          Column.tasks).map Task.id = (cols.flatMap Column.tasks).map Task.id) := by
  induction cols with
  | nil => simp [findTaskInColumns] at h
  | cons c cs ih =>
    simp only [List.map_cons, List.nodup_cons] at hcols
    cases hA : findTaskAux tid c.tasks 0 with
    | some p =>
      obtain ⟨pt, pi⟩ := p
      rw [findTaskInColumns, hA] at h
      cases h
      have hceq : (c.id == c.id) = true := by simp
      have hA' := findTaskAux_modifyFirst_self tid q f hq hf c.tasks pt pi hA hqt
      refine ⟨?_, ?_, ?_, ?_, ?_⟩
      · simp only [modifyFirst, hceq, if_pos, findTaskInColumns, hA']
        rfl
      · simp only [modifyFirst, hceq, if_pos, findTaskInColumns, hA']
        rfl
      · intro k hk
        simp only [modifyFirst, hceq, if_pos, findTaskInColumns,
          findTaskAux_modifyFirst_other tid k hk q f hq hf c.tasks 0]
        cases hB : findTaskAux k c.tasks 0 with
        | none => rfl
        | some pk => rfl
      · simp only [modifyFirst, hceq, if_pos, List.map_cons]
      · simp only [modifyFirst, hceq, if_pos, List.flatMap_cons, List.map_append,
          modifyFirst_map_id Task.id q f hf c.tasks]
    | none =>
      rw [findTaskInColumns, hA] at h
      rcases findTaskInColumns_some_spec tid cs info h with ⟨hmem, -, -, -⟩
      have hne : c.id ≠ info.column.id := by
        intro he
        exact hcols.1 (he ▸ List.mem_map.2 ⟨info.column, hmem, rfl⟩)
      have hceq : (c.id == info.column.id) = false := by
        simp [hne]
      rcases ih hcols.2 h with ⟨ih1, ih2, ih3, ih4, ih5⟩
      refine ⟨?_, ?_, ?_, ?_, ?_⟩
      · simp only [modifyFirst, hceq, Bool.false_eq_true, if_false, findTaskInColumns, hA, ih1]
      · simp only [modifyFirst, hceq, Bool.false_eq_true, if_false, findTaskInColumns, hA, ih2]
      · intro k hk
        simp only [modifyFirst, hceq, Bool.false_eq_true, if_false, findTaskInColumns]
        cases hB : findTaskAux k c.tasks 0 with
        | none => exact ih3 k hk
        | some pk => rfl
      · simp only [modifyFirst, hceq, Bool.false_eq_true, if_false, List.map_cons, ih4]
      · simp only [modifyFirst, hceq, Bool.false_eq_true, if_false, List.flatMap_cons,
          List.map_append, ih5]

theorem delete_subtask_last (b : Board) (tid sid : String) (info : TaskInfo) (st : Subtask)
    (hcols : (columnIds b).Nodup)
    (hfi : find_task_by_id b tid = some info)
    (hsub : info.task.subtasks = some [st]) (hst : st.id = sid) :
    ∃ b', (delete_subtask b tid sid).board = some b' ∧
      (getTask? b' tid).map Task.subtasks = some none := by
  subst hst
  have htr : subtasksTruthy info.task = true := by
    unfold subtasksTruthy
    rw [hsub]
  have hany : ((info.task.subtasks.getD []).any (fun s => s.id == st.id)) = true := by
    rw [hsub]
    simp
  have hid : info.task.id = tid := (findTaskInColumns_some_spec tid b.columns info hfi).2.2.1
  have hqt : (fun t => t.id == tid && subtasksTruthy t) info.task = true := by
    simp [hid, htr]
  have hspec := modifyColumns_spec tid (fun t => t.id == tid && subtasksTruthy t)
    (removeSubtaskFromTask st.id)
    (fun x hx => by
      simp only [Bool.and_eq_true, beq_iff_eq] at hx
      exact hx.1)
    (fun x => rfl) b.columns info hcols hfi hqt
  refine ⟨{ b with columns := modifyFirst (fun c => c.id == info.column.id) (fun c => { c with tasks := modifyFirst (fun t => t.id == tid && subtasksTruthy t) (removeSubtaskFromTask st.id) c.tasks }) b.columns }, ?_, ?_⟩
  · simp only [delete_subtask, hfi]
    rw [if_neg (by simp [htr]), if_neg (by simp [hany])]
    rfl
  · show ((findTaskInColumns tid (modifyFirst (fun c => c.id == info.column.id) (fun c => { c with tasks := modifyFirst (fun t => t.id == tid && subtasksTruthy t) (removeSubtaskFromTask st.id) c.tasks }) b.columns)).map TaskInfo.task).map Task.subtasks = some none
    rw [hspec.1]
    simp [removeSubtaskFromTask, hsub]

theorem applyPatchToTask_id (p : TaskPatch) (t : Task) :
    (applyPatchToTask p t).id = t.id := rfl

theorem patch_task_found (b : Board) (tid : String) (p : TaskPatch) (info : TaskInfo)
    (hcols : (columnIds b).Nodup) (h : find_task_by_id b tid = some info) :
    ∃ b', patch_task b tid p = ⟨true, some b', none⟩ ∧
      getTask? b' tid = some (applyPatchToTask p info.task) ∧
      (∀ k, k ≠ tid → getTask? b' k = getTask? b k) ∧
      activeTaskIds b' = activeTaskIds b ∧ columnIds b' = columnIds b := by
  have hq : ∀ x : Task, (x.id == tid) = true → x.id = tid := fun x hx => by simpa using hx
  have hqt : (info.task.id == tid) = true := by
    have := (findTaskInColumns_some_spec tid b.columns info h).2.2.1
    simp [this]
  have hspec := modifyColumns_spec tid (fun t => t.id == tid) (applyPatchToTask p) hq
    (fun x => rfl) b.columns info hcols h hqt
  let cols' := modifyFirst (fun c => c.id == info.column.id)
    (fun c => { c with tasks := modifyFirst (fun t => t.id == tid) (applyPatchToTask p) c.tasks })
    b.columns
  refine ⟨{ b with columns := cols' }, ?_, ?_, ?_, ?_, ?_⟩
  · simp only [patch_task, h]
    try rfl
  · exact hspec.1
  · exact fun k hk => hspec.2.2.1 k hk
  · exact hspec.2.2.2.2
  · exact hspec.2.2.2.1

/-- Counterexample to C1 as stated: patching with `tags` explicitly set to
the concrete value `[]` does not replace the field with `[]`; the code
treats an empty list like an explicit clear and removes the field
(`task.tags` becomes `None`). -/
theorem patch_task_empty_tags_clears :
    ((patch_task tagsBoard "task-1" { tags := .setTo [] }).board.bind
        (fun b => getTask? b "task-1")).map Task.tags = some none ∧
      some (none : Option (List String)) ≠ some (some ([] : List String)) :=
  ⟨rfl, by simp⟩

/-- C1 (amended): `patch_task` implements the three-way patch distinction
on every patchable field of a found task — a field left at the `UNSET`
sentinel keeps the prior value, a field explicitly cleared (`None`)
becomes absent, and a field set to a value is replaced — with the
following code-forced refinements: string payloads for `description` are
trimmed, an empty list set on `tags` or `related_files` clears the field,
and an unrecognised string set on `priority` or `template` clears the
field.  All other tasks keep their values.  The board is assumed to
satisfy the data-model invariant that column ids are unique. -/
theorem patch_task_three_way (b : Board) (tid : String) (p : TaskPatch) (info : TaskInfo)
    (hcols : (columnIds b).Nodup) (h : find_task_by_id b tid = some info) :
    ∃ b' t', patch_task b tid p = ⟨true, some b', none⟩ ∧
      getTask? b' tid = some t' ∧
      t'.id = info.task.id ∧
      t'.description = (match p.description with
        | .unset => info.task.description
        | .clear => none
        | .setTo s => some (pyStrip s)) ∧
      t'.priority = (match p.priority with
        | .unset => info.task.priority
        | .clear => none
        | .setTo (.enum pr) => some pr
        | .setTo (.raw s) => Priority.ofString? s) ∧
      t'.tags = (match p.tags with
        | .unset => info.task.tags
        | .clear => none
        | .setTo [] => none
        | .setTo (x :: xs) => some (x :: xs)) ∧
      t'.assignee = (match p.assignee with
        | .unset => info.task.assignee
        | .clear => none
        | .setTo s => some s) ∧
      t'.due_date = (match p.due_date with
        | .unset => info.task.due_date
        | .clear => none
        | .setTo s => some s) ∧
      t'.related_files = (match p.related_files with
        | .unset => info.task.related_files
        | .clear => none
        | .setTo [] => none
        | .setTo (x :: xs) => some (x :: xs)) ∧
      t'.template = (match p.template with
        | .unset => info.task.template
        | .clear => none
        | .setTo (.enum tt) => some tt
        | .setTo (.raw s) => TemplateType.ofString? s) ∧
      (∀ k, k ≠ tid → getTask? b' k = getTask? b k) := by
  obtain ⟨b', h1, h2, h3, -, -⟩ := patch_task_found b tid p info hcols h
  exact ⟨b', applyPatchToTask p info.task, h1, h2, rfl, rfl, rfl, rfl, rfl, rfl, rfl, rfl, h3⟩

/-- Witness for the amended C1 on a concrete board: clearing `tags`,
setting `description`, and leaving everything else unset. -/
theorem patch_task_three_way_witness :
    ∃ b' t', patch_task tagsBoard "task-1"
        { description := .setTo " d ", tags := .clear } = ⟨true, some b', none⟩ ∧
      getTask? b' "task-1" = some t' ∧ t'.description = some (pyStrip " d ") ∧ t'.tags = none := by
  obtain ⟨b', t', h1, h2, -, hd, -, ht, -⟩ :=
    patch_task_three_way tagsBoard "task-1"
      { description := .setTo " d ", tags := .clear } ⟨tagsTask, tagsCol, 0⟩ (by decide) rfl
  exact ⟨b', t', h1, h2, hd, ht⟩

/-! ## `set_subtasks_completed` (C8) -/

/-- Counterexample to C8 as stated: `task-1` of the example board exists
but has no subtasks; with an empty list of requested subtask ids every
requested id vacuously "exists under the parent task", yet the call fails
(`Task task-1 has no subtasks`) instead of succeeding with no change. -/
theorem set_subtasks_completed_no_subtasks_fails :
    (set_subtasks_completed exampleBoard "task-1" [] true).success = false ∧
      (set_subtasks_completed exampleBoard "task-1" [] true).board = none :=
  ⟨rfl, rfl⟩

/-- C8 (amended): for a parent task that exists and has a non-empty
subtask list, `set_subtasks_completed` is all-or-nothing: if any requested
subtask id does not exist under the parent, it fails with no board (so
nothing changes); if every requested id exists, it succeeds and exactly
the requested subtasks get the given completed flag, all other subtasks
and all other tasks being unchanged.  A parent task with no subtask list
fails regardless of the request (see the counterexample). -/
theorem set_subtasks_completed_spec (b : Board) (tid : String) (sids : List String)
    (c : Bool) (info : TaskInfo) (l : List Subtask)
    (hcols : (columnIds b).Nodup)
    (h : find_task_by_id b tid = some info)
    (hsub : info.task.subtasks = some l) (hl : l ≠ []) :
    ((∃ sid ∈ sids, sid ∉ l.map Subtask.id) →
      (set_subtasks_completed b tid sids c).success = false ∧
        (set_subtasks_completed b tid sids c).board = none) ∧
    ((∀ sid ∈ sids, sid ∈ l.map Subtask.id) →
      ∃ b', set_subtasks_completed b tid sids c = ⟨true, some b', none⟩ ∧
        getTask? b' tid = some { info.task with
          subtasks := some (l.map (fun st =>
            if sids.contains st.id then { st with completed := c } else st)) } ∧
        (∀ k, k ≠ tid → getTask? b' k = getTask? b k)) := by
  obtain ⟨s0, ls, rfl⟩ := List.exists_cons_of_ne_nil hl
  have htruthy : subtasksTruthy info.task = true := by
    simp [subtasksTruthy, hsub]
  have hcond : ¬((!subtasksTruthy info.task) = true) := by simp [htruthy]
  constructor
  · rintro ⟨sid, hmem, hnot⟩
    have hsome : (sids.find? (fun sid =>
        !((info.task.subtasks.getD []).map Subtask.id).contains sid)).isSome :=
      List.find?_isSome.mpr ⟨sid, hmem, by rw [hsub]; simpa using hnot⟩
    obtain ⟨bad, hbad⟩ := Option.isSome_iff_exists.mp hsome
    have hres : set_subtasks_completed b tid sids c =
        ⟨false, none, some ("Subtask " ++ bad ++ " not found")⟩ := by
      simp only [set_subtasks_completed, h]
      rw [if_neg hcond, hbad]
    exact ⟨by rw [hres], by rw [hres]⟩
  · intro hall
    have hnone : sids.find? (fun sid =>
        !((info.task.subtasks.getD []).map Subtask.id).contains sid) = none := by
      refine List.find?_eq_none.mpr (fun sid hmem => ?_)
      rw [hsub]
      have hm := hall sid hmem
      simp at hm ⊢
      tauto
    have hq : ∀ x : Task, (x.id == tid && subtasksTruthy x) = true → x.id = tid := by
      intro x hx
      have hx' : x.id = tid ∧ subtasksTruthy x = true := by simpa using hx
      exact hx'.1
    have hqt : (info.task.id == tid && subtasksTruthy info.task) = true := by
      have hid := (findTaskInColumns_some_spec tid b.columns info h).2.2.1
      simp [hid, htruthy]
    let updSt : Subtask → Subtask := fun st =>
      if sids.contains st.id then { st with completed := c } else st
    let updTask : Task → Task := fun t =>
      { t with subtasks := t.subtasks.map (List.map updSt) }
    have hspec := modifyColumns_spec tid (fun t => t.id == tid && subtasksTruthy t)
      updTask hq (fun x => rfl) b.columns info hcols h hqt
    let cols2 := modifyFirst (fun col => col.id == info.column.id)
      (fun col => { col with tasks := modifyFirst (fun t => t.id == tid && subtasksTruthy t) updTask col.tasks })
      b.columns
    have hval : updTask info.task =
        { info.task with subtasks := some ((s0 :: ls).map updSt) } := by
      rw [show updTask info.task =
        { info.task with subtasks := info.task.subtasks.map (List.map updSt) } from rfl, hsub]
      rfl
    refine ⟨{ b with columns := cols2 }, ?_, ?_, ?_⟩
    · simp only [set_subtasks_completed, h]
      rw [if_neg hcond, hnone]
      rfl
    · exact (hspec.1).trans (congrArg some hval)
    · exact fun k hk => hspec.2.2.1 k hk

/-- Witness for the amended C8: completing the single subtask of
`oneSubtaskBoard`. -/
theorem set_subtasks_completed_spec_witness :
    ∃ b', set_subtasks_completed oneSubtaskBoard "task-1" ["task-1-1"] true =
        ⟨true, some b', none⟩ ∧
      getTask? b' "task-1" =
        some { subTask with subtasks := some [⟨"task-1-1", "s", true⟩] } := by
  obtain ⟨b', h1, h2, -⟩ :=
    (set_subtasks_completed_spec oneSubtaskBoard "task-1" ["task-1-1"] true
      ⟨subTask, subCol, 0⟩ [⟨"task-1-1", "s", false⟩] (by decide) rfl rfl (by simp)).2
      (by simp)
  exact ⟨b', h1, h2⟩

/-! ## `move_tasks` step behaviour (C9) -/

/-- C9: inside the bulk `move_tasks` loop, a requested task that already
resides in the target column is recorded as a success with the board left
completely unchanged (so its position in the target column is untouched),
whereas a found task residing in another column is moved and its copy is
appended at the end of the target column's task list (the insertion index
is the target column's current length).  Column ids are assumed unique
per the data-model invariant. -/
theorem move_tasks_step_spec :
    (∀ (cur : Board) (rs : List BulkItemResult) (tc tid : String) (info : TaskInfo),
      find_task_by_id cur tid = some info → info.column.id = tc →
      moveTasksStep tc (cur, rs) tid = (cur, rs ++ [⟨tid, true, none⟩])) ∧
    (∀ (cur : Board) (rs : List BulkItemResult) (tc tid : String) (info : TaskInfo)
      (T : Column),
      (columnIds cur).Nodup →
      find_task_by_id cur tid = some info → info.column.id ≠ tc →
      find_column_by_id cur tc = some T →
      ∃ b', moveTasksStep tc (cur, rs) tid = (b', rs ++ [⟨tid, true, none⟩]) ∧
        find_column_by_id b' tc = some { T with tasks := T.tasks ++ [info.task] }) := by
  constructor
  · intro cur rs tc tid info h htc
    simp only [moveTasksStep, h]
    rw [if_pos htc]
  · intro cur rs tc tid info T hcols h hne hT
    obtain ⟨hmemc, hmemt, hidt, hAux⟩ := findTaskInColumns_some_spec tid cur.columns info h
    have hFcol : find_column_by_id cur info.column.id = some info.column :=
      findColumn_of_mem_nodup cur.columns info.column hmemc hcols
    obtain ⟨b', hmove, -, -, hto⟩ := move_task_cross_column cur tid info.column.id tc
      ((T.tasks.length : Int)) info.column T info.task info.index hne hFcol hT hAux
    refine ⟨b', ?_, ?_⟩
    · simp only [moveTasksStep, h]
      rw [if_neg hne, hT]
      simp only []
      rw [hmove]
    · rw [hto, pyInsert_of_length_le T.tasks (T.tasks.length : Int) info.task (le_refl _)]

/-- Witness for C9: moving `task-1` (which sits in `todo`) towards `done`
appends it to `done`, while the skip branch is exercised by the
already-in-target conjunct on the resulting singleton call. -/
theorem move_tasks_step_spec_witness :
    (∃ b', moveTasksStep "done" (exampleBoard, []) "task-1" =
        (b', [⟨"task-1", true, none⟩]) ∧
      find_column_by_id b' "done" =
        some { exampleDone with tasks := exampleDone.tasks ++ [exampleTask "task-1"] }) ∧
    moveTasksStep "todo" (exampleBoard, []) "task-1" =
      (exampleBoard, [⟨"task-1", true, none⟩]) := by
  constructor
  · exact move_tasks_step_spec.2 exampleBoard [] "done" "task-1"
      ⟨exampleTask "task-1", exampleTodo, 0⟩ exampleDone (by decide) rfl (by decide) rfl
  · exact move_tasks_step_spec.1 exampleBoard [] "todo" "task-1"
      ⟨exampleTask "task-1", exampleTodo, 0⟩ rfl rfl

/-! ## Bulk operations with one invalid id (C3) -/

theorem perm_insertAtNat (l : List α) (n : Nat) (x : α) :
    (insertAtNat l n x).Perm (x :: l) := by
  induction l generalizing n with
  | nil => cases n <;> simp [insertAtNat]
  | cons y ys ih =>
    cases n with
    | zero => simp [insertAtNat]
    | succ m =>
      rw [insertAtNat]
      exact (List.Perm.cons y (ih m)).trans (List.Perm.swap x y ys)

theorem map_id_filter_ne (l : List Task) (tid : String) :
    (l.filter (fun t => t.id != tid)).map Task.id =
      (l.map Task.id).filter (fun x => x != tid) := by
  induction l with
  | nil => rfl
  | cons t ts ih =>
    by_cases h : (t.id != tid) = true
    · simp [List.filter_cons, h, ih]
    · simp [List.filter_cons, h, ih]

theorem filter_ne_of_not_mem (l : List String) (x : String) (h : x ∉ l) :
    l.filter (fun k => k != x) = l := by
  rw [List.filter_eq_self]
  intro a ha
  simp only [bne_iff_ne, ne_eq, decide_eq_true_eq]
  intro he
  exact h (he ▸ ha)

theorem modifyFirst_append_cons (p : α → Bool) (f : α → α) (l1 : List α) (x : α)
    (l2 : List α) (h1 : ∀ a ∈ l1, p a = false) (hx : p x = true) :
    modifyFirst p f (l1 ++ x :: l2) = l1 ++ f x :: l2 := by
  induction l1 with
  | nil => simp [modifyFirst, hx]
  | cons y ys ih =>
    have hy : p y = false := h1 y (by simp)
    rw [List.cons_append, modifyFirst, hy]
    simp only [Bool.false_eq_true, if_false]
    rw [ih (fun a ha => h1 a (by simp [ha]))]
    rfl

theorem nodup_middle_not_mem (u1 : List String) (x : String) (u2 : List String)
    (h : (u1 ++ x :: u2).Nodup) : x ∉ u1 ∧ x ∉ u2 := by
  rcases List.nodup_append.1 h with ⟨_, hc2, hdj⟩
  rw [List.nodup_cons] at hc2
  exact ⟨fun hmem => hdj hmem (by simp), hc2.1⟩

theorem modifyFirst_decomp_col (cols : List Column) (cid : String) (g : Column → Column)
    (hC : (cols.map Column.id).Nodup) (C : Column) (hm : C ∈ cols) (hid : C.id = cid) :
    ∃ u1 u2, cols = u1 ++ C :: u2 ∧ cid ∉ u1.map Column.id ∧ cid ∉ u2.map Column.id ∧
      modifyFirst (fun c => c.id == cid) g cols = u1 ++ g C :: u2 := by
  obtain ⟨u1, u2, rfl⟩ := List.append_of_mem hm
  rw [List.map_append, List.map_cons, hid] at hC
  obtain ⟨hn1, hn2⟩ := nodup_middle_not_mem _ cid _ hC
  refine ⟨u1, u2, rfl, hn1, hn2, ?_⟩
  refine modifyFirst_append_cons _ g u1 C u2 (fun a ha => ?_) (by simp [hid])
  simp only [beq_eq_false_iff_ne, ne_eq]
  intro he
  exact hn1 (he ▸ List.mem_map_of_mem Column.id ha)

theorem findTaskAux_find? (tid : String) (l : List Task) (t : Task) (i : Nat)
    (h : findTaskAux tid l 0 = some (t, i)) :
    l.find? (fun x => x.id == tid) = some t := by
  have H : ∀ (l : List Task) (n : Nat) (t : Task) (i : Nat),
      findTaskAux tid l n = some (t, i) → l.find? (fun x => x.id == tid) = some t := by
    intro l
    induction l with
    | nil => intro n t i h; simp [findTaskAux] at h
    | cons x xs ih =>
      intro n t i h
      by_cases hx : x.id = tid
      · rw [findTaskAux, if_pos hx] at h
        have hp := Option.some.inj h
        injection hp with h1 h2
        subst h1
        rw [List.find?_cons_of_pos _ (by simp [hx])]
      · rw [findTaskAux, if_neg hx] at h
        rw [List.find?_cons_of_neg _ (by simp [hx])]
        exact ih (n + 1) t i h
  exact H l 0 t i h

theorem delete_task_valid (b : Board) (tid : String) (info : TaskInfo)
    (hA : (activeTaskIds b).Nodup) (hC : (columnIds b).Nodup)
    (hfi : find_task_by_id b tid = some info) :
    ∃ b', delete_task b info.column.id tid = ⟨true, some b', none⟩ ∧
      activeTaskIds b' = (activeTaskIds b).filter (fun x => x != tid) ∧
      columnIds b' = columnIds b ∧ b'.archive = b.archive := by
  obtain ⟨hcm, htm, hidt, hfa⟩ := findTaskInColumns_some_spec tid b.columns info hfi
  have hfc : find_column_by_id b info.column.id = some info.column :=
    findColumn_of_mem_nodup b.columns info.column hcm hC
  have hany : info.column.tasks.any (fun t => t.id == tid) = true := by
    rw [List.any_eq_true]
    exact ⟨info.task, htm, by simp [hidt]⟩
  obtain ⟨u1, u2, hsplit, hn1, hn2, hmod⟩ := modifyFirst_decomp_col b.columns info.column.id
    (fun c => { c with tasks := c.tasks.filter (fun t => t.id != tid) }) hC info.column hcm rfl
  have hflat : activeTaskIds b = (u1.flatMap Column.tasks).map Task.id ++
      (info.column.tasks.map Task.id ++ (u2.flatMap Column.tasks).map Task.id) := by
    show (b.columns.flatMap Column.tasks).map Task.id = _
    rw [hsplit, List.flatMap_append, List.flatMap_cons]
    simp
  have htid_col : tid ∈ info.column.tasks.map Task.id :=
    hidt ▸ List.mem_map_of_mem Task.id htm
  have hA' := hA
  rw [hflat] at hA'
  rcases List.nodup_append.1 hA' with ⟨_, hcr, hdj⟩
  rcases List.nodup_append.1 hcr with ⟨_, _, hdj2⟩
  have htidU1 : tid ∉ (u1.flatMap Column.tasks).map Task.id :=
    fun hmem => hdj hmem (List.mem_append.2 (Or.inl htid_col))
  have htidU2 : tid ∉ (u2.flatMap Column.tasks).map Task.id :=
    fun hmem => hdj2 htid_col hmem
  let cols' := modifyFirst (fun c => c.id == info.column.id) (fun c => { c with tasks := c.tasks.filter (fun t => t.id != tid) }) b.columns
  refine ⟨{ b with columns := cols' }, ?_, ?_, ?_, rfl⟩
  · simp only [delete_task, hfc]
    rw [if_pos hany]
    rfl
  · show ((modifyFirst (fun c => c.id == info.column.id)
      (fun c => { c with tasks := c.tasks.filter (fun t => t.id != tid) })
      b.columns).flatMap Column.tasks).map Task.id = (activeTaskIds b).filter (fun x => x != tid)
    rw [hmod, hflat, List.flatMap_append, List.flatMap_cons, List.map_append,
      List.filter_append, List.filter_append, filter_ne_of_not_mem _ _ htidU1,
      filter_ne_of_not_mem _ _ htidU2]
    simp only [List.map_append]
    rw [map_id_filter_ne]
  · show (modifyFirst (fun c => c.id == info.column.id)
      (fun c => { c with tasks := c.tasks.filter (fun t => t.id != tid) })
      b.columns).map Column.id = b.columns.map Column.id
    rw [hmod, hsplit]
    simp

theorem archive_task_valid (b : Board) (tid : String) (info : TaskInfo)
    (hA : (activeTaskIds b).Nodup) (hC : (columnIds b).Nodup)
    (hfi : find_task_by_id b tid = some info) :
    ∃ b', archive_task b info.column.id tid = ⟨true, some b', none⟩ ∧
      activeTaskIds b' = (activeTaskIds b).filter (fun x => x != tid) ∧
      columnIds b' = columnIds b ∧
      archivedTaskIds b' = archivedTaskIds b ++ [tid] := by
  obtain ⟨hcm, htm, hidt, hfa⟩ := findTaskInColumns_some_spec tid b.columns info hfi
  have hfc : find_column_by_id b info.column.id = some info.column :=
    findColumn_of_mem_nodup b.columns info.column hcm hC
  have hfind : info.column.tasks.find? (fun t => t.id == tid) = some info.task :=
    findTaskAux_find? tid info.column.tasks info.task info.index hfa
  obtain ⟨u1, u2, hsplit, hn1, hn2, hmod⟩ := modifyFirst_decomp_col b.columns info.column.id
    (fun c => { c with tasks := c.tasks.filter (fun t => t.id != tid) }) hC info.column hcm rfl
  have hflat : activeTaskIds b = (u1.flatMap Column.tasks).map Task.id ++
      (info.column.tasks.map Task.id ++ (u2.flatMap Column.tasks).map Task.id) := by
    show (b.columns.flatMap Column.tasks).map Task.id = _
    rw [hsplit, List.flatMap_append, List.flatMap_cons]
    simp
  have htid_col : tid ∈ info.column.tasks.map Task.id :=
    hidt ▸ List.mem_map_of_mem Task.id htm
  have hA' := hA
  rw [hflat] at hA'
  rcases List.nodup_append.1 hA' with ⟨_, hcr, hdj⟩
  rcases List.nodup_append.1 hcr with ⟨_, _, hdj2⟩
  have htidU1 : tid ∉ (u1.flatMap Column.tasks).map Task.id :=
    fun hmem => hdj hmem (List.mem_append.2 (Or.inl htid_col))
  have htidU2 : tid ∉ (u2.flatMap Column.tasks).map Task.id :=
    fun hmem => hdj2 htid_col hmem
  let cols' := modifyFirst (fun c => c.id == info.column.id) (fun c => { c with tasks := c.tasks.filter (fun t => t.id != tid) }) b.columns
  refine ⟨{ b with columns := cols', archive := some ((b.archive.getD []) ++ [info.task]) }, ?_, ?_, ?_, ?_⟩
  · simp only [archive_task, hfc, hfind]
    rfl
  · show ((modifyFirst (fun c => c.id == info.column.id)
      (fun c => { c with tasks := c.tasks.filter (fun t => t.id != tid) })
      b.columns).flatMap Column.tasks).map Task.id = (activeTaskIds b).filter (fun x => x != tid)
    rw [hmod, hflat, List.flatMap_append, List.flatMap_cons, List.map_append,
      List.filter_append, List.filter_append, filter_ne_of_not_mem _ _ htidU1,
      filter_ne_of_not_mem _ _ htidU2]
    simp only [List.map_append]
    rw [map_id_filter_ne]
  · show (modifyFirst (fun c => c.id == info.column.id)
      (fun c => { c with tasks := c.tasks.filter (fun t => t.id != tid) })
      b.columns).map Column.id = b.columns.map Column.id
    rw [hmod, hsplit]
    simp
  · show ((b.archive.getD []) ++ [info.task]).map Task.id = archivedTaskIds b ++ [tid]
    rw [List.map_append, List.map_cons, List.map_nil, hidt]
    rfl

theorem columnIdOf_unique (b : Board) (k : String) (C : Column)
    (hA : (activeTaskIds b).Nodup) (hmem : C ∈ b.columns) (hk : k ∈ C.tasks.map Task.id) :
    columnIdOf? b k = some C.id := by
  suffices H : ∀ cols : List Column, ((cols.flatMap Column.tasks).map Task.id).Nodup →
      C ∈ cols → (findTaskInColumns k cols).map (fun info => info.column.id) = some C.id by
    exact H b.columns hA hmem
  intro cols
  induction cols with
  | nil =>
    intro _ hm
    simp at hm
  | cons c cs ih =>
    intro hnd hm
    rw [List.flatMap_cons, List.map_append] at hnd
    rcases List.nodup_append.1 hnd with ⟨h1, h2, hdj⟩
    rw [findTaskInColumns]
    cases hf : findTaskAux k c.tasks 0 with
    | none =>
      have hkc : k ∉ c.tasks.map Task.id := (findTaskAux_eq_none_iff k c.tasks 0).1 hf
      rcases List.mem_cons.1 hm with rfl | hmcs
      · exact absurd hk hkc
      · exact ih h2 hmcs
    | some pr =>
      obtain ⟨t, i⟩ := pr
      obtain ⟨htm', hid', _⟩ := findTaskAux_some_spec k c.tasks t i hf
      have hkc : k ∈ c.tasks.map Task.id := hid' ▸ List.mem_map_of_mem Task.id htm'
      rcases List.mem_cons.1 hm with rfl | hmcs
      · rfl
      · have hkcs : k ∈ (cs.flatMap Column.tasks).map Task.id := by
          rcases List.mem_map.1 hk with ⟨t0, ht0, hte⟩
          exact List.mem_map.2 ⟨t0, List.mem_flatMap.2 ⟨C, hmcs, ht0⟩, hte⟩
        exact absurd hkcs (hdj hkc)

theorem moveTransform_mem_iff (tid fc tc : String) (idx : Nat) (i : Int) (t : Task)
    (hne : fc ≠ tc) (htid : t.id = tid) (c : Column) (k : String) (hk : k ≠ tid) :
    k ∈ (moveTaskTransform tid fc tc idx i t c).tasks.map Task.id ↔
      k ∈ c.tasks.map Task.id := by
  unfold moveTaskTransform
  split
  · next h => exact absurd (h.1.symm.trans h.2) hne
  · split
    · constructor
      · intro hm
        rcases List.mem_map.1 hm with ⟨t0, ht0, hte⟩
        exact hte ▸ List.mem_map_of_mem _ (List.mem_of_mem_filter ht0)
      · intro hm
        rcases List.mem_map.1 hm with ⟨t0, ht0, hte⟩
        refine hte ▸ List.mem_map_of_mem _ (List.mem_filter.2 ⟨ht0, ?_⟩)
        have : t0.id ≠ tid := hte ▸ hk
        simp [this]
    · split
      · show k ∈ (pyInsert c.tasks i (deep_copy_task t)).map Task.id ↔ _
        unfold pyInsert
        rw [map_insertAtNat]
        rw [mem_insertAtNat]
        constructor
        · rintro (h' | h')
          · exact absurd (h' ▸ htid) hk
          · exact h'
        · exact Or.inr
      · exact Iff.rfl

theorem nodup_two_middle (U1 : List String) (x : String) (V1 : List String) (y : String)
    (V2 : List String) (h : (U1 ++ x :: (V1 ++ y :: V2)).Nodup) :
    x ∉ U1 ∧ x ∉ V1 ∧ x ∉ V2 ∧ y ∉ U1 ∧ y ∉ V1 ∧ y ∉ V2 ∧ x ≠ y := by
  rcases List.nodup_append.1 h with ⟨_, hc, hdj1⟩
  rw [List.nodup_cons] at hc
  obtain ⟨hx, hrest⟩ := hc
  rcases List.nodup_append.1 hrest with ⟨_, hc2, hdj2⟩
  rw [List.nodup_cons] at hc2
  obtain ⟨hy, _⟩ := hc2
  refine ⟨fun hm => hdj1 hm (by simp), ?_, ?_, ?_, ?_, hy, ?_⟩
  · intro hm
    exact hx (List.mem_append.2 (Or.inl hm))
  · intro hm
    exact hx (List.mem_append.2 (Or.inr (by simp [hm])))
  · intro hm
    exact hdj1 hm (by simp)
  · intro hm
    exact hdj2 hm (by simp)
  · intro he
    exact hx (List.mem_append.2 (Or.inr (by simp [he])))

theorem pyInsert_eq (l : List α) (i : Int) (x : α) :
    pyInsert l i x =
      insertAtNat l (if i < 0 then ((l.length : Int) + i).toNat else i.toNat) x := rfl

theorem count_perm_filter_insert (W1 Fi W2 Ti W3 : List String) (tid : String) (j : Nat)
    (h1 : Fi.count tid = 1) :
    (W1 ++ (Fi.filter (fun x => x != tid) ++ (W2 ++ (insertAtNat Ti j tid ++ W3)))).Perm
      (W1 ++ (Fi ++ (W2 ++ (Ti ++ W3)))) := by
  rw [List.perm_iff_count]
  intro a
  have hins : (insertAtNat Ti j tid).count a = (tid :: Ti).count a :=
    (perm_insertAtNat Ti j tid).count_eq a
  by_cases ha : a = tid
  · subst ha
    have hz : (Fi.filter (fun x => x != a)).count a = 0 := by
      rw [List.count_eq_zero]
      intro hm
      have hpred := List.of_mem_filter hm
      simp at hpred
    simp only [List.count_append, hz, hins, List.count_cons]
    rw [if_pos (by simp), h1]
    omega
  · have hfil : (Fi.filter (fun x => x != tid)).count a = Fi.count a :=
      List.count_filter (by simp [ha])
    simp only [List.count_append, hfil, hins, List.count_cons]
    rw [if_neg (by simp [Ne.symm ha])]
    omega

theorem count_perm_insert_filter (W1 Ti W2 Fi W3 : List String) (tid : String) (j : Nat)
    (h1 : Fi.count tid = 1) :
    (W1 ++ (insertAtNat Ti j tid ++ (W2 ++ (Fi.filter (fun x => x != tid) ++ W3)))).Perm
      (W1 ++ (Ti ++ (W2 ++ (Fi ++ W3)))) := by
  rw [List.perm_iff_count]
  intro a
  have hins : (insertAtNat Ti j tid).count a = (tid :: Ti).count a :=
    (perm_insertAtNat Ti j tid).count_eq a
  by_cases ha : a = tid
  · subst ha
    have hz : (Fi.filter (fun x => x != a)).count a = 0 := by
      rw [List.count_eq_zero]
      intro hm
      have hpred := List.of_mem_filter hm
      simp at hpred
    simp only [List.count_append, hz, hins, List.count_cons]
    rw [if_pos (by simp), h1]
    omega
  · have hfil : (Fi.filter (fun x => x != tid)).count a = Fi.count a :=
      List.count_filter (by simp [ha])
    simp only [List.count_append, hfil, hins, List.count_cons]
    rw [if_neg (by simp [Ne.symm ha])]
    omega

theorem active_perm_move (cols : List Column) (tid fc tc : String) (idx : Nat) (i : Int)
    (t : Task)
    (hC : (cols.map Column.id).Nodup)
    (hA : ((cols.flatMap Column.tasks).map Task.id).Nodup)
    (hne : fc ≠ tc) (htid : t.id = tid)
    (F : Column) (hFmem : F ∈ cols) (hFid : F.id = fc) (htmem : t ∈ F.tasks)
    (T : Column) (hTmem : T ∈ cols) (hTid : T.id = tc) :
    (((cols.map (moveTaskTransform tid fc tc idx i t)).flatMap Column.tasks).map Task.id).Perm
      ((cols.flatMap Column.tasks).map Task.id) := by
  have hTF : T ≠ F := fun he => hne (hFid ▸ he ▸ hTid)
  obtain ⟨u1, u2, rfl⟩ := List.append_of_mem hFmem
  rcases List.mem_append.1 hTmem with hT1 | hT2
  · -- the target column comes before the source column
    obtain ⟨w1, w2, rfl⟩ := List.append_of_mem hT1
    have hshape : (w1 ++ T :: w2) ++ F :: u2 = w1 ++ T :: (w2 ++ F :: u2) := by simp
    rw [hshape] at hC hA ⊢
    rw [List.map_append, List.map_cons, List.map_append, List.map_cons, hFid, hTid] at hC
    obtain ⟨_, _, _, hfcW1, hfcW2, _, htcfc⟩ := nodup_two_middle _ tc _ fc _ hC
    have hw1 : w1.map (moveTaskTransform tid fc tc idx i t) = w1 := by
      conv_rhs => rw [← List.map_id w1]
      refine List.map_congr_left (fun c hc => ?_)
      exact moveTaskTransform_at_other tid fc tc idx i t c
        (fun he => hfcW1 (he ▸ List.mem_map_of_mem Column.id hc))
        (fun he => (nodup_two_middle _ tc _ fc _ hC).1 (he ▸ List.mem_map_of_mem Column.id hc))
    have hw2 : w2.map (moveTaskTransform tid fc tc idx i t) = w2 := by
      conv_rhs => rw [← List.map_id w2]
      refine List.map_congr_left (fun c hc => ?_)
      exact moveTaskTransform_at_other tid fc tc idx i t c
        (fun he => hfcW2 (he ▸ List.mem_map_of_mem Column.id hc))
        (fun he => (nodup_two_middle _ tc _ fc _ hC).2.1 (he ▸ List.mem_map_of_mem Column.id hc))
    have hu2 : u2.map (moveTaskTransform tid fc tc idx i t) = u2 := by
      conv_rhs => rw [← List.map_id u2]
      refine List.map_congr_left (fun c hc => ?_)
      exact moveTaskTransform_at_other tid fc tc idx i t c
        (fun he => (nodup_two_middle _ tc _ fc _ hC).2.2.2.2.2.1
          (he ▸ List.mem_map_of_mem Column.id hc))
        (fun he => (nodup_two_middle _ tc _ fc _ hC).2.2.1
          (he ▸ List.mem_map_of_mem Column.id hc))
    rw [List.map_append, List.map_cons, List.map_append, List.map_cons, hw1, hw2, hu2,
      moveTaskTransform_at_from tid fc tc idx i t hne F hFid,
      moveTaskTransform_at_to tid fc tc idx i t hne T hTid]
    simp only [List.flatMap_append, List.flatMap_cons, List.map_append]
    simp only [List.flatMap_append, List.flatMap_cons, List.map_append] at hA
    rcases List.nodup_append.1 hA with ⟨_, hrest, _⟩
    rcases List.nodup_append.1 hrest with ⟨_, hrest2, _⟩
    rcases List.nodup_append.1 hrest2 with ⟨_, hrest3, _⟩
    rcases List.nodup_append.1 hrest3 with ⟨hFiN, _, _⟩
    have hfi1 : (F.tasks.map Task.id).count tid = 1 :=
      List.count_eq_one_of_mem hFiN (htid ▸ List.mem_map_of_mem Task.id htmem)
    rw [map_id_filter_ne F.tasks tid, pyInsert_eq, map_insertAtNat, htid]
    exact count_perm_insert_filter _ _ _ _ _ tid _ hfi1
  · rcases List.mem_cons.1 hT2 with he | hT3
    · exact absurd he hTF
    · -- the source column comes before the target column
      obtain ⟨w1, w2, rfl⟩ := List.append_of_mem hT3
      rw [List.map_append, List.map_cons, List.map_append, List.map_cons, hFid, hTid] at hC
      obtain ⟨_, _, _, htcU1, htcW1, _, hfctc⟩ := nodup_two_middle _ fc _ tc _ hC
      have hu1 : u1.map (moveTaskTransform tid fc tc idx i t) = u1 := by
        conv_rhs => rw [← List.map_id u1]
        refine List.map_congr_left (fun c hc => ?_)
        exact moveTaskTransform_at_other tid fc tc idx i t c
          (fun he => (nodup_two_middle _ fc _ tc _ hC).1
            (he ▸ List.mem_map_of_mem Column.id hc))
          (fun he => htcU1 (he ▸ List.mem_map_of_mem Column.id hc))
      have hw1 : w1.map (moveTaskTransform tid fc tc idx i t) = w1 := by
        conv_rhs => rw [← List.map_id w1]
        refine List.map_congr_left (fun c hc => ?_)
        exact moveTaskTransform_at_other tid fc tc idx i t c
          (fun he => (nodup_two_middle _ fc _ tc _ hC).2.1
            (he ▸ List.mem_map_of_mem Column.id hc))
          (fun he => htcW1 (he ▸ List.mem_map_of_mem Column.id hc))
      have hw2 : w2.map (moveTaskTransform tid fc tc idx i t) = w2 := by
        conv_rhs => rw [← List.map_id w2]
        refine List.map_congr_left (fun c hc => ?_)
        exact moveTaskTransform_at_other tid fc tc idx i t c
          (fun he => (nodup_two_middle _ fc _ tc _ hC).2.2.1
            (he ▸ List.mem_map_of_mem Column.id hc))
          (fun he => (nodup_two_middle _ fc _ tc _ hC).2.2.2.2.2.1
            (he ▸ List.mem_map_of_mem Column.id hc))
      rw [List.map_append, List.map_cons, List.map_append, List.map_cons, hu1, hw1, hw2,
        moveTaskTransform_at_from tid fc tc idx i t hne F hFid,
        moveTaskTransform_at_to tid fc tc idx i t hne T hTid]
      simp only [List.flatMap_append, List.flatMap_cons, List.map_append]
      simp only [List.flatMap_append, List.flatMap_cons, List.map_append] at hA
      rcases List.nodup_append.1 hA with ⟨_, hrest, _⟩
      rcases List.nodup_append.1 hrest with ⟨hFiN, _, _⟩
      have hfi1 : (F.tasks.map Task.id).count tid = 1 :=
        List.count_eq_one_of_mem hFiN (htid ▸ List.mem_map_of_mem Task.id htmem)
      rw [map_id_filter_ne F.tasks tid, pyInsert_eq, map_insertAtNat, htid]
      exact count_perm_filter_insert _ _ _ _ _ tid _ hfi1

theorem moveTasksStep_found (tc : String) (cur : Board) (rs : List BulkItemResult)
    (i : String) (info : TaskInfo)
    (hA : (activeTaskIds cur).Nodup) (hC : (columnIds cur).Nodup)
    (hfi : find_task_by_id cur i = some info)
    (htc : tc ∈ columnIds cur) :
    ∃ cur', moveTasksStep tc (cur, rs) i = (cur', rs ++ [⟨i, true, none⟩]) ∧
      columnIds cur' = columnIds cur ∧
      (activeTaskIds cur').Perm (activeTaskIds cur) ∧
      columnIdOf? cur' i = some tc ∧
      (∀ k, k ≠ i → columnIdOf? cur' k = columnIdOf? cur k) := by
  obtain ⟨hcm, htm, hidt, hfa⟩ := findTaskInColumns_some_spec i cur.columns info hfi
  by_cases hskip : info.column.id = tc
  · refine ⟨cur, ?_, rfl, List.Perm.refl _, ?_, fun k _ => rfl⟩
    · simp only [moveTasksStep, hfi]
      rw [if_pos hskip]
    · show (find_task_by_id cur i).map (fun x => x.column.id) = some tc
      rw [hfi, Option.map_some', hskip]
  · have hTex : ∃ T, find_column_by_id cur tc = some T ∧ T.id = tc ∧ T ∈ cur.columns := by
      cases hfc : find_column_by_id cur tc with
      | none => exact absurd htc ((findColumn_eq_none_iff tc cur.columns).1 hfc)
      | some T =>
        exact ⟨T, rfl, (findColumn_some tc cur.columns T hfc).2,
          (findColumn_some tc cur.columns T hfc).1⟩
    obtain ⟨T, hfcT, hTid, hTmem⟩ := hTex
    have hF : find_column_by_id cur info.column.id = some info.column :=
      findColumn_of_mem_nodup cur.columns info.column hcm hC
    obtain ⟨b2, hmv, hb2eq, _, _⟩ := move_task_cross_column cur i info.column.id tc
      (T.tasks.length : Int) info.column T info.task info.index hskip hF hfcT hfa
    have hperm : (activeTaskIds b2).Perm (activeTaskIds cur) := by
      rw [hb2eq]
      exact active_perm_move cur.columns i info.column.id tc info.index
        (T.tasks.length : Int) info.task hC hA hskip hidt info.column hcm rfl htm T hTmem hTid
    have hA2 : (activeTaskIds b2).Nodup := hperm.nodup_iff.2 hA
    refine ⟨b2, ?_, ?_, hperm, ?_, ?_⟩
    · simp only [moveTasksStep, hfi]
      rw [if_neg hskip]
      rw [hfcT, hmv]
    · rw [hb2eq]
      show (cur.columns.map (moveTaskTransform i info.column.id tc info.index
        (T.tasks.length : Int) info.task)).map Column.id = cur.columns.map Column.id
      rw [List.map_map]
      exact List.map_congr_left (fun c _ =>
        moveTaskTransform_id i info.column.id tc info.index (T.tasks.length : Int) info.task c)
    · have hTmem2 : moveTaskTransform i info.column.id tc info.index
          (T.tasks.length : Int) info.task T ∈ b2.columns := by
        rw [hb2eq]
        exact List.mem_map_of_mem _ hTmem
      have hkT : i ∈ (moveTaskTransform i info.column.id tc info.index
          (T.tasks.length : Int) info.task T).tasks.map Task.id := by
        rw [moveTaskTransform_at_to i info.column.id tc info.index
          (T.tasks.length : Int) info.task hskip T hTid, pyInsert_eq, map_insertAtNat]
        exact (mem_insertAtNat _ _ _ _).2 (Or.inl hidt.symm)
      have := columnIdOf_unique b2 i _ hA2 hTmem2 hkT
      rw [this, moveTaskTransform_id, hTid]
    · intro k hk
      by_cases hkin : k ∈ activeTaskIds cur
      · have hks : (find_task_by_id cur k).isSome := (find_task_isSome_iff cur k).2 hkin
        obtain ⟨info2, hfi2⟩ := Option.isSome_iff_exists.mp hks
        obtain ⟨hcm2, htm2, hidt2, _⟩ := findTaskInColumns_some_spec k cur.columns info2 hfi2
        have hmemT2 : moveTaskTransform i info.column.id tc info.index
            (T.tasks.length : Int) info.task info2.column ∈ b2.columns := by
          rw [hb2eq]
          exact List.mem_map_of_mem _ hcm2
        have hkmem : k ∈ (moveTaskTransform i info.column.id tc info.index
            (T.tasks.length : Int) info.task info2.column).tasks.map Task.id :=
          (moveTransform_mem_iff i info.column.id tc info.index (T.tasks.length : Int)
            info.task hskip hidt info2.column k hk).2
            (hidt2 ▸ List.mem_map_of_mem Task.id htm2)
        have h1 := columnIdOf_unique b2 k _ hA2 hmemT2 hkmem
        rw [h1, moveTaskTransform_id]
        show some info2.column.id = (find_task_by_id cur k).map (fun x => x.column.id)
        rw [hfi2, Option.map_some']
      · have h1 : find_task_by_id cur k = none :=
          (findTaskInColumns_eq_none_iff k cur.columns).2 hkin
        have h2 : find_task_by_id b2 k = none := by
          refine (findTaskInColumns_eq_none_iff k b2.columns).2 ?_
          intro hmem
          exact hkin (hperm.mem_iff.1 hmem)
        show (find_task_by_id b2 k).map (fun x => x.column.id) =
          (find_task_by_id cur k).map (fun x => x.column.id)
        rw [h1, h2]

theorem moveTasksStep_invalid (tc : String) (cur : Board) (rs : List BulkItemResult)
    (i : String) (h : i ∉ activeTaskIds cur) :
    moveTasksStep tc (cur, rs) i =
      (cur, rs ++ [⟨i, false, some ("Task " ++ i ++ " not found")⟩]) := by
  have hf : find_task_by_id cur i = none := (findTaskInColumns_eq_none_iff i cur.columns).2 h
  simp only [moveTasksStep, hf]

theorem patchTasksStep_invalid (p : TaskPatch) (cur : Board) (rs : List BulkItemResult)
    (i : String) (h : i ∉ activeTaskIds cur) :
    patchTasksStep p (cur, rs) i =
      (cur, rs ++ [⟨i, false, some ("Task " ++ i ++ " not found")⟩]) := by
  have hf : find_task_by_id cur i = none := (findTaskInColumns_eq_none_iff i cur.columns).2 h
  have hp : patch_task cur i p = ⟨false, none, some ("Task " ++ i ++ " not found")⟩ := by
    simp only [patch_task, hf]
  simp only [patchTasksStep, hp]

theorem deleteTasksStep_invalid (cur : Board) (rs : List BulkItemResult)
    (i : String) (h : i ∉ activeTaskIds cur) :
    deleteTasksStep (cur, rs) i =
      (cur, rs ++ [⟨i, false, some ("Task " ++ i ++ " not found")⟩]) := by
  have hf : find_task_by_id cur i = none := (findTaskInColumns_eq_none_iff i cur.columns).2 h
  simp only [deleteTasksStep, hf]

theorem archiveTasksStep_invalid (cur : Board) (rs : List BulkItemResult)
    (i : String) (h : i ∉ activeTaskIds cur) :
    archiveTasksStep (cur, rs) i =
      (cur, rs ++ [⟨i, false, some ("Task " ++ i ++ " not found")⟩]) := by
  have hf : find_task_by_id cur i = none := (findTaskInColumns_eq_none_iff i cur.columns).2 h
  simp only [archiveTasksStep, hf]

theorem patchTasksStep_found (p : TaskPatch) (cur : Board) (rs : List BulkItemResult)
    (i : String) (info : TaskInfo)
    (hC : (columnIds cur).Nodup) (hfi : find_task_by_id cur i = some info) :
    ∃ cur', patchTasksStep p (cur, rs) i = (cur', rs ++ [⟨i, true, none⟩]) ∧
      getTask? cur' i = some (applyPatchToTask p info.task) ∧
      (∀ k, k ≠ i → getTask? cur' k = getTask? cur k) ∧
      activeTaskIds cur' = activeTaskIds cur ∧ columnIds cur' = columnIds cur := by
  obtain ⟨b', hpe, hg, ho, ha, hc⟩ := patch_task_found cur i p info hC hfi
  refine ⟨b', ?_, hg, ho, ha, hc⟩
  simp only [patchTasksStep, hpe]

theorem deleteTasksStep_found (cur : Board) (rs : List BulkItemResult) (i : String)
    (info : TaskInfo) (hA : (activeTaskIds cur).Nodup) (hC : (columnIds cur).Nodup)
    (hfi : find_task_by_id cur i = some info) :
    ∃ cur', deleteTasksStep (cur, rs) i = (cur', rs ++ [⟨i, true, none⟩]) ∧
      activeTaskIds cur' = (activeTaskIds cur).filter (fun x => x != i) ∧
      columnIds cur' = columnIds cur ∧ cur'.archive = cur.archive := by
  obtain ⟨b', hde, hact, hcol, harch⟩ := delete_task_valid cur i info hA hC hfi
  refine ⟨b', ?_, hact, hcol, harch⟩
  simp only [deleteTasksStep, hfi, hde]

theorem archiveTasksStep_found (cur : Board) (rs : List BulkItemResult) (i : String)
    (info : TaskInfo) (hA : (activeTaskIds cur).Nodup) (hC : (columnIds cur).Nodup)
    (hfi : find_task_by_id cur i = some info) :
    ∃ cur', archiveTasksStep (cur, rs) i = (cur', rs ++ [⟨i, true, none⟩]) ∧
      activeTaskIds cur' = (activeTaskIds cur).filter (fun x => x != i) ∧
      columnIds cur' = columnIds cur ∧
      archivedTaskIds cur' = archivedTaskIds cur ++ [i] := by
  obtain ⟨b', hae, hact, hcol, harch⟩ := archive_task_valid cur i info hA hC hfi
  refine ⟨b', ?_, hact, hcol, harch⟩
  simp only [archiveTasksStep, hfi, hae]

theorem patch_fold_valid (p : TaskPatch) (ids : List String) :
    ∀ (cur : Board) (rs : List BulkItemResult),
      (activeTaskIds cur).Nodup → (columnIds cur).Nodup → ids.Nodup →
      (∀ i ∈ ids, i ∈ activeTaskIds cur) →
      ∃ cur', ids.foldl (patchTasksStep p) (cur, rs) =
          (cur', rs ++ ids.map (fun i => ⟨i, true, none⟩)) ∧
        activeTaskIds cur' = activeTaskIds cur ∧
        columnIds cur' = columnIds cur ∧
        (∀ k, k ∉ ids → getTask? cur' k = getTask? cur k) ∧
        (∀ i ∈ ids, getTask? cur' i = (getTask? cur i).map (applyPatchToTask p)) := by
  induction ids with
  | nil =>
    intro cur rs _ _ _ _
    exact ⟨cur, by simp, rfl, rfl, fun _ _ => rfl, by simp⟩
  | cons x xs ih =>
    intro cur rs hA hC hnd hval
    have hxmem : x ∈ activeTaskIds cur := hval x (by simp)
    obtain ⟨info, hfi⟩ := Option.isSome_iff_exists.mp ((find_task_isSome_iff cur x).2 hxmem)
    obtain ⟨cur1, hstep, hgx, hother, hact1, hcol1⟩ := patchTasksStep_found p cur rs x info hC hfi
    rw [List.nodup_cons] at hnd
    have hval1 : ∀ i ∈ xs, i ∈ activeTaskIds cur1 := by
      intro i hi
      rw [hact1]
      exact hval i (by simp [hi])
    obtain ⟨cur2, hfold, hact2, hcol2, hother2, hpatched⟩ :=
      ih cur1 (rs ++ [⟨x, true, none⟩]) (by rw [hact1]; exact hA) (by rw [hcol1]; exact hC)
        hnd.2 hval1
    refine ⟨cur2, ?_, hact2.trans hact1, hcol2.trans hcol1, ?_, ?_⟩
    · rw [List.foldl_cons, hstep, hfold]
      simp
    · intro k hk
      rw [List.mem_cons] at hk
      push_neg at hk
      rw [hother2 k hk.2, hother k hk.1]
    · intro i hi
      rcases List.mem_cons.1 hi with rfl | hixs
      · rw [hother2 i hnd.1, hgx]
        show some _ = ((find_task_by_id cur i).map TaskInfo.task).map _
        rw [hfi]
        rfl
      · rw [hpatched i hixs, hother i (fun he => hnd.1 (he ▸ hixs))]

theorem delete_fold_valid (ids : List String) :
    ∀ (cur : Board) (rs : List BulkItemResult),
      (activeTaskIds cur).Nodup → (columnIds cur).Nodup → ids.Nodup →
      (∀ i ∈ ids, i ∈ activeTaskIds cur) →
      ∃ cur', ids.foldl deleteTasksStep (cur, rs) =
          (cur', rs ++ ids.map (fun i => ⟨i, true, none⟩)) ∧
        activeTaskIds cur' = (activeTaskIds cur).filter (fun x => !(ids.contains x)) ∧
        columnIds cur' = columnIds cur ∧ cur'.archive = cur.archive := by
  induction ids with
  | nil =>
    intro cur rs _ _ _ _
    refine ⟨cur, by simp, ?_, rfl, rfl⟩
    simp
  | cons x xs ih =>
    intro cur rs hA hC hnd hval
    have hxmem : x ∈ activeTaskIds cur := hval x (by simp)
    obtain ⟨info, hfi⟩ := Option.isSome_iff_exists.mp ((find_task_isSome_iff cur x).2 hxmem)
    obtain ⟨cur1, hstep, hact1, hcol1, harch1⟩ := deleteTasksStep_found cur rs x info hA hC hfi
    rw [List.nodup_cons] at hnd
    have hA1 : (activeTaskIds cur1).Nodup := by
      rw [hact1]
      exact hA.filter _
    have hval1 : ∀ i ∈ xs, i ∈ activeTaskIds cur1 := by
      intro i hi
      rw [hact1, List.mem_filter]
      refine ⟨hval i (by simp [hi]), ?_⟩
      have hne : i ≠ x := fun he => hnd.1 (he ▸ hi)
      simp [hne]
    obtain ⟨cur2, hfold, hact2, hcol2, harch2⟩ :=
      ih cur1 (rs ++ [⟨x, true, none⟩]) hA1 (by rw [hcol1]; exact hC) hnd.2 hval1
    refine ⟨cur2, ?_, ?_, hcol2.trans hcol1, harch2.trans harch1⟩
    · rw [List.foldl_cons, hstep, hfold]
      simp
    · rw [hact2, hact1, List.filter_filter]
      refine List.filter_congr (fun a _ => ?_)
      by_cases hax : a = x
      · subst hax
        simp
      · simp [hax, Ne.symm hax]

theorem archive_fold_valid (ids : List String) :
    ∀ (cur : Board) (rs : List BulkItemResult),
      (activeTaskIds cur).Nodup → (columnIds cur).Nodup → ids.Nodup →
      (∀ i ∈ ids, i ∈ activeTaskIds cur) →
      ∃ cur', ids.foldl archiveTasksStep (cur, rs) =
          (cur', rs ++ ids.map (fun i => ⟨i, true, none⟩)) ∧
        activeTaskIds cur' = (activeTaskIds cur).filter (fun x => !(ids.contains x)) ∧
        columnIds cur' = columnIds cur ∧
        archivedTaskIds cur' = archivedTaskIds cur ++ ids := by
  induction ids with
  | nil =>
    intro cur rs _ _ _ _
    refine ⟨cur, by simp, ?_, rfl, by simp⟩
    simp
  | cons x xs ih =>
    intro cur rs hA hC hnd hval
    have hxmem : x ∈ activeTaskIds cur := hval x (by simp)
    obtain ⟨info, hfi⟩ := Option.isSome_iff_exists.mp ((find_task_isSome_iff cur x).2 hxmem)
    obtain ⟨cur1, hstep, hact1, hcol1, harch1⟩ := archiveTasksStep_found cur rs x info hA hC hfi
    rw [List.nodup_cons] at hnd
    have hA1 : (activeTaskIds cur1).Nodup := by
      rw [hact1]
      exact hA.filter _
    have hval1 : ∀ i ∈ xs, i ∈ activeTaskIds cur1 := by
      intro i hi
      rw [hact1, List.mem_filter]
      refine ⟨hval i (by simp [hi]), ?_⟩
      have hne : i ≠ x := fun he => hnd.1 (he ▸ hi)
      simp [hne]
    obtain ⟨cur2, hfold, hact2, hcol2, harch2⟩ :=
      ih cur1 (rs ++ [⟨x, true, none⟩]) hA1 (by rw [hcol1]; exact hC) hnd.2 hval1
    refine ⟨cur2, ?_, ?_, hcol2.trans hcol1, ?_⟩
    · rw [List.foldl_cons, hstep, hfold]
      simp
    · rw [hact2, hact1, List.filter_filter]
      refine List.filter_congr (fun a _ => ?_)
      by_cases hax : a = x
      · subst hax
        simp
      · simp [hax, Ne.symm hax]
    · rw [harch2, harch1]
      simp

theorem move_fold_valid (tc : String) (ids : List String) :
    ∀ (cur : Board) (rs : List BulkItemResult),
      (activeTaskIds cur).Nodup → (columnIds cur).Nodup → ids.Nodup →
      (∀ i ∈ ids, i ∈ activeTaskIds cur) → tc ∈ columnIds cur →
      ∃ cur', ids.foldl (moveTasksStep tc) (cur, rs) =
          (cur', rs ++ ids.map (fun i => ⟨i, true, none⟩)) ∧
        (activeTaskIds cur').Perm (activeTaskIds cur) ∧
        columnIds cur' = columnIds cur ∧
        (∀ i ∈ ids, columnIdOf? cur' i = some tc) ∧
        (∀ k, k ∉ ids → columnIdOf? cur' k = columnIdOf? cur k) := by
  induction ids with
  | nil =>
    intro cur rs _ _ _ _ _
    exact ⟨cur, by simp, List.Perm.refl _, rfl, by simp, fun _ _ => rfl⟩
  | cons x xs ih =>
    intro cur rs hA hC hnd hval htc
    have hxmem := hval x (by simp)
    obtain ⟨info, hfi⟩ := Option.isSome_iff_exists.mp ((find_task_isSome_iff cur x).2 hxmem)
    obtain ⟨cur1, hstep, hcol1, hperm1, hcolof1, hpres1⟩ :=
      moveTasksStep_found tc cur rs x info hA hC hfi htc
    rw [List.nodup_cons] at hnd
    obtain ⟨cur2, hfold, hperm2, hcol2, hin2, hpres2⟩ :=
      ih cur1 (rs ++ [⟨x, true, none⟩]) (hperm1.nodup_iff.2 hA) (by rw [hcol1]; exact hC)
        hnd.2 (fun i hi => hperm1.mem_iff.2 (hval i (by simp [hi]))) (by rw [hcol1]; exact htc)
    refine ⟨cur2, ?_, hperm2.trans hperm1, hcol2.trans hcol1, ?_, ?_⟩
    · rw [List.foldl_cons, hstep, hfold]
      simp
    · intro i hi
      rcases List.mem_cons.1 hi with rfl | hixs
      · rw [hpres2 i hnd.1, hcolof1]
      · exact hin2 i hixs
    · intro k hk
      rw [List.mem_cons] at hk
      push_neg at hk
      rw [hpres2 k hk.2, hpres1 k hk.1]

theorem filter_ok_success (l : List String) :
    ((l.map (fun i => (⟨i, true, none⟩ : BulkItemResult))).filter (fun r => r.success)) =
      l.map (fun i => ⟨i, true, none⟩) := by
  induction l with
  | nil => rfl
  | cons x xs ih => simp [List.filter_cons, ih]

theorem filter_ok_fail (l : List String) :
    ((l.map (fun i => (⟨i, true, none⟩ : BulkItemResult))).filter (fun r => !r.success)) = [] := by
  induction l with
  | nil => rfl
  | cons x xs ih => simp [List.filter_cons, ih]

theorem results_counts (l1 l2 : List String) (bad : String) (err : Option String) :
    ((l1.map (fun i => (⟨i, true, none⟩ : BulkItemResult)) ++
        (⟨bad, false, err⟩ : BulkItemResult) ::
          l2.map (fun i => (⟨i, true, none⟩ : BulkItemResult))).filter
      (fun r => r.success)).length = l1.length + l2.length ∧
    ((l1.map (fun i => (⟨i, true, none⟩ : BulkItemResult)) ++
        (⟨bad, false, err⟩ : BulkItemResult) ::
          l2.map (fun i => (⟨i, true, none⟩ : BulkItemResult))).filter
      (fun r => !r.success)).length = 1 := by
  constructor
  · rw [List.filter_append, List.filter_cons, filter_ok_success, if_neg (by simp),
      filter_ok_success]
    simp
  · rw [List.filter_append, List.filter_cons, filter_ok_fail, if_pos (by simp),
      filter_ok_fail]
    simp

theorem mkBulkResult_success (board : Board) (R : List BulkItemResult) :
    (mkBulkResult board R).success =
      decide ((R.filter (fun r => !r.success)).length = 0) := rfl

theorem mkBulkResult_board (board : Board) (R : List BulkItemResult) :
    (mkBulkResult board R).board = some board := rfl

theorem mkBulkResult_results (board : Board) (R : List BulkItemResult) :
    (mkBulkResult board R).results = R := rfl

theorem mkBulkResult_success_count (board : Board) (R : List BulkItemResult) :
    (mkBulkResult board R).success_count = (R.filter (fun r => r.success)).length := rfl

theorem mkBulkResult_failure_count (board : Board) (R : List BulkItemResult) :
    (mkBulkResult board R).failure_count = (R.filter (fun r => !r.success)).length := rfl

theorem patch_tasks_one_invalid (b : Board) (l1 l2 : List String) (bad : String)
    (p : TaskPatch)
    (hA : (activeTaskIds b).Nodup) (hC : (columnIds b).Nodup)
    (hnd : (l1 ++ bad :: l2).Nodup)
    (hbad : bad ∉ activeTaskIds b)
    (hval : ∀ i ∈ l1 ++ l2, i ∈ activeTaskIds b) :
    (patch_tasks b (l1 ++ bad :: l2) p).success = false ∧
    (patch_tasks b (l1 ++ bad :: l2) p).success_count = l1.length + l2.length ∧
    (patch_tasks b (l1 ++ bad :: l2) p).failure_count = 1 ∧
    (patch_tasks b (l1 ++ bad :: l2) p).results =
      l1.map (fun i => ⟨i, true, none⟩) ++
        ⟨bad, false, some ("Task " ++ bad ++ " not found")⟩ ::
          l2.map (fun i => ⟨i, true, none⟩) ∧
    (patch_tasks b (l1 ++ bad :: l2) p).results.map BulkItemResult.id = l1 ++ bad :: l2 ∧
    ∃ b', (patch_tasks b (l1 ++ bad :: l2) p).board = some b' ∧
      activeTaskIds b' = activeTaskIds b ∧
      (∀ i ∈ l1 ++ l2, getTask? b' i = (getTask? b i).map (applyPatchToTask p)) := by
  rcases List.nodup_append.1 hnd with ⟨hnd1, hndc, hdisj⟩
  rw [List.nodup_cons] at hndc
  obtain ⟨hbadl2, hnd2⟩ := hndc
  obtain ⟨b1, hf1, hact1, hcol1, hoth1, hpat1⟩ :=
    patch_fold_valid p l1 b [] hA hC hnd1 (fun i hi => hval i (List.mem_append.2 (Or.inl hi)))
  have hbad1 : bad ∉ activeTaskIds b1 := by
    rw [hact1]
    exact hbad
  have hstepbad := patchTasksStep_invalid p b1
    ([] ++ l1.map (fun i => ⟨i, true, none⟩)) bad hbad1
  obtain ⟨b2, hf2, hact2, hcol2, hoth2, hpat2⟩ :=
    patch_fold_valid p l2 b1
      (([] ++ l1.map (fun i => ⟨i, true, none⟩)) ++
        [⟨bad, false, some ("Task " ++ bad ++ " not found")⟩])
      (by rw [hact1]; exact hA) (by rw [hcol1]; exact hC) hnd2
      (fun i hi => by rw [hact1]; exact hval i (List.mem_append.2 (Or.inr hi)))
  have hacc : (l1 ++ bad :: l2).foldl (patchTasksStep p) (b, []) =
      (b2, (([] ++ l1.map (fun i => ⟨i, true, none⟩)) ++
        [⟨bad, false, some ("Task " ++ bad ++ " not found")⟩]) ++
          l2.map (fun i => ⟨i, true, none⟩)) := by
    rw [List.foldl_append, List.foldl_cons, hf1, hstepbad, hf2]
  have hres : patch_tasks b (l1 ++ bad :: l2) p =
      mkBulkResult b2 ((([] ++ l1.map (fun i => ⟨i, true, none⟩)) ++
        [⟨bad, false, some ("Task " ++ bad ++ " not found")⟩]) ++
          l2.map (fun i => ⟨i, true, none⟩)) := by
    show mkBulkResult ((l1 ++ bad :: l2).foldl (patchTasksStep p) (b, [])).1
        ((l1 ++ bad :: l2).foldl (patchTasksStep p) (b, [])).2 = _
    rw [hacc]
  have hRsimp : (([] ++ l1.map (fun i => (⟨i, true, none⟩ : BulkItemResult))) ++
      [⟨bad, false, some ("Task " ++ bad ++ " not found")⟩]) ++
        l2.map (fun i => ⟨i, true, none⟩) =
      l1.map (fun i => ⟨i, true, none⟩) ++
        ⟨bad, false, some ("Task " ++ bad ++ " not found")⟩ ::
          l2.map (fun i => ⟨i, true, none⟩) := by
    simp
  obtain ⟨hsc, hfc⟩ := results_counts l1 l2 bad (some ("Task " ++ bad ++ " not found"))
  refine ⟨?_, ?_, ?_, ?_, ?_, b2, ?_, hact2.trans hact1, ?_⟩
  · rw [hres, mkBulkResult_success, hRsimp, hfc]
    rfl
  · rw [hres, mkBulkResult_success_count, hRsimp, hsc]
  · rw [hres, mkBulkResult_failure_count, hRsimp, hfc]
  · rw [hres, mkBulkResult_results, hRsimp]
  · rw [hres, mkBulkResult_results, hRsimp]
    simp [Function.comp_def]
  · rw [hres, mkBulkResult_board]
  · intro i hi
    rcases List.mem_append.1 hi with hi1 | hi2
    · have hi2' : i ∉ l2 := fun hmem => hdisj hi1 (by simp [hmem])
      rw [hoth2 i hi2', hpat1 i hi1]
    · have hi1' : i ∉ l1 := fun hmem => hdisj hmem (by simp [hi2])
      rw [hpat2 i hi2, hoth1 i hi1']

theorem delete_tasks_one_invalid (b : Board) (l1 l2 : List String) (bad : String)
    (hA : (activeTaskIds b).Nodup) (hC : (columnIds b).Nodup)
    (hnd : (l1 ++ bad :: l2).Nodup)
    (hbad : bad ∉ activeTaskIds b)
    (hval : ∀ i ∈ l1 ++ l2, i ∈ activeTaskIds b) :
    (delete_tasks b (l1 ++ bad :: l2)).success = false ∧
    (delete_tasks b (l1 ++ bad :: l2)).success_count = l1.length + l2.length ∧
    (delete_tasks b (l1 ++ bad :: l2)).failure_count = 1 ∧
    (delete_tasks b (l1 ++ bad :: l2)).results =
      l1.map (fun i => ⟨i, true, none⟩) ++
        ⟨bad, false, some ("Task " ++ bad ++ " not found")⟩ ::
          l2.map (fun i => ⟨i, true, none⟩) ∧
    (delete_tasks b (l1 ++ bad :: l2)).results.map BulkItemResult.id = l1 ++ bad :: l2 ∧
    ∃ b', (delete_tasks b (l1 ++ bad :: l2)).board = some b' ∧
      activeTaskIds b' = (activeTaskIds b).filter (fun x => !((l1 ++ l2).contains x)) := by
  rcases List.nodup_append.1 hnd with ⟨hnd1, hndc, hdisj⟩
  rw [List.nodup_cons] at hndc
  obtain ⟨hbadl2, hnd2⟩ := hndc
  obtain ⟨b1, hf1, hact1, hcol1, harch1⟩ :=
    delete_fold_valid l1 b [] hA hC hnd1 (fun i hi => hval i (List.mem_append.2 (Or.inl hi)))
  have hbad1 : bad ∉ activeTaskIds b1 := by
    rw [hact1]
    exact fun hmem => hbad (List.mem_of_mem_filter hmem)
  have hstepbad := deleteTasksStep_invalid b1
    ([] ++ l1.map (fun i => ⟨i, true, none⟩)) bad hbad1
  have hA1 : (activeTaskIds b1).Nodup := by
    rw [hact1]
    exact hA.filter _
  obtain ⟨b2, hf2, hact2, hcol2, harch2⟩ :=
    delete_fold_valid l2 b1
      (([] ++ l1.map (fun i => ⟨i, true, none⟩)) ++
        [⟨bad, false, some ("Task " ++ bad ++ " not found")⟩])
      hA1 (by rw [hcol1]; exact hC) hnd2
      (fun i hi => by
        rw [hact1, List.mem_filter]
        refine ⟨hval i (List.mem_append.2 (Or.inr hi)), ?_⟩
        have hne : i ∉ l1 := fun hmem => hdisj hmem (by simp [hi])
        simp [hne])
  have hacc : (l1 ++ bad :: l2).foldl deleteTasksStep (b, []) =
      (b2, (([] ++ l1.map (fun i => ⟨i, true, none⟩)) ++
        [⟨bad, false, some ("Task " ++ bad ++ " not found")⟩]) ++
          l2.map (fun i => ⟨i, true, none⟩)) := by
    rw [List.foldl_append, List.foldl_cons, hf1, hstepbad, hf2]
  have hres : delete_tasks b (l1 ++ bad :: l2) =
      mkBulkResult b2 ((([] ++ l1.map (fun i => ⟨i, true, none⟩)) ++
        [⟨bad, false, some ("Task " ++ bad ++ " not found")⟩]) ++
          l2.map (fun i => ⟨i, true, none⟩)) := by
    show mkBulkResult ((l1 ++ bad :: l2).foldl deleteTasksStep (b, [])).1
        ((l1 ++ bad :: l2).foldl deleteTasksStep (b, [])).2 = _
    rw [hacc]
  have hRsimp : (([] ++ l1.map (fun i => (⟨i, true, none⟩ : BulkItemResult))) ++
      [⟨bad, false, some ("Task " ++ bad ++ " not found")⟩]) ++
        l2.map (fun i => ⟨i, true, none⟩) =
      l1.map (fun i => ⟨i, true, none⟩) ++
        ⟨bad, false, some ("Task " ++ bad ++ " not found")⟩ ::
          l2.map (fun i => ⟨i, true, none⟩) := by
    simp
  obtain ⟨hsc, hfc⟩ := results_counts l1 l2 bad (some ("Task " ++ bad ++ " not found"))
  refine ⟨?_, ?_, ?_, ?_, ?_, b2, ?_, ?_⟩
  · rw [hres, mkBulkResult_success, hRsimp, hfc]
    rfl
  · rw [hres, mkBulkResult_success_count, hRsimp, hsc]
  · rw [hres, mkBulkResult_failure_count, hRsimp, hfc]
  · rw [hres, mkBulkResult_results, hRsimp]
  · rw [hres, mkBulkResult_results, hRsimp]
    simp [Function.comp_def]
  · rw [hres, mkBulkResult_board]
  · rw [hact2, hact1, List.filter_filter]
    refine List.filter_congr (fun a _ => ?_)
    cases h1 : l1.contains a <;> cases h2 : l2.contains a <;> simp_all

theorem archive_tasks_one_invalid (b : Board) (l1 l2 : List String) (bad : String)
    (hA : (activeTaskIds b).Nodup) (hC : (columnIds b).Nodup)
    (hnd : (l1 ++ bad :: l2).Nodup)
    (hbad : bad ∉ activeTaskIds b)
    (hval : ∀ i ∈ l1 ++ l2, i ∈ activeTaskIds b) :
    (archive_tasks b (l1 ++ bad :: l2)).success = false ∧
    (archive_tasks b (l1 ++ bad :: l2)).success_count = l1.length + l2.length ∧
    (archive_tasks b (l1 ++ bad :: l2)).failure_count = 1 ∧
    (archive_tasks b (l1 ++ bad :: l2)).results =
      l1.map (fun i => ⟨i, true, none⟩) ++
        ⟨bad, false, some ("Task " ++ bad ++ " not found")⟩ ::
          l2.map (fun i => ⟨i, true, none⟩) ∧
    (archive_tasks b (l1 ++ bad :: l2)).results.map BulkItemResult.id = l1 ++ bad :: l2 ∧
    ∃ b', (archive_tasks b (l1 ++ bad :: l2)).board = some b' ∧
      activeTaskIds b' = (activeTaskIds b).filter (fun x => !((l1 ++ l2).contains x)) ∧
      archivedTaskIds b' = archivedTaskIds b ++ (l1 ++ l2) := by
  rcases List.nodup_append.1 hnd with ⟨hnd1, hndc, hdisj⟩
  rw [List.nodup_cons] at hndc
  obtain ⟨hbadl2, hnd2⟩ := hndc
  obtain ⟨b1, hf1, hact1, hcol1, harch1⟩ :=
    archive_fold_valid l1 b [] hA hC hnd1 (fun i hi => hval i (List.mem_append.2 (Or.inl hi)))
  have hbad1 : bad ∉ activeTaskIds b1 := by
    rw [hact1]
    exact fun hmem => hbad (List.mem_of_mem_filter hmem)
  have hstepbad := archiveTasksStep_invalid b1
    ([] ++ l1.map (fun i => ⟨i, true, none⟩)) bad hbad1
  have hA1 : (activeTaskIds b1).Nodup := by
    rw [hact1]
    exact hA.filter _
  obtain ⟨b2, hf2, hact2, hcol2, harch2⟩ :=
    archive_fold_valid l2 b1
      (([] ++ l1.map (fun i => ⟨i, true, none⟩)) ++
        [⟨bad, false, some ("Task " ++ bad ++ " not found")⟩])
      hA1 (by rw [hcol1]; exact hC) hnd2
      (fun i hi => by
        rw [hact1, List.mem_filter]
        refine ⟨hval i (List.mem_append.2 (Or.inr hi)), ?_⟩
        have hne : i ∉ l1 := fun hmem => hdisj hmem (by simp [hi])
        simp [hne])
  have hacc : (l1 ++ bad :: l2).foldl archiveTasksStep (b, []) =
      (b2, (([] ++ l1.map (fun i => ⟨i, true, none⟩)) ++
        [⟨bad, false, some ("Task " ++ bad ++ " not found")⟩]) ++
          l2.map (fun i => ⟨i, true, none⟩)) := by
    rw [List.foldl_append, List.foldl_cons, hf1, hstepbad, hf2]
  have hres : archive_tasks b (l1 ++ bad :: l2) =
      mkBulkResult b2 ((([] ++ l1.map (fun i => ⟨i, true, none⟩)) ++
        [⟨bad, false, some ("Task " ++ bad ++ " not found")⟩]) ++
          l2.map (fun i => ⟨i, true, none⟩)) := by
    show mkBulkResult ((l1 ++ bad :: l2).foldl archiveTasksStep (b, [])).1
        ((l1 ++ bad :: l2).foldl archiveTasksStep (b, [])).2 = _
    rw [hacc]
  have hRsimp : (([] ++ l1.map (fun i => (⟨i, true, none⟩ : BulkItemResult))) ++
      [⟨bad, false, some ("Task " ++ bad ++ " not found")⟩]) ++
        l2.map (fun i => ⟨i, true, none⟩) =
      l1.map (fun i => ⟨i, true, none⟩) ++
        ⟨bad, false, some ("Task " ++ bad ++ " not found")⟩ ::
          l2.map (fun i => ⟨i, true, none⟩) := by
    simp
  obtain ⟨hsc, hfc⟩ := results_counts l1 l2 bad (some ("Task " ++ bad ++ " not found"))
  refine ⟨?_, ?_, ?_, ?_, ?_, b2, ?_, ?_, ?_⟩
  · rw [hres, mkBulkResult_success, hRsimp, hfc]
    rfl
  · rw [hres, mkBulkResult_success_count, hRsimp, hsc]
  · rw [hres, mkBulkResult_failure_count, hRsimp, hfc]
  · rw [hres, mkBulkResult_results, hRsimp]
  · rw [hres, mkBulkResult_results, hRsimp]
    simp [Function.comp_def]
  · rw [hres, mkBulkResult_board]
  · rw [hact2, hact1, List.filter_filter]
    refine List.filter_congr (fun a _ => ?_)
    cases h1 : l1.contains a <;> cases h2 : l2.contains a <;> simp_all
  · rw [harch2, harch1]
    simp

theorem move_tasks_one_invalid (b : Board) (l1 l2 : List String) (bad : String) (tc : String)
    (hA : (activeTaskIds b).Nodup) (hC : (columnIds b).Nodup)
    (hnd : (l1 ++ bad :: l2).Nodup)
    (hbad : bad ∉ activeTaskIds b)
    (hval : ∀ i ∈ l1 ++ l2, i ∈ activeTaskIds b)
    (htc : tc ∈ columnIds b) :
    (move_tasks b (l1 ++ bad :: l2) tc).success = false ∧
    (move_tasks b (l1 ++ bad :: l2) tc).success_count = l1.length + l2.length ∧
    (move_tasks b (l1 ++ bad :: l2) tc).failure_count = 1 ∧
    (move_tasks b (l1 ++ bad :: l2) tc).results =
      l1.map (fun i => ⟨i, true, none⟩) ++
        ⟨bad, false, some ("Task " ++ bad ++ " not found")⟩ ::
          l2.map (fun i => ⟨i, true, none⟩) ∧
    (move_tasks b (l1 ++ bad :: l2) tc).results.map BulkItemResult.id = l1 ++ bad :: l2 ∧
    ∃ b', (move_tasks b (l1 ++ bad :: l2) tc).board = some b' ∧
      (activeTaskIds b').Perm (activeTaskIds b) ∧
      (∀ i ∈ l1 ++ l2, columnIdOf? b' i = some tc) := by
  rcases List.nodup_append.1 hnd with ⟨hnd1, hndc, hdisj⟩
  rw [List.nodup_cons] at hndc
  obtain ⟨hbadl2, hnd2⟩ := hndc
  have hTex : ∃ T, find_column_by_id b tc = some T := by
    cases hfc : find_column_by_id b tc with
    | none => exact absurd htc ((findColumn_eq_none_iff tc b.columns).1 hfc)
    | some T => exact ⟨T, rfl⟩
  obtain ⟨T, hfcT⟩ := hTex
  obtain ⟨b1, hf1, hperm1, hcol1, hin1, hpres1⟩ :=
    move_fold_valid tc l1 b [] hA hC hnd1
      (fun i hi => hval i (List.mem_append.2 (Or.inl hi))) htc
  have hbad1 : bad ∉ activeTaskIds b1 := fun hmem => hbad (hperm1.mem_iff.1 hmem)
  have hstepbad := moveTasksStep_invalid tc b1
    ([] ++ l1.map (fun i => ⟨i, true, none⟩)) bad hbad1
  obtain ⟨b2, hf2, hperm2, hcol2, hin2, hpres2⟩ :=
    move_fold_valid tc l2 b1
      (([] ++ l1.map (fun i => ⟨i, true, none⟩)) ++
        [⟨bad, false, some ("Task " ++ bad ++ " not found")⟩])
      (hperm1.nodup_iff.2 hA) (by rw [hcol1]; exact hC) hnd2
      (fun i hi => hperm1.mem_iff.2 (hval i (List.mem_append.2 (Or.inr hi))))
      (by rw [hcol1]; exact htc)
  have hacc : (l1 ++ bad :: l2).foldl (moveTasksStep tc) (b, []) =
      (b2, (([] ++ l1.map (fun i => ⟨i, true, none⟩)) ++
        [⟨bad, false, some ("Task " ++ bad ++ " not found")⟩]) ++
          l2.map (fun i => ⟨i, true, none⟩)) := by
    rw [List.foldl_append, List.foldl_cons, hf1, hstepbad, hf2]
  have hres : move_tasks b (l1 ++ bad :: l2) tc =
      mkBulkResult b2 ((([] ++ l1.map (fun i => ⟨i, true, none⟩)) ++
        [⟨bad, false, some ("Task " ++ bad ++ " not found")⟩]) ++
          l2.map (fun i => ⟨i, true, none⟩)) := by
    simp only [move_tasks, hfcT]
    rw [hacc]
  have hRsimp : (([] ++ l1.map (fun i => (⟨i, true, none⟩ : BulkItemResult))) ++
      [⟨bad, false, some ("Task " ++ bad ++ " not found")⟩]) ++
        l2.map (fun i => ⟨i, true, none⟩) =
      l1.map (fun i => ⟨i, true, none⟩) ++
        ⟨bad, false, some ("Task " ++ bad ++ " not found")⟩ ::
          l2.map (fun i => ⟨i, true, none⟩) := by
    simp
  obtain ⟨hsc, hfc⟩ := results_counts l1 l2 bad (some ("Task " ++ bad ++ " not found"))
  refine ⟨?_, ?_, ?_, ?_, ?_, b2, ?_, hperm2.trans hperm1, ?_⟩
  · rw [hres, mkBulkResult_success, hRsimp, hfc]
    rfl
  · rw [hres, mkBulkResult_success_count, hRsimp, hsc]
  · rw [hres, mkBulkResult_failure_count, hRsimp, hfc]
  · rw [hres, mkBulkResult_results, hRsimp]
  · rw [hres, mkBulkResult_results, hRsimp]
    simp [Function.comp_def]
  · rw [hres, mkBulkResult_board]
  · intro i hi
    rcases List.mem_append.1 hi with hi1 | hi2
    · have hi2' : i ∉ l2 := fun hmem => hdisj hi1 (by simp [hmem])
      rw [hpres2 i hi2']
      exact hin1 i hi1
    · exact hin2 i hi2

/-- C3: for a request list holding exactly one invalid id (`bad`, not an
active task id; every other id valid and the whole list duplicate-free, on
a board satisfying the data-model uniqueness invariants), each bulk
operation — `patch_tasks`, `delete_tasks`, `archive_tasks`, and
`move_tasks` towards an existing target column — returns
`success = false`, `success_count = n - 1`, `failure_count = 1`, exactly
one outcome record per requested id in request order (the invalid id's
record failed, every other succeeded), and a board reflecting the `n - 1`
successful changes: patches applied to every valid id, deletions removing
exactly the valid ids, archivals moving exactly the valid ids (in request
order) to the archive, and moves placing every valid id in the target
column. -/
theorem bulk_ops_one_invalid (b : Board) (l1 l2 : List String) (bad : String)
    (p : TaskPatch) (tc : String)
    (hA : (activeTaskIds b).Nodup) (hC : (columnIds b).Nodup)
    (hnd : (l1 ++ bad :: l2).Nodup)
    (hbad : bad ∉ activeTaskIds b)
    (hval : ∀ i ∈ l1 ++ l2, i ∈ activeTaskIds b)
    (htc : tc ∈ columnIds b) :
    ((patch_tasks b (l1 ++ bad :: l2) p).success = false ∧
     (patch_tasks b (l1 ++ bad :: l2) p).success_count = l1.length + l2.length ∧
     (patch_tasks b (l1 ++ bad :: l2) p).failure_count = 1 ∧
     (patch_tasks b (l1 ++ bad :: l2) p).results =
       l1.map (fun i => ⟨i, true, none⟩) ++
         ⟨bad, false, some ("Task " ++ bad ++ " not found")⟩ ::
           l2.map (fun i => ⟨i, true, none⟩) ∧
     (patch_tasks b (l1 ++ bad :: l2) p).results.map BulkItemResult.id = l1 ++ bad :: l2 ∧
     ∃ b', (patch_tasks b (l1 ++ bad :: l2) p).board = some b' ∧
       activeTaskIds b' = activeTaskIds b ∧
       (∀ i ∈ l1 ++ l2, getTask? b' i = (getTask? b i).map (applyPatchToTask p))) ∧
    ((delete_tasks b (l1 ++ bad :: l2)).success = false ∧
     (delete_tasks b (l1 ++ bad :: l2)).success_count = l1.length + l2.length ∧
     (delete_tasks b (l1 ++ bad :: l2)).failure_count = 1 ∧
     (delete_tasks b (l1 ++ bad :: l2)).results =
       l1.map (fun i => ⟨i, true, none⟩) ++
         ⟨bad, false, some ("Task " ++ bad ++ " not found")⟩ ::
           l2.map (fun i => ⟨i, true, none⟩) ∧
     (delete_tasks b (l1 ++ bad :: l2)).results.map BulkItemResult.id = l1 ++ bad :: l2 ∧
     ∃ b', (delete_tasks b (l1 ++ bad :: l2)).board = some b' ∧
       activeTaskIds b' = (activeTaskIds b).filter (fun x => !((l1 ++ l2).contains x))) ∧
    ((archive_tasks b (l1 ++ bad :: l2)).success = false ∧
     (archive_tasks b (l1 ++ bad :: l2)).success_count = l1.length + l2.length ∧
     (archive_tasks b (l1 ++ bad :: l2)).failure_count = 1 ∧
     (archive_tasks b (l1 ++ bad :: l2)).results =
       l1.map (fun i => ⟨i, true, none⟩) ++
         ⟨bad, false, some ("Task " ++ bad ++ " not found")⟩ ::
           l2.map (fun i => ⟨i, true, none⟩) ∧
     (archive_tasks b (l1 ++ bad :: l2)).results.map BulkItemResult.id = l1 ++ bad :: l2 ∧
     ∃ b', (archive_tasks b (l1 ++ bad :: l2)).board = some b' ∧
       activeTaskIds b' = (activeTaskIds b).filter (fun x => !((l1 ++ l2).contains x)) ∧
       archivedTaskIds b' = archivedTaskIds b ++ (l1 ++ l2)) ∧
    ((move_tasks b (l1 ++ bad :: l2) tc).success = false ∧
     (move_tasks b (l1 ++ bad :: l2) tc).success_count = l1.length + l2.length ∧
     (move_tasks b (l1 ++ bad :: l2) tc).failure_count = 1 ∧
     (move_tasks b (l1 ++ bad :: l2) tc).results =
       l1.map (fun i => ⟨i, true, none⟩) ++
         ⟨bad, false, some ("Task " ++ bad ++ " not found")⟩ ::
           l2.map (fun i => ⟨i, true, none⟩) ∧
     (move_tasks b (l1 ++ bad :: l2) tc).results.map BulkItemResult.id = l1 ++ bad :: l2 ∧
     ∃ b', (move_tasks b (l1 ++ bad :: l2) tc).board = some b' ∧
       (activeTaskIds b').Perm (activeTaskIds b) ∧
       (∀ i ∈ l1 ++ l2, columnIdOf? b' i = some tc)) :=
  ⟨patch_tasks_one_invalid b l1 l2 bad p hA hC hnd hbad hval,
   delete_tasks_one_invalid b l1 l2 bad hA hC hnd hbad hval,
   archive_tasks_one_invalid b l1 l2 bad hA hC hnd hbad hval,
   move_tasks_one_invalid b l1 l2 bad tc hA hC hnd hbad hval htc⟩

/-- Witness for C3: ids `[task-1, nope, task-2]` on the example board, for
all four bulk operations. -/
theorem bulk_ops_one_invalid_witness :
    (patch_tasks exampleBoard ["task-1", "nope", "task-2"] {}).success = false ∧
    (delete_tasks exampleBoard ["task-1", "nope", "task-2"]).success_count = 2 ∧
    (archive_tasks exampleBoard ["task-1", "nope", "task-2"]).failure_count = 1 ∧
    (move_tasks exampleBoard ["task-1", "nope", "task-2"] "done").results.map
      BulkItemResult.id = ["task-1", "nope", "task-2"] := by
  have h := bulk_ops_one_invalid exampleBoard ["task-1"] ["task-2"] "nope" {} "done"
    (by decide) (by decide) (by decide) (by decide) (by decide) (by decide)
  exact ⟨h.1.1, h.2.1.2.1, h.2.2.1.2.2.1, h.2.2.2.2.2.2.2.1⟩

/-! ## C10: no operation leaves an empty subtask list -/

/-- C10: on a board where no task — active or archived — carries an empty
subtask list, every mutation-layer operation that returns a board preserves
that property; `delete_subtask`, when it removes the sole remaining subtask
of a task (the column ids being unique per the data-model invariant), sets
the task's `subtasks` field to `None` rather than `[]`; and every task that
`add_task` introduces (any task of the result board that was not a task of
the input board) carries no empty subtask list either. -/
theorem mutation_no_empty_subtasks :
    (∀ (op : MutOp) (b b' : Board), noEmptySubtasks b = true → runOp op b = some b' →
      noEmptySubtasks b' = true) ∧
    (∀ (b : Board) (tid sid : String) (info : TaskInfo) (st : Subtask),
      (columnIds b).Nodup → find_task_by_id b tid = some info →
      info.task.subtasks = some [st] → st.id = sid →
      ∃ b', (delete_subtask b tid sid).board = some b' ∧
        (getTask? b' tid).map Task.subtasks = some none) ∧
    (∀ (b : Board) (cid : String) (inp : TaskInput) (b' : Board),
      (add_task b cid inp).board = some b' →
      ∀ t, t ∈ get_all_tasks b' → t ∉ get_all_tasks b → taskOk t = true) := by
  refine ⟨?_, delete_subtask_last, add_task_new_tasks_ok⟩
  intro op b b' h hb
  cases op with
  | moveTask tid fc tc i => exact move_task_noEmpty b tid fc tc i b' hb h
  | addTask cid inp => exact add_task_noEmpty b cid inp b' hb h
  | updateTask cid tid nt nd => exact update_task_noEmpty b cid tid nt nd b' hb h
  | deleteTask cid tid => exact delete_task_noEmpty b cid tid b' hb h
  | toggleSubtask tid sid => exact toggle_subtask_noEmpty b tid sid b' hb h
  | updateBoardTitle nt => exact update_board_title_noEmpty b nt b' hb h
  | updateStatsConfig cols => exact update_stats_config_noEmpty b cols b' hb h
  | archiveTask cid tid => exact archive_task_noEmpty b cid tid b' hb h
  | restoreTask tid tc => exact restore_task_noEmpty b tid tc b' hb h
  | patchTask tid p => exact patch_task_noEmpty b tid p b' hb h
  | addSubtask tid title => exact add_subtask_noEmpty b tid title b' hb h
  | deleteSubtask tid sid => exact delete_subtask_noEmpty b tid sid b' hb h
  | updateSubtask tid sid title => exact update_subtask_noEmpty b tid sid title b' hb h
  | setSubtasksCompleted tid sids c => exact set_subtasks_completed_noEmpty b tid sids c b' hb h
  | setAllSubtasksCompleted tid c => exact set_all_subtasks_completed_noEmpty b tid c b' hb h
  | moveTasks ids tc => exact move_tasks_noEmpty b ids tc b' hb h
  | patchTasks ids p => exact patch_tasks_noEmpty b ids p b' hb h
  | deleteTasks ids => exact delete_tasks_noEmpty b ids b' hb h
  | archiveTasks ids => exact archive_tasks_noEmpty b ids b' hb h

/-- Witness for C10: deleting the only subtask of the only task of
`oneSubtaskBoard` keeps the invariant and stores `None`, not `[]`. -/
theorem mutation_no_empty_subtasks_witness :
    (∃ b', runOp (.deleteSubtask "task-1" "task-1-1") oneSubtaskBoard = some b' ∧
      noEmptySubtasks b' = true) ∧
    (∃ b2, (delete_subtask oneSubtaskBoard "task-1" "task-1-1").board = some b2 ∧
      (getTask? b2 "task-1").map Task.subtasks = some none) := by
  constructor
  · obtain ⟨b', hb'⟩ := Option.isSome_iff_exists.mp
      (show (runOp (.deleteSubtask "task-1" "task-1-1") oneSubtaskBoard).isSome = true by decide)
    exact ⟨b', hb', mutation_no_empty_subtasks.1 _ oneSubtaskBoard b' (by decide) hb'⟩
  · exact mutation_no_empty_subtasks.2.1 oneSubtaskBoard "task-1" "task-1-1"
      ⟨subTask, subCol, 0⟩ ⟨"task-1-1", "s", false⟩ (by decide) (by decide) rfl rfl

end Brainfile
